import Mathlib

/-!
# Field lifecycle injection (package `field` of qmgo)

A shallow embedding of `field/custom_field.go` and `field/field.go`.

* A Go struct value is a list of named fields; each field carries whether it is
  exported (which, for a struct reached through a pointer, is what
  `reflect.Value.CanSet` reports) and its current value, tagged by the declared type.
  A field of an interface type carries the value it holds, tagged by its dynamic
  type: the type switches of the setters look at the dynamic type, `SetInt`,
  `SetUint` and `SetString` at the kind of the field.
* An embedded (anonymous) struct field carries the fields below it, each with the path
  of embedded structs that leads to it. `reflect.Value.FieldByName` finds a field the
  struct declares or else the promoted field of that name: the one at the
  shallowest depth, if it is the only one of that name at that depth. Embedded
  pointers to structs are not modelled.
* In-place mutation through a pointer is explicit state passing: every operation
  returns the record as it is when the operation ends, together with how it ended
  (normal return, or a Go run-time panic).
* `time.Now`, `primitive.NewObjectID` and `uuid.NewString` are read from a `World`:
  a stream of results and the number of calls made so far.
* The methods a record type supplies are parameters of the model: the three
  `DefaultFieldHook` methods are pure functions on the fields, and `CustomFields()`
  is an accessor that returns the same configuration at every call.
* A document is the nil interface, a non-nil pointer to a struct, a struct by value,
  or a value of another kind; nil pointers and pointers to values that are not
  structs are not modelled.
* Diagnostic output (`fmt.Print*`) is not modelled.
-/

namespace Qmgo

/-! ## Machine integers -/

/-- Value of a mathematical integer after wrapping into Go's `int64`. -/
def wrapInt64 (x : Int) : Int := (x + 2 ^ 63) % 2 ^ 64 - 2 ^ 63

/-- Go's conversion `uint64(x)` of a signed integer. -/
def toUint64 (x : Int) : Nat := (x % 2 ^ 64).toNat

/-- Multiplication of two `uint64` values. -/
def mulUint64 (a b : Nat) : Nat := (a * b) % 2 ^ 64

/-! ## Values of the outside world -/

/-- A `time.Time`, reduced to what the package observes: the Unix seconds and the
nanoseconds within the second. -/
structure Time where
  sec : Int
  nsec : Nat
deriving DecidableEq, Repr

/-- Go's `Time.Unix()`. -/
def Time.Unix (t : Time) : Int := t.sec

/-- Go's `Time.UnixMilli()`: `unixSec*1e3 + nsec/1e6` in `int64`. -/
def Time.UnixMilli (t : Time) : Int := wrapInt64 (t.sec * 1000 + (t.nsec / 1000000 : Nat))

/-- Go's `Time.IsZero()`: January 1, year 1, 00:00:00 UTC. -/
def Time.IsZero (t : Time) : Bool := t.sec == -62135596800 && t.nsec == 0

/-- The package variable `nilTime` (the zero `time.Time`). -/
def nilTime : Time := ⟨-62135596800, 0⟩

/-- A `primitive.ObjectID`: twelve bytes, read as one number. -/
structure ObjectID where
  n : Nat
deriving DecidableEq, Repr

/-- Go's `ObjectID.IsZero()`. -/
def ObjectID.IsZero (o : ObjectID) : Bool := o.n == 0

/-- State of the environment: the results that successive calls of `time.Now()`,
`primitive.NewObjectID()` and `uuid.NewString()` give, and how many calls of each
were made so far. -/
structure World where
  now : Nat → Time
  ticks : Nat
  newObjectID : Nat → ObjectID
  oids : Nat
  uuid : Nat → String
  uuids : Nat

/-- Go's `time.Now()`: the reading and the world after the call. -/
def World.timeNow (w : World) : Time × World :=
  (w.now w.ticks, { w with ticks := w.ticks + 1 })

/-- Go's `primitive.NewObjectID()`. -/
def World.NewObjectID (w : World) : ObjectID × World :=
  (w.newObjectID w.oids, { w with oids := w.oids + 1 })

/-- Go's `uuid.NewString()`. -/
def World.NewString (w : World) : String × World :=
  (w.uuid w.uuids, { w with uuids := w.uuids + 1 })

/-- A value stored in a `context.Context`: a string, or a value of another type. -/
inductive CtxValue where
  | str (s : String)
  | nonString
deriving DecidableEq, Repr

/-- A `context.Context`, as the bindings it carries (innermost first). -/
abbrev Context := List (String × CtxValue)

/-- Go's `ctx.Value(key)` for a string key: `none` is the nil interface. -/
def Context.Value : Context → String → Option CtxValue
  | [], _ => none
  | (k, v) :: rest, key => if k = key then some v else Context.Value rest key

/-! ## Records -/

/-- The value an interface holds, by its dynamic type: what `ca.Interface()` returns
and the type switches of the setters look at. `nil` is the nil interface; a value of
a type other than the five the setters name is `other`. -/
inductive Dyn where
  | nil
  | time (t : Time)
  | int64 (n : Int)
  | uint64 (n : Nat)
  | string (s : String)
  | objectID (o : ObjectID)
  | other (descr : String)
deriving DecidableEq, Repr

/-- Declared type of a field: one of the five types the setters name, an interface
type (with an empty method set or not), an embedded struct, or any other type. -/
inductive Kind where
  | time | int64 | uint64 | string | objectID
  | other (descr : String)
  | iface (empty : Bool)
  | embedded
deriving DecidableEq, Repr

/-- Dynamic type of the value an interface holds. -/
def Dyn.kind : Dyn → Kind
  | .nil => .other "nil"
  | .time _ => .time
  | .int64 _ => .int64
  | .uint64 _ => .uint64
  | .string _ => .string
  | .objectID _ => .objectID
  | .other d => .other d

/-- Value of a field that belongs to an embedded struct, tagged by the field's declared
type. `struct` is a struct embedded in the embedded struct: its own fields are listed
beside it, with a longer path. -/
inductive Leaf where
  | time (t : Time)
  | int64 (n : Int)
  | uint64 (n : Nat)
  | string (s : String)
  | objectID (o : ObjectID)
  | other (descr : String)
  | iface (empty : Bool) (held : Dyn)
  | struct
deriving DecidableEq, Repr

/-- A field below an embedded (anonymous) struct field of the record: `path` names the
embedded structs from the record down to the struct that declares the field, so the
depth of the field is the length of `path`. -/
structure Promoted where
  path : List String
  name : String
  exported : Bool
  val : Leaf
deriving DecidableEq, Repr

/-- Value of a top-level struct field, tagged by the field's declared type. A field of
interface type carries the value it holds; an embedded struct carries all the fields
below it, at every depth. -/
inductive Value where
  | time (t : Time)
  | int64 (n : Int)
  | uint64 (n : Nat)
  | string (s : String)
  | objectID (o : ObjectID)
  | other (descr : String)
  | iface (empty : Bool) (held : Dyn)
  | embedded (below : List Promoted)
deriving DecidableEq, Repr

/-- Declared type of the field holding a value. -/
def Value.kind : Value → Kind
  | .time _ => .time
  | .int64 _ => .int64
  | .uint64 _ => .uint64
  | .string _ => .string
  | .objectID _ => .objectID
  | .other d => .other d
  | .iface e _ => .iface e
  | .embedded _ => .embedded

/-- Declared type of a field below an embedded struct. -/
def Leaf.kind : Leaf → Kind
  | .time _ => .time
  | .int64 _ => .int64
  | .uint64 _ => .uint64
  | .string _ => .string
  | .objectID _ => .objectID
  | .other d => .other d
  | .iface e _ => .iface e
  | .struct => .embedded

/-- A value read from a field below an embedded struct; `content` is what lies below
the field when it is itself an embedded struct. -/
def Leaf.toValue (l : Leaf) (content : List Promoted) : Value :=
  match l with
  | .time t => .time t
  | .int64 n => .int64 n
  | .uint64 n => .uint64 n
  | .string s => .string s
  | .objectID o => .objectID o
  | .other d => .other d
  | .iface e h => .iface e h
  | .struct => .embedded content

/-- A value as it is stored in a field below an embedded struct. -/
def Value.toLeaf : Value → Leaf
  | .time t => .time t
  | .int64 n => .int64 n
  | .uint64 n => .uint64 n
  | .string s => .string s
  | .objectID o => .objectID o
  | .other d => .other d
  | .iface e h => .iface e h
  | .embedded _ => .struct

/-- A field of a struct. -/
structure Field where
  name : String
  exported : Bool
  val : Value
deriving DecidableEq, Repr

/-- Go's `reflect.Value.CanSet()` for a field of a struct reached through a pointer:
the field is exported (an unexported embedded struct on the way does not matter). -/
def Field.CanSet (f : Field) : Bool := f.exported

/-- The field of that name declared by the struct itself (depth 0). -/
def topField : List Field → String → Option Field
  | [], _ => none
  | f :: fs, name => if f.name = name then some f else topField fs name

/-- All the fields below the embedded struct fields of the record. -/
def promotedFields : List Field → List Promoted
  | [] => []
  | f :: fs =>
    (match f.val with
      | .embedded below => below
      | _ => []) ++ promotedFields fs

/-- Go's rule for a promoted field: among the fields of that name below the embedded
structs, the one at the shallowest depth, if it is the only one at that depth. -/
def promotedByName (ps : List Promoted) (name : String) : Option Promoted :=
  match (ps.filter fun p => p.name = name).filter fun p =>
      (ps.filter fun q => q.name = name).all fun q => p.path.length ≤ q.path.length with
  | [p] => some p
  | _ => none

/-- A promoted field as `FieldByName` returns it: an embedded struct comes with the
fields below it. -/
def Promoted.toField (all : List Promoted) (p : Promoted) : Field :=
  ⟨p.name, p.exported, p.val.toValue (all.filter fun q => (p.path ++ [p.name]).isPrefixOf q.path)⟩

/-- Go's `reflect.Value.FieldByName`: the field of that name of the struct itself, or
else the promoted field of that name; `none` is the zero `reflect.Value`. (Embedded
pointers to structs are not modelled.) -/
def FieldByName (fs : List Field) (name : String) : Option Field :=
  match topField fs name with
  | some f => some f
  | none => (promotedByName (promotedFields fs) name).map (Promoted.toField (promotedFields fs))

/-- Assignment to the top-level field of that name. -/
def setTop : List Field → String → Value → List Field
  | [], _, _ => []
  | f :: fs, name, v =>
    if f.name = name then { f with val := v } :: fs else f :: setTop fs name v

/-- Assignment to the field of that name and depth in a list of promoted fields. -/
def setPromoted (name : String) (depth : Nat) (l : Leaf) (ps : List Promoted) :
    List Promoted :=
  ps.map fun p => if p.name = name ∧ p.path.length = depth then { p with val := l } else p

/-- Assignment to the field of that name and depth below an embedded struct field. -/
def Field.setBelow (name : String) (depth : Nat) (l : Leaf) (f : Field) : Field :=
  match f.val with
  | .embedded below => { f with val := .embedded (setPromoted name depth l below) }
  | _ => f

/-- Effect of `ca.Set*(v)` where `ca` is the field found by `FieldByName`. -/
def setField (fs : List Field) (name : String) (v : Value) : List Field :=
  match topField fs name with
  | some _ => setTop fs name v
  | none =>
    match promotedByName (promotedFields fs) name with
    | some p => fs.map (Field.setBelow name p.path.length v.toLeaf)
    | none => fs

/-- Path, name, export mark and declared type of a field below an embedded struct. -/
def Promoted.shape (p : Promoted) : List String × String × Bool × Kind :=
  (p.path, p.name, p.exported, p.val.kind)

/-- Shapes of the fields below an embedded struct. -/
def Value.belowShape : Value → List (List String × String × Bool × Kind)
  | .embedded below => below.map Promoted.shape
  | _ => []

/-- None of the fields below the value, if it is an embedded struct, has one of the
given names. A value that is not an embedded struct has no fields below it. -/
def Value.clearOf (v : Value) (names : List String) : Bool :=
  match v with
  | .embedded below => below.all fun p => decide (p.name ∉ names)
  | _ => true

/-- Names, export marks and declared types of the fields, those below embedded structs
included: what no code can change. -/
def shapeOf (fs : List Field) :
    List (String × Bool × Kind × List (List String × String × Bool × Kind)) :=
  fs.map fun f => (f.name, f.exported, f.val.kind, f.val.belowShape)

/-- The interface `DefaultFieldHook` (declared outside the two source files): three
parameterless methods of the record type. They are the record type's own code and
are taken as parameters: pure functions on the fields that keep the struct's shape. -/
structure DefaultFieldHook where
  DefaultId : List Field → List Field
  DefaultCreateAt : List Field → List Field
  DefaultUpdateAt : List Field → List Field
  shape_DefaultId : ∀ fs, shapeOf (DefaultId fs) = shapeOf fs
  shape_DefaultCreateAt : ∀ fs, shapeOf (DefaultCreateAt fs) = shapeOf fs
  shape_DefaultUpdateAt : ∀ fs, shapeOf (DefaultUpdateAt fs) = shapeOf fs

/-- The struct `CustomFields`. -/
structure CustomFields where
  createAt : String
  createBy : String
  createByKey : String
  updateAt : String
  updateBy : String
  updateByKey : String
  id : String
deriving DecidableEq, Repr

/-- What a record's `CustomFields()` method returns: a `CustomFieldsBuilder` whose
dynamic type is `*CustomFields`, or one of a type defined elsewhere. -/
inductive CustomFieldsBuilder where
  | custom (c : CustomFields)
  | foreign
deriving DecidableEq, Repr

/-- `NewCustom`. -/
def NewCustom : CustomFields := ⟨"", "", "", "", "", "", ""⟩

/-- `SetUpdateAt`. -/
def CustomFields.SetUpdateAt (c : CustomFields) (fieldName : String) : CustomFields :=
  { c with updateAt := fieldName }

/-- `SetUpdateBy`. -/
def CustomFields.SetUpdateBy (c : CustomFields) (fieldName key : String) : CustomFields :=
  { c with updateBy := fieldName, updateByKey := key }

/-- `SetCreateAt`. -/
def CustomFields.SetCreateAt (c : CustomFields) (fieldName : String) : CustomFields :=
  { c with createAt := fieldName }

/-- `SetCreateBy`. -/
def CustomFields.SetCreateBy (c : CustomFields) (fieldName key : String) : CustomFields :=
  { c with createBy := fieldName, createByKey := key }

/-- `SetId`. -/
def CustomFields.SetId (c : CustomFields) (fieldName : String) : CustomFields :=
  { c with id := fieldName }

/-- A struct value together with the method set of its dynamic type: the
`DefaultFieldHook` methods if the type has them, and the result of `CustomFields()`
if the type implements `CustomFieldsHook`. -/
structure Record where
  fields : List Field
  defaultHook : Option DefaultFieldHook
  customHook : Option CustomFieldsBuilder

/-- The record after `ca.Set*(v)` on its field of the given name. -/
def Record.set (r : Record) (name : String) (v : Value) : Record :=
  { r with fields := setField r.fields name v }

/-- One document as `do` receives it in an `interface{}`. -/
inductive Doc where
  | nil
  | ptr (r : Record)
  | value (r : Record)
  | other

/-- The argument `doc` of `Do`: one document, a slice of documents, or a pointer to a
slice of documents. -/
inductive Input where
  | doc (d : Doc)
  | slice (ds : List Doc)
  | ptrSlice (ds : List Doc)

/-- Reasons of the run-time panics the package can raise: a method called on the nil
`reflect.Type`, a `reflect.Value.Set` with a value that is not assignable to the
field's type, a failed type assertion, and a `SetInt`, `SetUint` or `SetString` on a
field of another kind. -/
inductive Panic where
  | nilType
  | notAssignable
  | typeAssertion
  | kindMismatch
deriving DecidableEq, Repr

/-- How a call ended: it returned (the `error` result is always `nil`), or it
panicked. -/
inductive Exit where
  | ok
  | panic (reason : Panic)
deriving DecidableEq, Repr

/-- Result of running an operation: the world and the document as the operation
left them, and how it ended. -/
structure Run (α : Type) where
  world : World
  doc : α
  exit : Exit

/-- Sequencing of two statements: the second runs only if the first returned. -/
def Run.andThen (x : Run Doc) (f : World → Doc → Run Doc) : Run Doc :=
  match x.exit with
  | .ok => f x.world x.doc
  | .panic _ => x

/-- The named field of the record a document holds or refers to. -/
def Doc.lookup (d : Doc) (name : String) : Option Field :=
  match d with
  | .ptr r => FieldByName r.fields name
  | .value r => FieldByName r.fields name
  | _ => none

/-- Current value of a named field of the record a document refers to. -/
def Doc.field (d : Doc) (name : String) : Option Value :=
  (d.lookup name).map Field.val

/-- Export mark and declared type of a named field of the record of a document:
`some (true, k)` says that the field exists, is settable and has declared type `k`. -/
def Doc.fieldType (d : Doc) (name : String) : Option (Bool × Kind) :=
  (d.lookup name).map fun f => (f.exported, f.val.kind)

/-- Whether the document is a reference to a record. -/
def Doc.isPtr : Doc → Bool
  | .ptr _ => true
  | _ => false

/-- The `DefaultFieldHook` methods of the dynamic type of a document, if it has them. -/
def Doc.defaultHook : Doc → Option DefaultFieldHook
  | .ptr r => r.defaultHook
  | .value r => r.defaultHook
  | _ => none

/-- Relation between a document before and after a setter: nothing changed, or the
document refers to a record whose settable field `g` held a value satisfying `Q` and
was given a new value of the same declared type, not a struct. -/
def Doc.Wrote (Q : Value → Prop) (g : String) (d1 d2 : Doc) : Prop :=
  d2 = d1 ∨ ∃ r ca v, d1 = .ptr r ∧ FieldByName r.fields g = some ca ∧ ca.CanSet = true ∧
    Q ca.val ∧ v.kind = ca.val.kind ∧ v.kind ≠ .embedded ∧ d2 = .ptr (r.set g v)

/-! ## The operations of `reflect` on the field found -/

/-- Go's `ca.Interface()`: the value of the field by its dynamic type. For a field of
interface type it is the value the interface holds. -/
def Value.Interface : Value → Dyn
  | .time t => .time t
  | .int64 n => .int64 n
  | .uint64 n => .uint64 n
  | .string s => .string s
  | .objectID o => .objectID o
  | .other d => .other d
  | .iface _ held => held
  | .embedded _ => .other "struct"

/-- Go's `ca.Set(reflect.ValueOf(x))`: the new value of the field, or the panic. A
value is assignable to a field of its own type; to a field of interface type it is
assignable if the interface is empty or already holds a value of that type. (The
setters pass an `int64`, which has no methods and so implements no other interface,
or a value of the type the field already holds.) -/
def Value.Set (ca : Value) (x : Dyn) : Except Panic Value :=
  match ca, x with
  | .time _, .time t => .ok (.time t)
  | .int64 _, .int64 n => .ok (.int64 n)
  | .uint64 _, .uint64 n => .ok (.uint64 n)
  | .string _, .string s => .ok (.string s)
  | .objectID _, .objectID o => .ok (.objectID o)
  | .iface e held, x =>
    if e || decide (x.kind = held.kind) then .ok (.iface e x) else .error .notAssignable
  | _, _ => .error .notAssignable

/-- Go's `ca.SetInt(n)`: it panics unless the field's kind is a signed integer. -/
def Value.SetInt (ca : Value) (n : Int) : Except Panic Value :=
  match ca with
  | .int64 _ => .ok (.int64 n)
  | _ => .error .kindMismatch

/-- Go's `ca.SetUint(n)`: it panics unless the field's kind is an unsigned integer. -/
def Value.SetUint (ca : Value) (n : Nat) : Except Panic Value :=
  match ca with
  | .uint64 _ => .ok (.uint64 n)
  | _ => .error .kindMismatch

/-- Go's `ca.SetString(s)`: it panics unless the field's kind is string. -/
def Value.SetString (ca : Value) (s : String) : Except Panic Value :=
  match ca with
  | .string _ => .ok (.string s)
  | _ => .error .kindMismatch

/-- Go's `ca.String()`: the string of a field of kind string; for a field of another
kind a text that names the type, never empty. -/
def Value.String : Value → String
  | .string s => s
  | _ => "<interface Value>"

/-- The outcome of a `Set*` call on the field `fieldName` of the record: the record
with the new value, or the panic with the record as it was. -/
def Record.write (r : Record) (w : World) (fieldName : String) (res : Except Panic Value) :
    Run Doc :=
  match res with
  | .ok v => ⟨w, .ptr (r.set fieldName v), .ok⟩
  | .error p => ⟨w, .ptr r, .panic p⟩

/-! ## `custom_field.go`: the typed setters -/

/-- `setUpdatedTime`. -/
def setUpdatedTime (w : World) (_ctx : Context) (doc : Doc) (fieldName : String) :
    Run Doc :=
  match doc with
  | .nil => ⟨w, doc, .panic .nilType⟩
  | .ptr r =>
    match FieldByName r.fields fieldName with
    | none => ⟨w, doc, .ok⟩
    | some ca =>
      if ca.CanSet then
        let tt := w.timeNow.1
        let w1 := w.timeNow.2
        match ca.val.Interface with
        | .time _ => r.write w1 fieldName (ca.val.Set (.int64 tt.UnixMilli))
        | .int64 _ => r.write w1 fieldName (ca.val.SetInt (wrapInt64 (tt.Unix * 1000)))
        | .uint64 _ =>
          r.write w1 fieldName (ca.val.SetUint (mulUint64 (toUint64 tt.Unix) 1000))
        | _ => ⟨w1, doc, .ok⟩
      else ⟨w, doc, .ok⟩
  | _ => ⟨w, doc, .ok⟩

/-- `setBy`. -/
def setBy (w : World) (ctx : Context) (doc : Doc) (fieldName ctxKey : String) :
    Run Doc :=
  match doc with
  | .nil => ⟨w, doc, .panic .nilType⟩
  | .ptr r =>
    match FieldByName r.fields fieldName with
    | none => ⟨w, doc, .ok⟩
    | some ca =>
      if ca.CanSet then
        match ca.val.Interface with
        | .string _ =>
          match ctx.Value ctxKey with
          | some (.str s) =>
            if s.length > 0 then r.write w fieldName (ca.val.SetString s)
            else ⟨w, doc, .ok⟩
          | _ => ⟨w, doc, .panic .typeAssertion⟩
        | _ => ⟨w, doc, .ok⟩
      else ⟨w, doc, .ok⟩
  | _ => ⟨w, doc, .ok⟩

/-- `setTime`. -/
def setTime (w : World) (_ctx : Context) (doc : Doc) (fieldName : String)
    (overWrite : Bool) : Run Doc :=
  match doc with
  | .nil => ⟨w, doc, .panic .nilType⟩
  | .ptr r =>
    match FieldByName r.fields fieldName with
    | none => ⟨w, doc, .ok⟩
    | some ca =>
      if ca.CanSet then
        let tt := w.timeNow.1
        let w1 := w.timeNow.2
        match ca.val.Interface with
        | .time t =>
          if t.IsZero then r.write w1 fieldName (ca.val.Set (.int64 tt.UnixMilli))
          else if overWrite then r.write w1 fieldName (ca.val.Set (.time tt))
          else ⟨w1, doc, .ok⟩
        | .int64 n =>
          if n = 0 then
            r.write w1 fieldName (ca.val.SetInt (wrapInt64 (tt.Unix * 1000)))
          else if overWrite then
            r.write w1 fieldName (ca.val.SetInt (wrapInt64 (tt.Unix * 1000)))
          else ⟨w1, doc, .ok⟩
        | .uint64 n =>
          if n = 0 then
            r.write w1 fieldName (ca.val.SetUint (toUint64 (wrapInt64 (tt.Unix * 1000))))
          else if overWrite then
            r.write w1 fieldName (ca.val.SetUint (toUint64 (wrapInt64 (tt.Unix * 1000))))
          else ⟨w1, doc, .ok⟩
        | _ => ⟨w1, doc, .ok⟩
      else ⟨w, doc, .ok⟩
  | _ => ⟨w, doc, .ok⟩

/-- `setId`. -/
def setId (w : World) (_ctx : Context) (doc : Doc) (fieldName : String) : Run Doc :=
  match doc with
  | .nil => ⟨w, doc, .panic .nilType⟩
  | .ptr r =>
    match FieldByName r.fields fieldName with
    | none => ⟨w, doc, .ok⟩
    | some ca =>
      if ca.CanSet then
        match ca.val.Interface with
        | .objectID o =>
          if o.IsZero then
            r.write w.NewObjectID.2 fieldName (ca.val.Set (.objectID w.NewObjectID.1))
          else ⟨w, doc, .ok⟩
        | .string _ =>
          if ca.val.String = "" then
            r.write w.NewString.2 fieldName (ca.val.SetString w.NewString.1)
          else ⟨w, doc, .ok⟩
        | _ => ⟨w, doc, .ok⟩
      else ⟨w, doc, .ok⟩
  | _ => ⟨w, doc, .ok⟩

/-! ## `custom_field.go`: the methods of `CustomFields` -/

/-- `CustomCreateTime`. -/
def CustomFields.CustomCreateTime (c : CustomFields) (w : World) (ctx : Context)
    (doc : Doc) : Run Doc :=
  if c.createAt = "" then ⟨w, doc, .ok⟩
  else setTime w ctx doc c.createAt false

/-- `CustomCreateBy`. -/
def CustomFields.CustomCreateBy (c : CustomFields) (w : World) (ctx : Context)
    (doc : Doc) : Run Doc :=
  if c.createBy = "" then ⟨w, doc, .ok⟩
  else setBy w ctx doc c.createBy c.createByKey

/-- `CustomUpdateTime`. -/
def CustomFields.CustomUpdateTime (c : CustomFields) (w : World) (ctx : Context)
    (doc : Doc) : Run Doc :=
  if c.updateAt = "" then ⟨w, doc, .ok⟩
  else setUpdatedTime w ctx doc c.updateAt

/-- `CustomUpdateBy`: the guard reads `createBy`, the setter uses `updateBy`. -/
def CustomFields.CustomUpdateBy (c : CustomFields) (w : World) (ctx : Context)
    (doc : Doc) : Run Doc :=
  if c.createBy = "" then ⟨w, doc, .ok⟩
  else setBy w ctx doc c.updateBy c.updateByKey

/-- `CustomId`. -/
def CustomFields.CustomId (c : CustomFields) (w : World) (ctx : Context)
    (doc : Doc) : Run Doc :=
  if c.id = "" then ⟨w, doc, .ok⟩
  else setId w ctx doc c.id

/-! ## `field.go`: the dispatcher -/

/-- Modelled from the spec: the type `operator.OpType` and its constants are declared
in package `operator`, outside the two source files; the operation phase is
before-insert, before-update, before-replace, before-upsert, or any other value. -/
inductive OpType where
  | BeforeInsert
  | BeforeUpdate
  | BeforeReplace
  | BeforeUpsert
  | other (name : String)
deriving DecidableEq, Repr

/-- The type assertion `doc.(DefaultFieldHook)` followed by a call of one method of
the hook. The methods mutate the record only through a pointer. -/
def Doc.callDefault (doc : Doc) (m : DefaultFieldHook → List Field → List Field) : Doc :=
  match doc with
  | .ptr r =>
    match r.defaultHook with
    | some h => .ptr { r with fields := m h r.fields }
    | none => doc
  | _ => doc

/-- The type assertion `doc.(CustomFieldsHook)` followed by `ih.CustomFields()`. -/
def Doc.customFields (doc : Doc) : Option CustomFieldsBuilder :=
  match doc with
  | .ptr r => r.customHook
  | .value r => r.customHook
  | _ => none

/-- `beforeInsert`. -/
def beforeInsert (w : World) (ctx : Context) (doc : Doc) : Run Doc :=
  let doc1 := ((doc.callDefault DefaultFieldHook.DefaultId).callDefault
    DefaultFieldHook.DefaultCreateAt).callDefault DefaultFieldHook.DefaultUpdateAt
  match doc1.customFields with
  | none => ⟨w, doc1, .ok⟩
  | some .foreign => ⟨w, doc1, .panic .typeAssertion⟩
  | some (.custom fields) =>
    ((((fields.CustomId w ctx doc1).andThen fun w1 d1 =>
      fields.CustomCreateTime w1 ctx d1).andThen fun w2 d2 =>
      fields.CustomCreateBy w2 ctx d2).andThen fun w3 d3 =>
      fields.CustomUpdateTime w3 ctx d3).andThen fun w4 d4 =>
      fields.CustomUpdateBy w4 ctx d4

/-- `beforeUpdate`. -/
def beforeUpdate (w : World) (ctx : Context) (doc : Doc) : Run Doc :=
  let doc1 := doc.callDefault DefaultFieldHook.DefaultUpdateAt
  match doc1.customFields with
  | none => ⟨w, doc1, .ok⟩
  | some .foreign => ⟨w, doc1, .panic .typeAssertion⟩
  | some (.custom fields) =>
    (fields.CustomUpdateTime w ctx doc1).andThen fun w1 d1 =>
      fields.CustomUpdateBy w1 ctx d1

/-- `beforeUpsert`. -/
def beforeUpsert (w : World) (ctx : Context) (doc : Doc) : Run Doc :=
  let doc1 := ((doc.callDefault DefaultFieldHook.DefaultId).callDefault
    DefaultFieldHook.DefaultCreateAt).callDefault DefaultFieldHook.DefaultUpdateAt
  match doc1.customFields with
  | none => ⟨w, doc1, .ok⟩
  | some .foreign => ⟨w, doc1, .panic .typeAssertion⟩
  | some (.custom fields) =>
    ((((fields.CustomId w ctx doc1).andThen fun w1 d1 =>
      fields.CustomCreateTime w1 ctx d1).andThen fun w2 d2 =>
      fields.CustomCreateBy w2 ctx d2).andThen fun w3 d3 =>
      fields.CustomUpdateTime w3 ctx d3).andThen fun w4 d4 =>
      fields.CustomUpdateBy w4 ctx d4

/-- The map `fieldHandler`. -/
def fieldHandler : OpType → Option (World → Context → Doc → Run Doc)
  | .BeforeInsert => some beforeInsert
  | .BeforeUpdate => some beforeUpdate
  | .BeforeReplace => some beforeUpdate
  | .BeforeUpsert => some beforeUpsert
  | .other _ => none

/-- The function `do`. -/
def do_ (w : World) (ctx : Context) (doc : Doc) (opType : OpType) : Run Doc :=
  match fieldHandler opType with
  | none => ⟨w, doc, .ok⟩
  | some f => f w ctx doc

/-- `sliceHandle`: the loop over the elements, stopping at the first that does not
return normally. -/
def sliceHandle (w : World) (ctx : Context) : List Doc → OpType → Run (List Doc)
  | [], _ => ⟨w, [], .ok⟩
  | v :: rest, opType =>
    let x := do_ w ctx v opType
    match x.exit with
    | .ok =>
      let y := sliceHandle x.world ctx rest opType
      ⟨y.world, x.doc :: y.doc, y.exit⟩
    | .panic p => ⟨x.world, x.doc :: rest, .panic p⟩

/-- `Do`. -/
def Do (w : World) (ctx : Context) (doc : Input) (opType : OpType) : Run Input :=
  match doc with
  | .doc .nil => ⟨w, doc, .ok⟩
  | .slice ds =>
    let x := sliceHandle w ctx ds opType
    ⟨x.world, .slice x.doc, x.exit⟩
  | .ptrSlice ds =>
    let x := sliceHandle w ctx ds opType
    ⟨x.world, .ptrSlice x.doc, x.exit⟩
  | .doc (.ptr r) =>
    let x := do_ w ctx (.ptr r) opType
    ⟨x.world, .doc x.doc, x.exit⟩
  | .doc _ => ⟨w, doc, .ok⟩

/-- The `DefaultFieldHook` methods of the document's type, if it has them, leave the
named field as it is. -/
def Doc.DefaultKeeps (d : Doc) (name : String) : Prop :=
  ∀ h, d.defaultHook = some h → ∀ fs,
    FieldByName (h.DefaultId fs) name = FieldByName fs name
      ∧ FieldByName (h.DefaultCreateAt fs) name = FieldByName fs name
      ∧ FieldByName (h.DefaultUpdateAt fs) name = FieldByName fs name

/-- The setting of the round trip: a record reference whose configuration names
three distinct settable fields, the string `i` as identifier and the `int64` fields
`ct` and `u` as create time and update time, and no create-by field, and whose
`DefaultFieldHook` methods, if any, leave `i` and `ct` as they are. -/
structure InsertSetup (c : CustomFields) (i ct u : String) (d : Doc) : Prop where
  isPtr : d.isPtr = true
  custom : d.customFields = some (.custom c)
  id_eq : c.id = i
  createAt_eq : c.createAt = ct
  updateAt_eq : c.updateAt = u
  createBy_eq : c.createBy = ""
  id_ne : i ≠ ""
  createAt_ne : ct ≠ ""
  updateAt_ne : u ≠ ""
  id_createAt : i ≠ ct
  id_updateAt : i ≠ u
  createAt_updateAt : ct ≠ u
  id_type : d.fieldType i = some (true, .string)
  createAt_type : d.fieldType ct = some (true, .int64)
  updateAt_type : d.fieldType u = some (true, .int64)
  keeps_id : d.DefaultKeeps i
  keeps_createAt : d.DefaultKeeps ct

/-- Current value of a named field of the single record an input refers to. -/
def Input.field (i : Input) (name : String) : Option Value :=
  match i with
  | .doc d => d.field name
  | _ => none

/-- Two calls of `Do` with `BeforeInsert` in succession on the same input: the
result of the first call and the result of the second, which starts from the world
and the record the first one left. -/
def insertTwice (w : World) (ctx : Context) (doc : Input) : Run Input × Run Input :=
  let first := Do w ctx doc .BeforeInsert
  (first, Do first.world ctx first.doc .BeforeInsert)

/-! ## Vocabulary of the claims on collections and skipped fields -/

/-- The records of a collection after each one, in order, has been given to the
handler sequence of the phase, and the world after the last: what "every record is
processed in order" says, written without the stop at a failure. -/
def handleAll (w : World) (ctx : Context) : List Doc → OpType → World × List Doc
  | [], _ => (w, [])
  | v :: rest, opType =>
    let x := do_ w ctx v opType
    let y := handleAll x.world ctx rest opType
    (y.1, x.doc :: y.2)

/-- No record of the collection, processed in order, ends in a failure. -/
def allHandled (w : World) (ctx : Context) : List Doc → OpType → Bool
  | [], _ => true
  | v :: rest, opType =>
    let x := do_ w ctx v opType
    decide (x.exit = .ok) && allHandled x.world ctx rest opType

/-- The records of an input that is a collection. -/
def Input.docs : Input → List Doc
  | .doc _ => []
  | .slice ds => ds
  | .ptrSlice ds => ds

/-- The types `setTime` and `setUpdatedTime` have a branch for. -/
def timeKinds : List Kind := [.time, .int64, .uint64]

/-- The types `setBy` has a branch for. -/
def byKinds : List Kind := [.string]

/-- The types `setId` has a branch for. -/
def idKinds : List Kind := [.objectID, .string]

/-- The named field does not exist in the record, is not settable, or holds a value
whose dynamic type is outside the given list. -/
def Record.skips (r : Record) (fieldName : String) (supported : List Kind) : Bool :=
  match FieldByName r.fields fieldName with
  | none => true
  | some ca => !ca.CanSet || decide (ca.val.Interface.kind ∉ supported)

/-! ## Sample inputs -/

/-- A world whose clock reads 1700000000.5 s, then one second later at each call, and
whose generators give non-zero identifiers and non-empty strings. -/
def sampleWorld : World :=
  ⟨fun n => ⟨1700000000 + n, 500000000⟩, 0, fun n => ⟨n + 1⟩, 0,
    fun n => String.mk ('u' :: List.replicate n 'x'), 0⟩

/-- A record with a settable string field `UpdateBy`, empty, whose `CustomFields()`
is `NewCustom().SetUpdateBy("UpdateBy", "editor_ctx_key")`. -/
def editedRecord : Record :=
  ⟨[⟨"UpdateBy", true, .string ""⟩], none,
    some (.custom (NewCustom.SetUpdateBy "UpdateBy" "editor_ctx_key"))⟩

/-- A context holding `"alice"` at the key `"editor_ctx_key"`. -/
def aliceContext : Context := [("editor_ctx_key", .str "alice")]

/-- A record with a settable `int64` field `UpdateAt` holding 42, named as the
update-time field. -/
def stampedRecord : Record :=
  ⟨[⟨"Name", true, .string "n"⟩, ⟨"UpdateAt", true, .int64 42⟩], none,
    some (.custom (NewCustom.SetUpdateAt "UpdateAt"))⟩

/-- A record with a settable `time.Time` field `UpdateAt` holding a non-zero time,
named as the update-time field. -/
def timedRecord : Record :=
  ⟨[⟨"UpdateAt", true, .time ⟨1600000000, 0⟩⟩], none,
    some (.custom (NewCustom.SetUpdateAt "UpdateAt"))⟩

/-- A record with a settable `time.Time` field `CreateAt` holding the zero time. -/
def freshTimedRecord : Record :=
  ⟨[⟨"CreateAt", true, .time nilTime⟩], none,
    some (.custom (NewCustom.SetCreateAt "CreateAt"))⟩

/-- A record with a settable string field `CreateBy` holding `"bob"`. -/
def ownedRecord : Record :=
  ⟨[⟨"CreateBy", true, .string "bob"⟩], none,
    some (.custom (NewCustom.SetCreateBy "CreateBy" "creator"))⟩

/-- A record with settable fields `Id` (string), `CreateAt` and `UpdateAt` (`int64`),
all three named in its configuration; `CreateAt` holds 1234. -/
def storedRecord : Record :=
  ⟨[⟨"Id", true, .string "abc"⟩, ⟨"CreateAt", true, .int64 1234⟩,
      ⟨"UpdateAt", true, .int64 1234⟩], none,
    some (.custom (((NewCustom.SetId "Id").SetCreateAt "CreateAt").SetUpdateAt "UpdateAt"))⟩

/-- A record with an empty settable string field `CreateBy`, named both as the
create-by field (key `"creator"`) and as the update-by field (key `"editor"`). -/
def sharedByRecord : Record :=
  ⟨[⟨"CreateBy", true, .string ""⟩], none,
    some (.custom ((NewCustom.SetCreateBy "CreateBy" "creator").SetUpdateBy "CreateBy"
      "editor"))⟩

/-- A context holding `"alice"` at `"creator"` and `"bob"` at `"editor"`. -/
def twoActorsContext : Context := [("creator", .str "alice"), ("editor", .str "bob")]

/-- A record with an empty settable string field `CreateBy` and an `int64` field
`CreateAt`, configured by `SetCreateAt` and `SetCreateBy`. -/
def authoredRecord : Record :=
  ⟨[⟨"CreateAt", true, .int64 0⟩, ⟨"CreateBy", true, .string ""⟩], none,
    some (.custom ((NewCustom.SetCreateAt "CreateAt").SetCreateBy "CreateBy" "creator"))⟩

/-- A record whose identifier field `id` is unexported and holds the zero
`ObjectID`. -/
def hiddenIdRecord : Record :=
  ⟨[⟨"id", false, .objectID ⟨0⟩⟩], none, some (.custom (NewCustom.SetId "id"))⟩

/-- A record whose identifier field `Id` is exported and holds the zero `ObjectID`. -/
def newIdRecord : Record :=
  ⟨[⟨"Id", true, .objectID ⟨0⟩⟩], none, some (.custom (NewCustom.SetId "Id"))⟩

/-- A record with settable fields `Id` (string), `CreateAt` and `UpdateAt` (`int64`),
all empty or zero, all three named in its configuration. -/
def blankRecord : Record :=
  ⟨[⟨"Id", true, .string ""⟩, ⟨"CreateAt", true, .int64 0⟩,
      ⟨"UpdateAt", true, .int64 0⟩], none,
    some (.custom (((NewCustom.SetId "Id").SetCreateAt "CreateAt").SetUpdateAt "UpdateAt"))⟩

/-- A world whose clock reads 0.5 s after the Unix epoch at the first call of
`time.Now()` and one second more at each later call. -/
def epochWorld : World :=
  ⟨fun n => ⟨n, 500000000⟩, 0, fun n => ⟨n + 1⟩, 0,
    fun n => String.mk ('u' :: List.replicate n 'x'), 0⟩

/-- A record whose single `int64` field `Stamp`, holding 1234, is named both as the
create-time field and as the update-time field. -/
def restampedRecord : Record :=
  ⟨[⟨"Stamp", true, .int64 1234⟩], none,
    some (.custom ((NewCustom.SetCreateAt "Stamp").SetUpdateAt "Stamp"))⟩

/-- A record with an exported string field `Name`, an unexported `int64` field
`updateAt` and no field `CreateBy`. -/
def plainRecord : Record :=
  ⟨[⟨"Name", true, .string "n"⟩, ⟨"updateAt", false, .int64 7⟩], none,
    some (.custom NewCustom)⟩

/-- A record with a settable `uint64` field `UpdateAt` holding 5. -/
def countedRecord : Record :=
  ⟨[⟨"UpdateAt", true, .uint64 5⟩], none,
    some (.custom (NewCustom.SetUpdateAt "UpdateAt"))⟩

/-- A record of a type that embeds the struct `Base`, which declares the `int64` field
`UpdateAt` (holding 42); the record's own field is `Name`. The configuration names the
promoted field `UpdateAt` as update-time field. -/
def embeddingRecord : Record :=
  ⟨[⟨"Base", true, .embedded [⟨["Base"], "UpdateAt", true, .int64 42⟩]⟩,
      ⟨"Name", true, .string "n"⟩], none,
    some (.custom (NewCustom.SetUpdateAt "UpdateAt"))⟩

/-- The same struct with a configuration that names the embedded struct `Base` as
create-time field and the promoted field `UpdateAt` as update-time field. -/
def baseStampedRecord : Record :=
  ⟨[⟨"Base", true, .embedded [⟨["Base"], "UpdateAt", true, .int64 42⟩]⟩,
      ⟨"Name", true, .string "n"⟩], none,
    some (.custom ((NewCustom.SetCreateAt "Base").SetUpdateAt "UpdateAt"))⟩

/-- A record whose identifier field `Id` is declared `interface{}` and holds the zero
`ObjectID`. -/
def ifaceIdRecord : Record :=
  ⟨[⟨"Id", true, .iface true (.objectID ⟨0⟩)⟩], none, some (.custom (NewCustom.SetId "Id"))⟩

/-- A record whose create-time field `CreateAt` is declared `interface{}` and holds the
`int64` 0, with an empty string field `CreateBy`, configured by `SetCreateAt` and
`SetCreateBy`. -/
def ifaceStampRecord : Record :=
  ⟨[⟨"CreateAt", true, .iface true (.int64 0)⟩, ⟨"CreateBy", true, .string ""⟩], none,
    some (.custom ((NewCustom.SetCreateAt "CreateAt").SetCreateBy "CreateBy" "creator"))⟩

/-! ## Lemmas: fields of a struct -/

theorem Leaf.toValue_kind (l : Leaf) (c : List Promoted) : (l.toValue c).kind = l.kind := by
  cases l <;> rfl

theorem Value.toLeaf_kind (v : Value) : v.toLeaf.kind = v.kind := by
  cases v <;> rfl

theorem Value.toValue_toLeaf {v : Value} (h : v.kind ≠ .embedded) (c : List Promoted) :
    v.toLeaf.toValue c = v := by
  cases v <;> first | rfl | exact absurd rfl h

theorem topField_name {fs : List Field} {n : String} {f : Field}
    (h : topField fs n = some f) : f.name = n := by
  induction fs with
  | nil => simp [topField] at h
  | cons g gs ih =>
    unfold topField at h
    split at h
    · cases h; assumption
    · exact ih h

theorem topField_setTop_self (fs : List Field) (n : String) (v : Value) :
    topField (setTop fs n v) n = (topField fs n).map fun f => { f with val := v } := by
  induction fs with
  | nil => rfl
  | cons g gs ih =>
    by_cases hg : g.name = n
    · simp [topField, setTop, hg]
    · simp [topField, setTop, hg, ih]

theorem topField_setTop_ne (fs : List Field) {n m : String} (v : Value)
    (hne : n ≠ m) : topField (setTop fs n v) m = topField fs m := by
  induction fs with
  | nil => rfl
  | cons g gs ih =>
    by_cases hg : g.name = n
    · have hm : ¬ g.name = m := fun h => hne (hg.symm.trans h)
      simp [topField, setTop, hg, hm, hne]
    · by_cases hm : g.name = m
      · simp only [setTop, hg, if_false]
        simp only [topField, hm, if_true]
      · simp only [setTop, hg, if_false]
        simp only [topField, hm, if_false, ih]

/-- Writing a value that is not a struct into a top-level field that is not a struct
leaves the promoted fields as they are. -/
theorem promotedFields_setTop (fs : List Field) (n : String) (v : Value)
    (hv : v.kind ≠ .embedded)
    (h : ∀ f, topField fs n = some f → f.val.kind ≠ .embedded) :
    promotedFields (setTop fs n v) = promotedFields fs := by
  induction fs with
  | nil => rfl
  | cons g gs ih =>
    by_cases hg : g.name = n
    · have hgk := h g (by simp [topField, hg])
      have key : ∀ x : Value, x.kind ≠ .embedded →
          (match x with
            | .embedded below => below
            | _ => ([] : List Promoted)) = [] := by
        intro x hx
        cases x <;> first | rfl | exact absurd rfl hx
      have e1 := key v hv
      have e2 := key g.val hgk
      simp only [setTop, hg, if_true, promotedFields, e1, e2]
    · have h2 : ∀ f, topField gs n = some f → f.val.kind ≠ .embedded := by
        intro f hf
        exact h f (by simp [topField, hg, hf])
      simp only [setTop, hg, if_false, promotedFields, ih h2]

theorem promotedByName_name {ps : List Promoted} {n : String} {p : Promoted}
    (h : promotedByName ps n = some p) : p.name = n := by
  unfold promotedByName at h
  split at h
  · rename_i q hq
    cases h
    have hm : p ∈ (ps.filter fun p => p.name = n).filter fun p =>
        (ps.filter fun q => q.name = n).all fun q => p.path.length ≤ q.path.length := by
      rw [hq]; exact List.mem_singleton_self p
    have := (List.mem_filter.mp (List.mem_filter.mp hm).1).2
    simpa using this
  · cases h

/-- An update that keeps names and paths commutes with the choice of the promoted
field. -/
theorem promotedByName_map (ps : List Promoted) (n : String) (upd : Promoted → Promoted)
    (hn : ∀ p, (upd p).name = p.name) (hp : ∀ p, (upd p).path = p.path) :
    promotedByName (ps.map upd) n = (promotedByName ps n).map upd := by
  have h1 : (ps.map upd).filter (fun p => p.name = n)
      = (ps.filter fun p => p.name = n).map upd := by
    rw [List.filter_map]
    congr 1
    apply List.filter_congr
    intro x _
    simp [hn]
  unfold promotedByName
  rw [h1]
  generalize ps.filter (fun p => p.name = n) = c
  have h2 : (c.map upd).filter (fun p => (c.map upd).all fun q => p.path.length ≤ q.path.length)
      = (c.filter fun p => c.all fun q => p.path.length ≤ q.path.length).map upd := by
    rw [List.filter_map]
    congr 1
    apply List.filter_congr
    intro x _
    simp only [List.all_map, Function.comp_apply]
    congr 1
    funext q
    simp only [Function.comp_apply, hp]
  rw [h2]
  generalize (c.filter fun p => c.all fun q => p.path.length ≤ q.path.length) = m
  match m with
  | [] => rfl
  | [p] => rfl
  | _ :: _ :: _ => rfl

theorem Field.setBelow_name (n : String) (d : Nat) (l : Leaf) (f : Field) :
    (f.setBelow n d l).name = f.name := by
  unfold Field.setBelow
  split <;> rfl

theorem Field.setBelow_exported (n : String) (d : Nat) (l : Leaf) (f : Field) :
    (f.setBelow n d l).exported = f.exported := by
  unfold Field.setBelow
  split <;> rfl

theorem Field.setBelow_kind (n : String) (d : Nat) (l : Leaf) (f : Field) :
    (f.setBelow n d l).val.kind = f.val.kind := by
  unfold Field.setBelow
  split
  · rename_i below h
    simp [h, Value.kind]
  · rfl

theorem topField_map_setBelow (fs : List Field) (n m : String) (d : Nat) (l : Leaf) :
    topField (fs.map (Field.setBelow n d l)) m
      = (topField fs m).map (Field.setBelow n d l) := by
  induction fs with
  | nil => rfl
  | cons g gs ih =>
    by_cases hg : g.name = m
    · simp [topField, Field.setBelow_name, hg]
    · simp [topField, Field.setBelow_name, hg, ih]

theorem promotedFields_map_setBelow (fs : List Field) (n : String) (d : Nat) (l : Leaf) :
    promotedFields (fs.map (Field.setBelow n d l)) = setPromoted n d l (promotedFields fs) := by
  induction fs with
  | nil => rfl
  | cons g gs ih =>
    obtain ⟨gn, ge, gv⟩ := g
    simp only [List.map_cons, promotedFields, ih, setPromoted, List.map_append]
    congr 1
    cases gv <;> simp [Field.setBelow, setPromoted]

theorem FieldByName_name {fs : List Field} {n : String} {f : Field}
    (h : FieldByName fs n = some f) : f.name = n := by
  unfold FieldByName at h
  split at h
  · rename_i f0 h0
    cases h
    exact topField_name h0
  · cases hp : promotedByName (promotedFields fs) n with
    | none => simp [hp] at h
    | some p =>
      simp only [hp, Option.map_some', Option.some.injEq] at h
      subst h
      exact promotedByName_name hp

/-- The update of `setPromoted` keeps names and paths. -/
theorem promotedByName_setPromoted (ps : List Promoted) (n m : String) (d : Nat) (l : Leaf) :
    promotedByName (setPromoted n d l ps) m
      = (promotedByName ps m).map fun p =>
          if p.name = n ∧ p.path.length = d then { p with val := l } else p := by
  unfold setPromoted
  apply promotedByName_map
  · intro p; split <;> rfl
  · intro p; split <;> rfl

theorem FieldByName_setField_self (fs : List Field) (n : String) (v : Value)
    (hv : v.kind ≠ .embedded) :
    FieldByName (setField fs n v) n
      = (FieldByName fs n).map fun f => { f with val := v } := by
  unfold setField
  cases ht : topField fs n with
  | some f0 =>
    simp only [FieldByName, topField_setTop_self, ht, Option.map_some']
  | none =>
    cases hp : promotedByName (promotedFields fs) n with
    | none => simp only [FieldByName, ht, hp, Option.map_none']
    | some p =>
      have hpn := promotedByName_name hp
      simp only [FieldByName, topField_map_setBelow, ht, Option.map_none',
        promotedFields_map_setBelow, promotedByName_setPromoted, hp, Option.map_some',
        hpn, true_and, if_true, Promoted.toField, Value.toValue_toLeaf hv]

/-- The promoted field that `FieldByName` finds is the only one of its name at its
depth. -/
theorem promotedByName_unique {ps : List Promoted} {n : String} {p : Promoted}
    (h : promotedByName ps n = some p) {q : Promoted} (hq : q ∈ ps) (hn : q.name = n)
    (hd : q.path.length = p.path.length) : q = p := by
  unfold promotedByName at h
  split at h
  · rename_i p0 hp0
    cases h
    have hp : p ∈ (ps.filter fun p => p.name = n).filter fun p =>
        (ps.filter fun q => q.name = n).all fun q => p.path.length ≤ q.path.length := by
      rw [hp0]; exact List.mem_singleton_self p
    have hmin := (List.mem_filter.mp hp).2
    have hqm : q ∈ (ps.filter fun p => p.name = n).filter fun p =>
        (ps.filter fun q => q.name = n).all fun q => p.path.length ≤ q.path.length := by
      apply List.mem_filter.mpr
      refine ⟨List.mem_filter.mpr ⟨hq, by simpa using hn⟩, ?_⟩
      rw [hd]
      exact hmin
    rw [hp0] at hqm
    exact List.mem_singleton.mp hqm
  · cases h

theorem setPromoted_shape (n : String) (d : Nat) (l : Leaf) (ps : List Promoted)
    (h : ∀ q ∈ ps, q.name = n → q.path.length = d → q.val.kind = l.kind) :
    (setPromoted n d l ps).map Promoted.shape = ps.map Promoted.shape := by
  unfold setPromoted
  rw [List.map_map]
  apply List.map_congr_left
  intro q hq
  simp only [Function.comp_apply]
  split
  · rename_i hc
    simp only [Promoted.shape, h q hq hc.1 hc.2]
  · rfl

theorem mem_promotedFields_cons_left {g : Field} {gs : List Field} {q : Promoted}
    {below : List Promoted} (hg : g.val = .embedded below) (hq : q ∈ below) :
    q ∈ promotedFields (g :: gs) := by
  simp only [promotedFields, hg]
  exact List.mem_append_left _ hq

theorem mem_promotedFields_cons_right {g : Field} {gs : List Field} {q : Promoted}
    (hq : q ∈ promotedFields gs) : q ∈ promotedFields (g :: gs) := by
  simp only [promotedFields]
  exact List.mem_append_right _ hq

theorem shapeOf_map_setBelow (fs : List Field) (n : String) (d : Nat) (l : Leaf)
    (h : ∀ q ∈ promotedFields fs, q.name = n → q.path.length = d → q.val.kind = l.kind) :
    shapeOf (fs.map (Field.setBelow n d l)) = shapeOf fs := by
  induction fs with
  | nil => rfl
  | cons g gs ih =>
    have h2 : ∀ q ∈ promotedFields gs, q.name = n → q.path.length = d →
        q.val.kind = l.kind := fun q hq => h q (mem_promotedFields_cons_right hq)
    have := ih h2
    simp only [shapeOf] at this
    simp only [shapeOf, List.map_cons, List.map_map, List.cons.injEq, Prod.mk.injEq,
      Field.setBelow_name, Field.setBelow_exported, Field.setBelow_kind, true_and]
    refine ⟨?_, by simpa [List.map_map] using this⟩
    cases hv : g.val with
    | embedded below =>
      have h3 : ∀ q ∈ below, q.name = n → q.path.length = d → q.val.kind = l.kind :=
        fun q hq => h q (mem_promotedFields_cons_left hv hq)
      simp only [Field.setBelow, hv, Value.belowShape]
      exact setPromoted_shape n d l below h3
    | _ => simp only [Field.setBelow, hv]

theorem shapeOf_setTop (fs : List Field) (n : String) (v : Value)
    (hv : v.kind ≠ .embedded)
    (h : ∀ f, topField fs n = some f → f.val.kind = v.kind) :
    shapeOf (setTop fs n v) = shapeOf fs := by
  have key : ∀ x : Value, x.kind ≠ .embedded → x.belowShape = [] := by
    intro x hx
    cases x <;> first | rfl | exact absurd rfl hx
  induction fs with
  | nil => rfl
  | cons g gs ih =>
    by_cases hg : g.name = n
    · have hk := h g (by simp [topField, hg])
      have e1 := key v hv
      have e2 := key g.val (hk ▸ hv)
      simp [shapeOf, setTop, hg, hk, e1, e2]
    · have h2 : ∀ f, topField gs n = some f → f.val.kind = v.kind := by
        intro f hf
        exact h f (by simp [topField, hg, hf])
      have := ih h2
      simp only [shapeOf] at this
      simp [shapeOf, setTop, hg, this]

theorem shapeOf_setField (fs : List Field) (n : String) (v : Value)
    (hv : v.kind ≠ .embedded)
    (h : ∀ f, FieldByName fs n = some f → f.val.kind = v.kind) :
    shapeOf (setField fs n v) = shapeOf fs := by
  unfold setField
  cases ht : topField fs n with
  | some f0 =>
    simp only
    apply shapeOf_setTop _ _ _ hv
    intro f hf
    exact h f (by simp [FieldByName, hf])
  | none =>
    cases hp : promotedByName (promotedFields fs) n with
    | none => rfl
    | some p =>
      simp only
      apply shapeOf_map_setBelow
      intro q hq hn hd
      have hqp := promotedByName_unique hp hq hn hd
      have := h (Promoted.toField (promotedFields fs) p)
        (by simp only [FieldByName, ht, hp, Option.map_some'])
      rw [hqp, Value.toLeaf_kind]
      simpa [Promoted.toField, Leaf.toValue_kind] using this

theorem setField_of_none (fs : List Field) (n : String) (v : Value)
    (h : FieldByName fs n = none) : setField fs n v = fs := by
  unfold FieldByName at h
  unfold setField
  cases ht : topField fs n with
  | some f0 => simp [ht] at h
  | none =>
    cases hp : promotedByName (promotedFields fs) n with
    | none => rfl
    | some p => simp [ht, hp] at h

theorem all_map_shape (c : List Promoted) (k : Nat) :
    ((c.map Promoted.shape).all fun t => decide (k ≤ t.1.length))
      = c.all fun q => decide (k ≤ q.path.length) := by
  induction c with
  | nil => rfl
  | cons a as ih =>
    simp only [List.map_cons, List.all_cons, ih]
    rfl

/-- The choice of the promoted field depends on paths and names only. -/
theorem promotedByName_shape (ps : List Promoted) (n : String) :
    (promotedByName ps n).map Promoted.shape
      = match ((ps.map Promoted.shape).filter fun s => s.2.1 = n).filter fun s =>
            ((ps.map Promoted.shape).filter fun s => s.2.1 = n).all fun t =>
              s.1.length ≤ t.1.length with
        | [s] => some s
        | _ => none := by
  have e1 : (ps.map Promoted.shape).filter (fun s => s.2.1 = n)
      = (ps.filter fun p => p.name = n).map Promoted.shape := by
    rw [List.filter_map]
    rfl
  rw [e1]
  unfold promotedByName
  generalize ps.filter (fun p => p.name = n) = c
  have e2 : (c.map Promoted.shape).filter (fun s =>
        (c.map Promoted.shape).all fun t => s.1.length ≤ t.1.length)
      = (c.filter fun p => c.all fun q => p.path.length ≤ q.path.length).map
          Promoted.shape := by
    rw [List.filter_map]
    congr 1
    apply List.filter_congr
    intro x _
    exact all_map_shape c x.path.length
  rw [e2]
  generalize (c.filter fun p => c.all fun q => p.path.length ≤ q.path.length) = m
  match m with
  | [] => rfl
  | [p] => rfl
  | _ :: _ :: _ => rfl

theorem promotedByName_of_shape {ps qs : List Promoted}
    (h : ps.map Promoted.shape = qs.map Promoted.shape) (n : String) :
    (promotedByName ps n).map Promoted.shape = (promotedByName qs n).map Promoted.shape := by
  rw [promotedByName_shape, promotedByName_shape, h]

theorem promotedFields_of_shape {fs gs : List Field} (h : shapeOf fs = shapeOf gs) :
    (promotedFields fs).map Promoted.shape = (promotedFields gs).map Promoted.shape := by
  have key : ∀ x : Value,
      (match x with
        | .embedded below => below
        | _ => ([] : List Promoted)).map Promoted.shape = x.belowShape := by
    intro x
    cases x <;> rfl
  induction fs generalizing gs with
  | nil =>
    cases gs with
    | nil => rfl
    | cons b bs => simp [shapeOf] at h
  | cons a as ih =>
    cases gs with
    | nil => simp [shapeOf] at h
    | cons b bs =>
      simp only [shapeOf, List.map_cons, List.cons.injEq, Prod.mk.injEq] at h
      obtain ⟨⟨_, _, _, h4⟩, h5⟩ := h
      simp only [promotedFields, List.map_append, key, h4, ih h5]

theorem topField_of_shape {fs gs : List Field} (h : shapeOf fs = shapeOf gs)
    (n : String) :
    (topField fs n).map (fun f => (f.name, f.exported, f.val.kind))
      = (topField gs n).map (fun f => (f.name, f.exported, f.val.kind)) := by
  induction fs generalizing gs with
  | nil =>
    cases gs with
    | nil => rfl
    | cons b bs => simp [shapeOf] at h
  | cons a as ih =>
    cases gs with
    | nil => simp [shapeOf] at h
    | cons b bs =>
      simp only [shapeOf, List.map_cons, List.cons.injEq, Prod.mk.injEq] at h
      obtain ⟨⟨h1, h2, h3, _⟩, h4⟩ := h
      by_cases ha : a.name = n
      · have hb : b.name = n := h1 ▸ ha
        simp [topField, ha, hb, h2, h3]
      · have hb : ¬ b.name = n := h1 ▸ ha
        simp only [topField, ha, hb, if_false]
        exact ih h4

theorem FieldByName_of_shape {fs gs : List Field} (h : shapeOf fs = shapeOf gs)
    (n : String) :
    (FieldByName fs n).map (fun f => (f.name, f.exported, f.val.kind))
      = (FieldByName gs n).map (fun f => (f.name, f.exported, f.val.kind)) := by
  have ht := topField_of_shape h n
  have hp := promotedByName_of_shape (promotedFields_of_shape h) n
  unfold FieldByName
  cases h1 : topField fs n with
  | some f1 =>
    cases h2 : topField gs n with
    | some f2 => simpa [h1, h2] using ht
    | none => simp [h1, h2] at ht
  | none =>
    cases h2 : topField gs n with
    | some f2 => simp [h1, h2] at ht
    | none =>
      simp only
      cases h3 : promotedByName (promotedFields fs) n with
      | none =>
        cases h4 : promotedByName (promotedFields gs) n with
        | none => rfl
        | some q => simp [h3, h4] at hp
      | some p =>
        cases h4 : promotedByName (promotedFields gs) n with
        | none => simp [h3, h4] at hp
        | some q =>
          simp only [h3, h4, Option.map_some', Option.some.injEq, Promoted.shape,
            Prod.mk.injEq] at hp
          simp only [Option.map_some', Promoted.toField, Leaf.toValue_kind, hp.2.1,
            hp.2.2.1, hp.2.2.2]

theorem clearOf_of_plain {v : Value} (h : v.kind ≠ .embedded) (names : List String) :
    v.clearOf names = true := by
  cases v <;> first | rfl | exact absurd rfl h

theorem clearOf_mono {v : Value} {names sub : List String} (h : v.clearOf names = true)
    (hs : ∀ n ∈ sub, n ∈ names) : v.clearOf sub = true := by
  cases v with
  | embedded below =>
    simp only [Value.clearOf, List.all_eq_true, decide_eq_true_eq] at h ⊢
    exact fun p hp hn => h p hp (hs _ hn)
  | _ => rfl

theorem setPromoted_clear (n : String) (d : Nat) (l : Leaf) (ps : List Promoted)
    (h : ∀ p ∈ ps, p.name ≠ n) : setPromoted n d l ps = ps := by
  unfold setPromoted
  conv_rhs => rw [← List.map_id ps]
  apply List.map_congr_left
  intro p hp
  simp [h p hp]

theorem filter_setPromoted (n : String) (d : Nat) (l : Leaf) (ps : List Promoted)
    (pre : List String) :
    (setPromoted n d l ps).filter (fun q => pre.isPrefixOf q.path)
      = setPromoted n d l (ps.filter fun q => pre.isPrefixOf q.path) := by
  unfold setPromoted
  rw [List.filter_map]
  congr 1
  apply List.filter_congr
  intro p _
  simp only [Function.comp_apply]
  split <;> rfl

theorem Field.setBelow_clear (n : String) (d : Nat) (l : Leaf) (f : Field)
    (h : f.val.clearOf [n] = true) : f.setBelow n d l = f := by
  obtain ⟨fn, fe, fv⟩ := f
  cases fv with
  | embedded below =>
    simp only [Value.clearOf, List.all_eq_true, decide_eq_true_eq,
      List.mem_singleton] at h
    simp only [Field.setBelow, setPromoted_clear n d l below h]
  | _ => rfl

/-- A write to a field that is not a struct keeps name, export mark and declared type
of every other field, and its value too unless it is an embedded struct with a field
of the written name below it. -/
theorem FieldByName_setField_ne (fs : List Field) {n m : String} (v : Value)
    (hne : n ≠ m) (hv : v.kind ≠ .embedded)
    (hold : ∀ f, FieldByName fs n = some f → f.val.kind ≠ .embedded) :
    (FieldByName (setField fs n v) m).map (fun f => (f.name, f.exported, f.val.kind))
        = (FieldByName fs m).map (fun f => (f.name, f.exported, f.val.kind))
      ∧ ((∀ f, FieldByName fs m = some f → f.val.clearOf [n] = true) →
          FieldByName (setField fs n v) m = FieldByName fs m) := by
  unfold setField
  cases ht : topField fs n with
  | some f0 =>
    have h0 : ∀ f, topField fs n = some f → f.val.kind ≠ .embedded := by
      intro f hf
      exact hold f (by simp [FieldByName, hf])
    have e : FieldByName (setTop fs n v) m = FieldByName fs m := by
      simp only [FieldByName, topField_setTop_ne _ _ hne, promotedFields_setTop _ _ _ hv h0]
    simp only [e, implies_true, and_self]
  | none =>
    cases hp : promotedByName (promotedFields fs) n with
    | none => simp only [implies_true, and_self]
    | some p =>
      simp only
      cases hm : topField fs m with
      | some e =>
        have e1 : FieldByName (fs.map (Field.setBelow n p.path.length v.toLeaf)) m
            = some (e.setBelow n p.path.length v.toLeaf) := by
          simp only [FieldByName, topField_map_setBelow, hm, Option.map_some']
        have e2 : FieldByName fs m = some e := by simp only [FieldByName, hm]
        rw [e1, e2]
        refine ⟨?_, ?_⟩
        · simp only [Option.map_some', Field.setBelow_name, Field.setBelow_exported,
            Field.setBelow_kind]
        · intro hpl
          rw [Field.setBelow_clear _ _ _ _ (hpl e rfl)]
      | none =>
        cases hq : promotedByName (promotedFields fs) m with
        | none =>
          have e1 : FieldByName (fs.map (Field.setBelow n p.path.length v.toLeaf)) m
              = none := by
            simp only [FieldByName, topField_map_setBelow, hm, Option.map_none',
              promotedFields_map_setBelow, promotedByName_setPromoted, hq]
          have e2 : FieldByName fs m = none := by
            simp only [FieldByName, hm, hq, Option.map_none']
          rw [e1, e2]
          simp only [implies_true, and_self]
        | some q =>
          have hqn := promotedByName_name hq
          have hqn2 : ¬ (q.name = n ∧ q.path.length = p.path.length) := by
            intro hc
            exact hne (hc.1.symm.trans hqn)
          have e1 : FieldByName (fs.map (Field.setBelow n p.path.length v.toLeaf)) m
              = some (Promoted.toField
                  (setPromoted n p.path.length v.toLeaf (promotedFields fs)) q) := by
            simp only [FieldByName, topField_map_setBelow, hm, Option.map_none',
              promotedFields_map_setBelow, promotedByName_setPromoted, hq,
              Option.map_some', hqn2, if_false]
          have e2 : FieldByName fs m = some (Promoted.toField (promotedFields fs) q) := by
            simp only [FieldByName, hm, hq, Option.map_some']
          rw [e1, e2]
          refine ⟨?_, ?_⟩
          · simp only [Option.map_some', Promoted.toField, Leaf.toValue_kind]
          · intro hpl
            have hk := hpl _ rfl
            simp only [Promoted.toField, Option.some.injEq, Field.mk.injEq, true_and]
            rw [filter_setPromoted]
            cases hqv : q.val with
            | struct =>
              simp only [Promoted.toField, hqv, Leaf.toValue, Value.clearOf,
                List.all_eq_true, decide_eq_true_eq, List.mem_singleton] at hk
              rw [setPromoted_clear _ _ _ _ hk]
            | _ => rfl

/-! ## Lemmas: what a write can change -/

theorem Doc.Wrote.mono {Q1 Q2 : Value → Prop} {g : String} {d1 d2 : Doc}
    (h : Doc.Wrote Q1 g d1 d2) (hq : ∀ v, Q1 v → Q2 v) : Doc.Wrote Q2 g d1 d2 := by
  rcases h with h | ⟨r, ca, v, h1, h2, h3, h4, h5, h6, h7⟩
  · exact Or.inl h
  · exact Or.inr ⟨r, ca, v, h1, h2, h3, hq _ h4, h5, h6, h7⟩

/-- A field keeps its value when another field is written, unless it is an embedded
struct with a field of the written name below it. -/
theorem Doc.Wrote.lookup_ne {Q : Value → Prop} {g : String} {d1 d2 : Doc}
    (h : Doc.Wrote Q g d1 d2) {f : String} (hne : g ≠ f)
    (hpl : ∀ x, d1.lookup f = some x → x.val.clearOf [g] = true) :
    d2.lookup f = d1.lookup f := by
  rcases h with h | ⟨r, ca, v, h1, h2, _, _, h5, h6, h7⟩
  · rw [h]
  · subst h1 h7
    simp only [Doc.lookup, Record.set]
    refine (FieldByName_setField_ne _ _ hne h6 ?_).2 hpl
    intro x hx
    rw [h2] at hx
    cases hx
    exact h5 ▸ h6

theorem Doc.Wrote.field_keep {Q : Value → Prop} {g : String} {d1 d2 : Doc}
    (h : Doc.Wrote Q g d1 d2) {f : String} {v : Value} (hv : d1.field f = some v)
    (hpl : v.clearOf [g] = true) (hk : g ≠ f ∨ ¬ Q v) : d2.field f = some v := by
  by_cases hne : g = f
  · rcases h with h | ⟨r, ca, v1, h1, h2, _, h4, _, _, _⟩
    · rw [h]; exact hv
    · subst h1 hne
      simp only [Doc.field, Doc.lookup, h2, Option.map_some', Option.some.injEq] at hv
      rcases hk with hk | hk
      · exact absurd rfl hk
      · exact absurd (hv ▸ h4) hk
  · have hp : ∀ x, d1.lookup f = some x → x.val.clearOf [g] = true := by
      intro x hx
      simp only [Doc.field, hx, Option.map_some', Option.some.injEq] at hv
      exact hv ▸ hpl
    simp only [Doc.field, h.lookup_ne hne hp]
    exact hv

theorem Doc.Wrote.fieldType_eq {Q : Value → Prop} {g : String} {d1 d2 : Doc}
    (h : Doc.Wrote Q g d1 d2) (f : String) : d2.fieldType f = d1.fieldType f := by
  rcases h with h | ⟨r, ca, v, h1, h2, _, _, h5, h6, h7⟩
  · rw [h]
  · subst h1 h7
    by_cases hne : g = f
    · subst hne
      simp [Doc.fieldType, Doc.lookup, Record.set, FieldByName_setField_self _ _ _ h6,
        h2, h5]
    · have hold : ∀ x, FieldByName r.fields g = some x → x.val.kind ≠ .embedded := by
        intro x hx
        rw [h2] at hx
        cases hx
        exact h5 ▸ h6
      have := (FieldByName_setField_ne r.fields v hne h6 hold).1
      simp only [Doc.fieldType, Doc.lookup, Record.set]
      cases h3 : FieldByName (setField r.fields g v) f <;>
        cases h4 : FieldByName r.fields f <;> simp_all

theorem Doc.Wrote.isPtr_eq {Q : Value → Prop} {g : String} {d1 d2 : Doc}
    (h : Doc.Wrote Q g d1 d2) : d2.isPtr = d1.isPtr := by
  rcases h with h | ⟨r, ca, v, h1, _, _, _, _, _, h7⟩
  · rw [h]
  · subst h1 h7; rfl

theorem Doc.Wrote.customFields_eq {Q : Value → Prop} {g : String} {d1 d2 : Doc}
    (h : Doc.Wrote Q g d1 d2) : d2.customFields = d1.customFields := by
  rcases h with h | ⟨r, ca, v, h1, _, _, _, _, _, h7⟩
  · rw [h]
  · subst h1 h7; rfl

theorem Doc.Wrote.defaultHook_eq {Q : Value → Prop} {g : String} {d1 d2 : Doc}
    (h : Doc.Wrote Q g d1 d2) : d2.defaultHook = d1.defaultHook := by
  rcases h with h | ⟨r, ca, v, h1, _, _, _, _, _, h7⟩
  · rw [h]
  · subst h1 h7; rfl

/-! ## Lemmas: the setters -/

theorem Record.write_wrote {Q : Value → Prop} (r : Record) (w : World) (g : String)
    (ca : Field) (res : Except Panic Value) (hca : FieldByName r.fields g = some ca)
    (hset : ca.CanSet = true)
    (hq : ∀ v, res = .ok v → Q ca.val ∧ v.kind = ca.val.kind ∧ v.kind ≠ .embedded) :
    Doc.Wrote Q g (.ptr r) (r.write w g res).doc := by
  cases res with
  | error p => exact Or.inl rfl
  | ok v =>
    obtain ⟨h1, h2, h3⟩ := hq v rfl
    exact Or.inr ⟨r, ca, v, rfl, hca, hset, h1, h2, h3, rfl⟩

theorem setInt_ok {ca v : Value} {n : Int} (h : ca.SetInt n = .ok v) :
    (∃ m, ca = .int64 m) ∧ v = .int64 n := by
  cases ca <;> simp [Value.SetInt] at h
  exact ⟨⟨_, rfl⟩, h.symm⟩

theorem setUint_ok {ca v : Value} {n : Nat} (h : ca.SetUint n = .ok v) :
    (∃ m, ca = .uint64 m) ∧ v = .uint64 n := by
  cases ca <;> simp [Value.SetUint] at h
  exact ⟨⟨_, rfl⟩, h.symm⟩

theorem setString_ok {ca v : Value} {s : String} (h : ca.SetString s = .ok v) :
    (∃ m, ca = .string m) ∧ v = .string s := by
  cases ca <;> simp [Value.SetString] at h
  exact ⟨⟨_, rfl⟩, h.symm⟩

/-- A successful `Set` keeps the declared type of the field: the field has the type
of the value, or it has an interface type that is empty or holds a value of that
type. -/
theorem set_ok {ca v : Value} {x : Dyn} (h : ca.Set x = .ok v) :
    v.kind = ca.kind ∧ v.kind ≠ .embedded
      ∧ ((ca.kind = x.kind ∧ ca.Interface.kind = x.kind ∧ v.Interface = x)
        ∨ ∃ e held, ca = .iface e held ∧ v = .iface e x
          ∧ (e = true ∨ x.kind = held.kind)) := by
  cases ca with
  | iface e held =>
    by_cases hc : (e || decide (x.kind = held.kind)) = true
    · simp only [Value.Set, hc, if_true, Except.ok.injEq] at h
      subst h
      refine ⟨rfl, by simp [Value.kind], Or.inr ⟨e, held, rfl, rfl, ?_⟩⟩
      simpa using hc
    · simp [Value.Set, hc] at h
  | time t =>
    cases x <;> simp [Value.Set] at h
    subst h
    simp [Value.kind, Dyn.kind, Value.Interface]
  | int64 t =>
    cases x <;> simp [Value.Set] at h
    subst h
    simp [Value.kind, Dyn.kind, Value.Interface]
  | uint64 t =>
    cases x <;> simp [Value.Set] at h
    subst h
    simp [Value.kind, Dyn.kind, Value.Interface]
  | string t =>
    cases x <;> simp [Value.Set] at h
    subst h
    simp [Value.kind, Dyn.kind, Value.Interface]
  | objectID t =>
    cases x <;> simp [Value.Set] at h
    subst h
    simp [Value.kind, Dyn.kind, Value.Interface]
  | other t => cases x <;> simp [Value.Set] at h
  | embedded t => cases x <;> simp [Value.Set] at h

theorem setBy_wrote (w : World) (ctx : Context) (d : Doc) (g k : String) :
    Doc.Wrote (fun v => v.kind = .string) g d (setBy w ctx d g k).doc := by
  cases d with
  | ptr r =>
    simp only [setBy]
    split
    · exact Or.inl rfl
    · rename_i ca hca
      split
      · rename_i hset
        split
        · rename_i s0 hval
          split
          · rename_i s hctx
            split
            · apply Record.write_wrote r w g ca _ hca hset
              intro v hv
              obtain ⟨⟨m, hm⟩, hv⟩ := setString_ok hv
              subst hv
              rw [hm]
              exact ⟨rfl, rfl, by simp [Value.kind]⟩
            · exact Or.inl rfl
          · exact Or.inl rfl
        · exact Or.inl rfl
      · exact Or.inl rfl
  | _ => exact Or.inl rfl

/-- Fields that `setUpdatedTime` replaces: an `int64`, a `uint64`, and a field of type
`interface{}` that holds a `time.Time`. -/
theorem setUpdatedTime_wrote (w : World) (ctx : Context) (d : Doc) (g : String) :
    Doc.Wrote (fun v => v.kind = .int64 ∨ v.kind = .uint64 ∨ v.kind = .iface true) g d
      (setUpdatedTime w ctx d g).doc := by
  cases d with
  | ptr r =>
    simp only [setUpdatedTime]
    split
    · exact Or.inl rfl
    · rename_i ca hca
      split
      · rename_i hset
        split
        · rename_i t hval
          apply Record.write_wrote r _ g ca _ hca hset
          intro v hv
          obtain ⟨h1, h2, h3⟩ := set_ok hv
          refine ⟨?_, h1, h2⟩
          rcases h3 with ⟨_, h4, _⟩ | ⟨e, held, h4, _, h5⟩
          · rw [hval] at h4
            simp [Dyn.kind] at h4
          · rw [h4] at hval
            simp only [Value.Interface] at hval
            subst hval
            rcases h5 with h5 | h5
            · subst h5
              rw [h4]
              exact Or.inr (Or.inr rfl)
            · simp [Dyn.kind] at h5
        · rename_i n hval
          apply Record.write_wrote r _ g ca _ hca hset
          intro v hv
          obtain ⟨⟨m, hm⟩, hv⟩ := setInt_ok hv
          subst hv
          rw [hm]
          exact ⟨Or.inl rfl, rfl, by simp [Value.kind]⟩
        · rename_i n hval
          apply Record.write_wrote r _ g ca _ hca hset
          intro v hv
          obtain ⟨⟨m, hm⟩, hv⟩ := setUint_ok hv
          subst hv
          rw [hm]
          exact ⟨Or.inr (Or.inl rfl), rfl, by simp [Value.kind]⟩
        · exact Or.inl rfl
      · exact Or.inl rfl
  | _ => exact Or.inl rfl

/-- Values that `setTime` replaces: a non-zero timestamp when `overWrite` is set, an
integer that is zero or when `overWrite` is set, and a timestamp held by a field of
interface type if it is zero or `overWrite` is set. -/
theorem setTime_wrote (w : World) (ctx : Context) (d : Doc) (g : String) (ow : Bool) :
    Doc.Wrote (fun v => (∃ t, v = .time t ∧ t.IsZero = false ∧ ow = true)
        ∨ (∃ n, v = .int64 n ∧ (n = 0 ∨ ow = true))
        ∨ (∃ n, v = .uint64 n ∧ (n = 0 ∨ ow = true))
        ∨ (∃ e t, v = .iface e (.time t) ∧ (t.IsZero = true ∨ ow = true))) g d
      (setTime w ctx d g ow).doc := by
  cases d with
  | ptr r =>
    simp only [setTime]
    split
    · exact Or.inl rfl
    · rename_i ca hca
      split
      · rename_i hset
        split
        · rename_i t hval
          split
          · rename_i hz
            apply Record.write_wrote r _ g ca _ hca hset
            intro v hv
            obtain ⟨h1, h2, h3⟩ := set_ok hv
            refine ⟨?_, h1, h2⟩
            rcases h3 with ⟨_, h4, _⟩ | ⟨e, held, h4, _, _⟩
            · rw [hval] at h4
              simp [Dyn.kind] at h4
            · rw [h4] at hval
              simp only [Value.Interface] at hval
              subst hval
              exact Or.inr (Or.inr (Or.inr ⟨e, t, h4, Or.inl hz⟩))
          · rename_i hz
            split
            · rename_i how
              apply Record.write_wrote r _ g ca _ hca hset
              intro v hv
              obtain ⟨h1, h2, h3⟩ := set_ok hv
              refine ⟨?_, h1, h2⟩
              cases hcv : ca.val with
              | time t0 =>
                rw [hcv] at hval
                simp only [Value.Interface, Dyn.time.injEq] at hval
                subst hval
                exact Or.inl ⟨t0, rfl, by simpa using hz, how⟩
              | iface e held =>
                rw [hcv] at hval
                simp only [Value.Interface] at hval
                subst hval
                exact Or.inr (Or.inr (Or.inr ⟨e, t, rfl, Or.inr how⟩))
              | _ => rw [hcv] at hval; simp [Value.Interface] at hval
            · exact Or.inl rfl
        · rename_i n hval
          have key : ∀ res v, res = ca.val.SetInt (wrapInt64 (w.timeNow.1.Unix * 1000)) →
              res = .ok v → ca.val = .int64 n ∧ v.kind = ca.val.kind
                ∧ v.kind ≠ .embedded := by
            intro res v hres hv
            subst hres
            obtain ⟨⟨m, hm⟩, hv⟩ := setInt_ok hv
            subst hv
            rw [hm] at hval ⊢
            simp only [Value.Interface, Dyn.int64.injEq] at hval
            subst hval
            exact ⟨rfl, rfl, by simp [Value.kind]⟩
          split
          · rename_i hz
            apply Record.write_wrote r _ g ca _ hca hset
            intro v hv
            obtain ⟨h1, h2, h3⟩ := key _ v rfl hv
            exact ⟨Or.inr (Or.inl ⟨n, h1, Or.inl hz⟩), h2, h3⟩
          · split
            · rename_i how
              apply Record.write_wrote r _ g ca _ hca hset
              intro v hv
              obtain ⟨h1, h2, h3⟩ := key _ v rfl hv
              exact ⟨Or.inr (Or.inl ⟨n, h1, Or.inr how⟩), h2, h3⟩
            · exact Or.inl rfl
        · rename_i n hval
          have key : ∀ res v,
              res = ca.val.SetUint (toUint64 (wrapInt64 (w.timeNow.1.Unix * 1000))) →
              res = .ok v → ca.val = .uint64 n ∧ v.kind = ca.val.kind
                ∧ v.kind ≠ .embedded := by
            intro res v hres hv
            subst hres
            obtain ⟨⟨m, hm⟩, hv⟩ := setUint_ok hv
            subst hv
            rw [hm] at hval ⊢
            simp only [Value.Interface, Dyn.uint64.injEq] at hval
            subst hval
            exact ⟨rfl, rfl, by simp [Value.kind]⟩
          split
          · rename_i hz
            apply Record.write_wrote r _ g ca _ hca hset
            intro v hv
            obtain ⟨h1, h2, h3⟩ := key _ v rfl hv
            exact ⟨Or.inr (Or.inr (Or.inl ⟨n, h1, Or.inl hz⟩)), h2, h3⟩
          · split
            · rename_i how
              apply Record.write_wrote r _ g ca _ hca hset
              intro v hv
              obtain ⟨h1, h2, h3⟩ := key _ v rfl hv
              exact ⟨Or.inr (Or.inr (Or.inl ⟨n, h1, Or.inr how⟩)), h2, h3⟩
            · exact Or.inl rfl
        · exact Or.inl rfl
      · exact Or.inl rfl
  | _ => exact Or.inl rfl

/-- Values that `setId` replaces: the zero identifier, also when a field of interface
type holds it, and the empty string. -/
theorem setId_wrote (w : World) (ctx : Context) (d : Doc) (g : String) :
    Doc.Wrote (fun v => (∃ o, v = .objectID o ∧ o.IsZero = true) ∨ v = .string ""
        ∨ (∃ e o, v = .iface e (.objectID o) ∧ o.IsZero = true)) g d
      (setId w ctx d g).doc := by
  cases d with
  | ptr r =>
    simp only [setId]
    split
    · exact Or.inl rfl
    · rename_i ca hca
      split
      · rename_i hset
        split
        · rename_i o hval
          split
          · rename_i hz
            apply Record.write_wrote r _ g ca _ hca hset
            intro v hv
            obtain ⟨h1, h2, _⟩ := set_ok hv
            refine ⟨?_, h1, h2⟩
            cases hcv : ca.val with
            | objectID o0 =>
              rw [hcv] at hval
              simp only [Value.Interface, Dyn.objectID.injEq] at hval
              subst hval
              exact Or.inl ⟨o0, rfl, hz⟩
            | iface e held =>
              rw [hcv] at hval
              simp only [Value.Interface] at hval
              subst hval
              exact Or.inr (Or.inr ⟨e, o, rfl, hz⟩)
            | _ => rw [hcv] at hval; simp [Value.Interface] at hval
          · exact Or.inl rfl
        · rename_i s hval
          split
          · rename_i hz
            apply Record.write_wrote r _ g ca _ hca hset
            intro v hv
            obtain ⟨⟨m, hm⟩, hv⟩ := setString_ok hv
            subst hv
            rw [hm] at hz ⊢
            simp only [Value.String] at hz
            subst hz
            exact ⟨Or.inr (Or.inl rfl), rfl, by simp [Value.kind]⟩
          · exact Or.inl rfl
        · exact Or.inl rfl
      · exact Or.inl rfl
  | _ => exact Or.inl rfl

theorem length_pos_of_ne_empty {s : String} (h : s ≠ "") : s.length > 0 := by
  rcases s with ⟨l⟩
  cases l with
  | nil => exact absurd rfl h
  | cons a as => simp [String.length]

theorem lookup_of_fieldType {d : Doc} {f : String} {b : Bool} {k : Kind}
    (h : d.fieldType f = some (b, k)) :
    ∃ ca, d.lookup f = some ca ∧ ca.exported = b ∧ ca.val.kind = k := by
  unfold Doc.fieldType at h
  cases hl : d.lookup f with
  | none => simp [hl] at h
  | some ca =>
    simp only [hl, Option.map_some', Option.some.injEq, Prod.mk.injEq] at h
    exact ⟨ca, rfl, h.1, h.2⟩

/-- The value of the written field after a write of a value that is not a struct. -/
theorem field_set_self (r : Record) (f : String) (ca : Field) (v : Value)
    (hl : FieldByName r.fields f = some ca) (hv : v.kind ≠ .embedded) :
    (Doc.ptr (r.set f v)).field f = some v := by
  simp only [Doc.field, Doc.lookup, Record.set, FieldByName_setField_self _ _ _ hv, hl,
    Option.map_some']

theorem setBy_effect (w : World) (ctx : Context) (d : Doc) (f k s : String)
    (hp : d.isPtr = true) (ht : d.fieldType f = some (true, .string))
    (hc : ctx.Value k = some (.str s)) (hs : s ≠ "") :
    (setBy w ctx d f k).doc.field f = some (.string s)
      ∧ (setBy w ctx d f k).exit = .ok ∧ (setBy w ctx d f k).world = w := by
  cases d with
  | ptr r =>
    obtain ⟨ca, hl, he, hk⟩ := lookup_of_fieldType ht
    simp only [Doc.lookup] at hl
    cases hv : ca.val with
    | string s0 =>
      have hlen : s.length > 0 := length_pos_of_ne_empty hs
      simp only [setBy, hl, Field.CanSet, he, if_true, hv, Value.Interface, hc, hlen,
        Value.SetString, Record.write, and_self, and_true]
      exact field_set_self r f ca _ hl (by simp [Value.kind])
    | _ => simp [hv, Value.kind] at hk
  | _ => simp [Doc.isPtr] at hp

theorem setUpdatedTime_int64 (w : World) (ctx : Context) (d : Doc) (f : String)
    (hp : d.isPtr = true) (ht : d.fieldType f = some (true, .int64)) :
    (setUpdatedTime w ctx d f).doc.field f
        = some (.int64 (wrapInt64 ((w.now w.ticks).Unix * 1000)))
      ∧ (setUpdatedTime w ctx d f).exit = .ok := by
  cases d with
  | ptr r =>
    obtain ⟨ca, hl, he, hk⟩ := lookup_of_fieldType ht
    simp only [Doc.lookup] at hl
    cases hv : ca.val with
    | int64 n =>
      simp only [setUpdatedTime, hl, Field.CanSet, he, if_true, hv, Value.Interface,
        Value.SetInt, Record.write, and_true]
      exact field_set_self r f ca _ hl (by simp [Value.kind])
    | _ => simp [hv, Value.kind] at hk
  | _ => simp [Doc.isPtr] at hp

theorem setUpdatedTime_uint64 (w : World) (ctx : Context) (d : Doc) (f : String)
    (hp : d.isPtr = true) (ht : d.fieldType f = some (true, .uint64)) :
    (setUpdatedTime w ctx d f).doc.field f
        = some (.uint64 (mulUint64 (toUint64 (w.now w.ticks).Unix) 1000))
      ∧ (setUpdatedTime w ctx d f).exit = .ok := by
  cases d with
  | ptr r =>
    obtain ⟨ca, hl, he, hk⟩ := lookup_of_fieldType ht
    simp only [Doc.lookup] at hl
    cases hv : ca.val with
    | uint64 n =>
      simp only [setUpdatedTime, hl, Field.CanSet, he, if_true, hv, Value.Interface,
        Value.SetUint, Record.write, and_true]
      exact field_set_self r f ca _ hl (by simp [Value.kind])
    | _ => simp [hv, Value.kind] at hk
  | _ => simp [Doc.isPtr] at hp

theorem Record.write_exit (r : Record) (w : World) (g : String) (res : Except Panic Value)
    (h : ∃ v, res = .ok v) : (r.write w g res).exit = .ok := by
  obtain ⟨v, hv⟩ := h
  rw [hv]
  rfl

/-- The function `setId` returns: its `Set` gives an `ObjectID` to a field that holds
one, and its `SetString` is reached only with a field of kind string. -/
theorem setId_exit (w : World) (ctx : Context) (d : Doc) (g : String)
    (hp : d.isPtr = true) : (setId w ctx d g).exit = .ok := by
  cases d with
  | ptr r =>
    simp only [setId]
    split
    · rfl
    · rename_i ca hca
      split
      · split
        · rename_i o hval
          split
          · apply Record.write_exit
            cases hcv : ca.val <;> rw [hcv] at hval <;>
              simp [Value.Interface] at hval
            · exact ⟨_, rfl⟩
            · subst hval
              rename_i e
              exact ⟨.iface e (.objectID w.NewObjectID.1), by simp [Value.Set, Dyn.kind]⟩
          · rfl
        · rename_i s hval
          split
          · rename_i hz
            apply Record.write_exit
            cases hcv : ca.val <;> rw [hcv] at hz <;> simp [Value.String] at hz
            exact ⟨_, rfl⟩
          · rfl
        · rfl
      · rfl
  | _ => simp [Doc.isPtr] at hp

/-- The function `setTime` returns when the field is not a settable `time.Time` and
not a settable field of interface type. -/
theorem setTime_exit (w : World) (ctx : Context) (d : Doc) (g : String) (ow : Bool)
    (hp : d.isPtr = true)
    (ht : ∀ k, d.fieldType g = some (true, k) → k ≠ .time ∧ ∀ e, k ≠ .iface e) :
    (setTime w ctx d g ow).exit = .ok := by
  cases d with
  | ptr r =>
    simp only [setTime]
    split
    · rfl
    · rename_i ca hca
      split
      · rename_i hset
        simp only [Field.CanSet] at hset
        have hk := ht ca.val.kind (by simp [Doc.fieldType, Doc.lookup, hca, hset])
        cases hcv : ca.val with
        | time t => rw [hcv] at hk; exact absurd rfl hk.1
        | iface e held => rw [hcv] at hk; exact absurd rfl (hk.2 e)
        | int64 n =>
          simp only [Value.Interface, Value.SetInt, Record.write]
          repeat' split
          all_goals rfl
        | uint64 n =>
          simp only [Value.Interface, Value.SetUint, Record.write]
          repeat' split
          all_goals rfl
        | _ => rfl
      · rfl
  | _ => simp [Doc.isPtr] at hp

/-! ## Lemmas: sequencing, hooks and the methods of `CustomFields` -/

theorem Run.andThen_doc_inv (P : Doc → Prop) (x : Run Doc) (f : World → Doc → Run Doc)
    (hx : P x.doc) (hf : ∀ w d, P d → P (f w d).doc) : P (x.andThen f).doc := by
  unfold Run.andThen
  split
  · exact hf _ _ hx
  · exact hx

theorem Run.andThen_of_ok (x : Run Doc) (f : World → Doc → Run Doc) (h : x.exit = .ok) :
    x.andThen f = f x.world x.doc := by
  unfold Run.andThen
  rw [h]

theorem callDefault_isPtr (d : Doc) (m : DefaultFieldHook → List Field → List Field) :
    (d.callDefault m).isPtr = d.isPtr := by
  cases d with
  | ptr r => cases hh : r.defaultHook <;> simp [Doc.callDefault, hh, Doc.isPtr]
  | _ => rfl

theorem callDefault_customFields (d : Doc)
    (m : DefaultFieldHook → List Field → List Field) :
    (d.callDefault m).customFields = d.customFields := by
  cases d with
  | ptr r => cases hh : r.defaultHook <;> simp [Doc.callDefault, hh, Doc.customFields]
  | _ => rfl

theorem callDefault_defaultHook (d : Doc)
    (m : DefaultFieldHook → List Field → List Field) :
    (d.callDefault m).defaultHook = d.defaultHook := by
  cases d with
  | ptr r => cases hh : r.defaultHook <;> simp [Doc.callDefault, hh, Doc.defaultHook]
  | _ => rfl

theorem callDefault_fieldType (d : Doc) (m : DefaultFieldHook → List Field → List Field)
    (hm : ∀ h fs, shapeOf (m h fs) = shapeOf fs) (f : String) :
    (d.callDefault m).fieldType f = d.fieldType f := by
  cases d with
  | ptr r =>
    cases hh : r.defaultHook with
    | none => simp [Doc.callDefault, hh]
    | some h =>
      simp only [Doc.callDefault, hh, Doc.fieldType, Doc.lookup]
      have := FieldByName_of_shape (hm h r.fields) f
      simp only [Option.map_eq_map] at this ⊢
      cases h1 : FieldByName (m h r.fields) f <;> cases h2 : FieldByName r.fields f <;>
        simp_all
  | _ => rfl

theorem callDefault_lookup (d : Doc) (m : DefaultFieldHook → List Field → List Field)
    (f : String)
    (hm : ∀ h, d.defaultHook = some h → ∀ fs, FieldByName (m h fs) f = FieldByName fs f) :
    (d.callDefault m).lookup f = d.lookup f := by
  cases d with
  | ptr r =>
    cases hh : r.defaultHook with
    | none => simp [Doc.callDefault, hh]
    | some h =>
      simp only [Doc.callDefault, hh, Doc.lookup]
      exact hm h hh r.fields
  | _ => rfl

theorem CustomId_wrote (c : CustomFields) (w : World) (ctx : Context) (d : Doc) :
    Doc.Wrote (fun v => (∃ o, v = .objectID o ∧ o.IsZero = true) ∨ v = .string ""
        ∨ (∃ e o, v = .iface e (.objectID o) ∧ o.IsZero = true)) c.id d
      (c.CustomId w ctx d).doc := by
  unfold CustomFields.CustomId
  split
  · exact Or.inl rfl
  · exact setId_wrote w ctx d c.id

theorem CustomCreateTime_wrote (c : CustomFields) (w : World) (ctx : Context) (d : Doc) :
    Doc.Wrote (fun v => (∃ n, v = .int64 n ∧ n = 0) ∨ (∃ n, v = .uint64 n ∧ n = 0)
        ∨ (∃ e t, v = .iface e (.time t) ∧ t.IsZero = true))
      c.createAt d (c.CustomCreateTime w ctx d).doc := by
  unfold CustomFields.CustomCreateTime
  split
  · exact Or.inl rfl
  · refine (setTime_wrote w ctx d c.createAt false).mono ?_
    rintro v (⟨t, _, _, h⟩ | ⟨n, h1, h2⟩ | ⟨n, h1, h2⟩ | ⟨e, t, h1, h2⟩)
    · cases h
    · exact Or.inl ⟨n, h1, by simpa using h2⟩
    · exact Or.inr (Or.inl ⟨n, h1, by simpa using h2⟩)
    · exact Or.inr (Or.inr ⟨e, t, h1, by simpa using h2⟩)

theorem CustomCreateBy_wrote (c : CustomFields) (w : World) (ctx : Context) (d : Doc) :
    Doc.Wrote (fun v => v.kind = .string) c.createBy d (c.CustomCreateBy w ctx d).doc := by
  unfold CustomFields.CustomCreateBy
  split
  · exact Or.inl rfl
  · exact setBy_wrote w ctx d c.createBy c.createByKey

theorem CustomUpdateTime_wrote (c : CustomFields) (w : World) (ctx : Context) (d : Doc) :
    Doc.Wrote (fun v => v.kind = .int64 ∨ v.kind = .uint64 ∨ v.kind = .iface true)
      c.updateAt d (c.CustomUpdateTime w ctx d).doc := by
  unfold CustomFields.CustomUpdateTime
  split
  · exact Or.inl rfl
  · exact setUpdatedTime_wrote w ctx d c.updateAt

theorem CustomUpdateBy_wrote (c : CustomFields) (w : World) (ctx : Context) (d : Doc) :
    Doc.Wrote (fun v => v.kind = .string) c.updateBy d (c.CustomUpdateBy w ctx d).doc := by
  unfold CustomFields.CustomUpdateBy
  split
  · exact Or.inl rfl
  · exact setBy_wrote w ctx d c.updateBy c.updateByKey

theorem beforeUpdate_updateAt (w : World) (ctx : Context) (d : Doc) (c : CustomFields)
    (f : String) (hp : d.isPtr = true) (hc : d.customFields = some (.custom c))
    (hu : c.updateAt = f) (hne : f ≠ "") :
    (d.fieldType f = some (true, .int64) →
      (beforeUpdate w ctx d).doc.field f
        = some (.int64 (wrapInt64 ((w.now w.ticks).Unix * 1000))))
    ∧ (d.fieldType f = some (true, .uint64) →
      (beforeUpdate w ctx d).doc.field f
        = some (.uint64 (mulUint64 (toUint64 (w.now w.ticks).Unix) 1000))) := by
  have hshape := fun h fs => DefaultFieldHook.shape_DefaultUpdateAt h fs
  have hc1 : (d.callDefault DefaultFieldHook.DefaultUpdateAt).customFields
      = some (.custom c) := by rw [callDefault_customFields, hc]
  have hp1 : (d.callDefault DefaultFieldHook.DefaultUpdateAt).isPtr = true := by
    rw [callDefault_isPtr, hp]
  have hcu : ∀ w1 d1, c.CustomUpdateTime w1 ctx d1 = setUpdatedTime w1 ctx d1 f := by
    intro w1 d1
    simp [CustomFields.CustomUpdateTime, hu, hne]
  constructor
  · intro ht
    have ht1 : (d.callDefault DefaultFieldHook.DefaultUpdateAt).fieldType f
        = some (true, .int64) := by rw [callDefault_fieldType _ _ hshape, ht]
    simp only [beforeUpdate, hc1, hcu]
    apply Run.andThen_doc_inv (fun x => x.field f = some _)
    · exact (setUpdatedTime_int64 w ctx _ f hp1 ht1).1
    · intro w1 d1 hd1
      exact (CustomUpdateBy_wrote c w1 ctx d1).field_keep hd1 rfl
        (Or.inr (by simp [Value.kind]))
  · intro ht
    have ht1 : (d.callDefault DefaultFieldHook.DefaultUpdateAt).fieldType f
        = some (true, .uint64) := by rw [callDefault_fieldType _ _ hshape, ht]
    simp only [beforeUpdate, hc1, hcu]
    apply Run.andThen_doc_inv (fun x => x.field f = some _)
    · exact (setUpdatedTime_uint64 w ctx _ f hp1 ht1).1
    · intro w1 d1 hd1
      exact (CustomUpdateBy_wrote c w1 ctx d1).field_keep hd1 rfl
        (Or.inr (by simp [Value.kind]))

theorem beforeUpsert_eq_beforeInsert : beforeUpsert = beforeInsert := rfl

theorem DefaultKeeps_callDefault {d : Doc} {f : String} (h : d.DefaultKeeps f)
    (m : DefaultFieldHook → List Field → List Field) : (d.callDefault m).DefaultKeeps f := by
  unfold Doc.DefaultKeeps
  rw [callDefault_defaultHook]
  exact h

/-- The three default hooks of `beforeInsert`, in a document whose hooks keep `f`. -/
theorem defaults_lookup {d : Doc} {f : String} (h : d.DefaultKeeps f) :
    (((d.callDefault DefaultFieldHook.DefaultId).callDefault
      DefaultFieldHook.DefaultCreateAt).callDefault
      DefaultFieldHook.DefaultUpdateAt).lookup f = d.lookup f := by
  have h1 := DefaultKeeps_callDefault h DefaultFieldHook.DefaultId
  have h2 := DefaultKeeps_callDefault h1 DefaultFieldHook.DefaultCreateAt
  rw [callDefault_lookup _ _ f (fun k hk fs => (h2 k hk fs).2.2),
    callDefault_lookup _ _ f (fun k hk fs => (h1 k hk fs).2.1),
    callDefault_lookup _ _ f (fun k hk fs => (h k hk fs).1)]

theorem beforeInsert_keeps_create (w : World) (ctx : Context) (d : Doc) (c : CustomFields)
    (f : String) (old : Value)
    (hf : d.field f = some old)
    (hnz : (∃ t, old = .time t ∧ t.IsZero = false) ∨ (∃ n, old = .int64 n ∧ n ≠ 0)
      ∨ (∃ n, old = .uint64 n ∧ n ≠ 0))
    (hc : d.customFields = some (.custom c)) (hu : c.updateAt ≠ f)
    (hkeep : d.DefaultKeeps f) :
    (beforeInsert w ctx d).doc.field f = some old := by
  have hks : old.kind ≠ .string := by
    rcases hnz with ⟨t, h, _⟩ | ⟨n, h, _⟩ | ⟨n, h, _⟩ <;> simp [h, Value.kind]
  have hpl : ∀ n, old.clearOf [n] = true := by
    rcases hnz with ⟨t, h, _⟩ | ⟨n, h, _⟩ | ⟨n, h, _⟩ <;> simp [h, Value.clearOf]
  have hid : ¬ ((∃ o, old = .objectID o ∧ o.IsZero = true) ∨ old = .string ""
      ∨ (∃ e o, old = .iface e (.objectID o) ∧ o.IsZero = true)) := by
    rcases hnz with ⟨t, h, _⟩ | ⟨n, h, _⟩ | ⟨n, h, _⟩ <;> simp [h]
  have hct : ¬ ((∃ n, old = .int64 n ∧ n = 0) ∨ (∃ n, old = .uint64 n ∧ n = 0)
      ∨ (∃ e t, old = .iface e (.time t) ∧ t.IsZero = true)) := by
    rcases hnz with ⟨t, h, _⟩ | ⟨n, h, hn⟩ | ⟨n, h, hn⟩
    · simp [h]
    · simp [h, hn]
    · simp [h, hn]
  have hc1 : (((d.callDefault DefaultFieldHook.DefaultId).callDefault
      DefaultFieldHook.DefaultCreateAt).callDefault
      DefaultFieldHook.DefaultUpdateAt).customFields = some (.custom c) := by
    rw [callDefault_customFields, callDefault_customFields, callDefault_customFields, hc]
  have hf1 : (((d.callDefault DefaultFieldHook.DefaultId).callDefault
      DefaultFieldHook.DefaultCreateAt).callDefault
      DefaultFieldHook.DefaultUpdateAt).field f = some old := by
    simp only [Doc.field, defaults_lookup hkeep]
    exact hf
  simp only [beforeInsert, hc1]
  apply Run.andThen_doc_inv (fun x => x.field f = some old)
  apply Run.andThen_doc_inv (fun x => x.field f = some old)
  apply Run.andThen_doc_inv (fun x => x.field f = some old)
  apply Run.andThen_doc_inv (fun x => x.field f = some old)
  · exact (CustomId_wrote c w ctx _).field_keep hf1 (hpl _) (Or.inr hid)
  · intro w1 d1 h1
    exact (CustomCreateTime_wrote c w1 ctx d1).field_keep h1 (hpl _) (Or.inr hct)
  · intro w1 d1 h1
    exact (CustomCreateBy_wrote c w1 ctx d1).field_keep h1 (hpl _) (Or.inr hks)
  · intro w1 d1 h1
    exact (CustomUpdateTime_wrote c w1 ctx d1).field_keep h1 (hpl _) (Or.inl hu)
  · intro w1 d1 h1
    exact (CustomUpdateBy_wrote c w1 ctx d1).field_keep h1 (hpl _) (Or.inr hks)

theorem CustomId_exit (c : CustomFields) (w : World) (ctx : Context) (d : Doc)
    (hp : d.isPtr = true) : (c.CustomId w ctx d).exit = .ok := by
  unfold CustomFields.CustomId
  split
  · rfl
  · exact setId_exit w ctx d c.id hp

theorem CustomCreateTime_exit (c : CustomFields) (w : World) (ctx : Context) (d : Doc)
    (hp : d.isPtr = true)
    (ht : ∀ k, d.fieldType c.createAt = some (true, k) → k ≠ .time ∧ ∀ e, k ≠ .iface e) :
    (c.CustomCreateTime w ctx d).exit = .ok := by
  unfold CustomFields.CustomCreateTime
  split
  · rfl
  · exact setTime_exit w ctx d c.createAt false hp ht

theorem beforeInsert_createBy (w : World) (ctx : Context) (d : Doc) (c : CustomFields)
    (f k s : String) (hp : d.isPtr = true) (hc : d.customFields = some (.custom c))
    (hcb : c.createBy = f) (hck : c.createByKey = k) (hne : f ≠ "")
    (ht : d.fieldType f = some (true, .string))
    (hctx : ctx.Value k = some (.str s)) (hs : s ≠ "")
    (hub : c.updateBy ≠ f)
    (hct : ∀ k, d.fieldType c.createAt = some (true, k) → k ≠ .time ∧ ∀ e, k ≠ .iface e) :
    (beforeInsert w ctx d).doc.field f = some (.string s) := by
  have hsI := fun h fs => DefaultFieldHook.shape_DefaultId h fs
  have hsC := fun h fs => DefaultFieldHook.shape_DefaultCreateAt h fs
  have hsU := fun h fs => DefaultFieldHook.shape_DefaultUpdateAt h fs
  generalize hd0 : ((d.callDefault DefaultFieldHook.DefaultId).callDefault
      DefaultFieldHook.DefaultCreateAt).callDefault
      DefaultFieldHook.DefaultUpdateAt = d0
  have hty : ∀ g, d0.fieldType g = d.fieldType g := by
    intro g
    rw [← hd0, callDefault_fieldType _ _ hsU, callDefault_fieldType _ _ hsC,
      callDefault_fieldType _ _ hsI]
  have hp0 : d0.isPtr = true := by
    rw [← hd0, callDefault_isPtr, callDefault_isPtr, callDefault_isPtr, hp]
  have hc0 : d0.customFields = some (.custom c) := by
    rw [← hd0, callDefault_customFields, callDefault_customFields,
      callDefault_customFields, hc]
  simp only [beforeInsert, hd0, hc0]
  -- the identifier
  have hA := CustomId_wrote c w ctx d0
  have hAe := CustomId_exit c w ctx d0 hp0
  generalize c.CustomId w ctx d0 = A at hA hAe
  have hpA : A.doc.isPtr = true := by rw [hA.isPtr_eq, hp0]
  have htyA : ∀ g, A.doc.fieldType g = d.fieldType g := fun g => by
    rw [hA.fieldType_eq, hty]
  rw [Run.andThen_of_ok A _ hAe]
  -- the create time
  have hB := CustomCreateTime_wrote c A.world ctx A.doc
  have hBe := CustomCreateTime_exit c A.world ctx A.doc hpA (by rw [htyA]; exact hct)
  generalize c.CustomCreateTime A.world ctx A.doc = B at hB hBe
  have hpB : B.doc.isPtr = true := by rw [hB.isPtr_eq, hpA]
  have htyB : B.doc.fieldType f = some (true, .string) := by
    rw [hB.fieldType_eq, htyA, ht]
  rw [Run.andThen_of_ok B _ hBe]
  -- the creator, then the two update setters
  have hcby : c.CustomCreateBy B.world ctx B.doc = setBy B.world ctx B.doc f k := by
    simp [CustomFields.CustomCreateBy, hcb, hck, hne]
  apply Run.andThen_doc_inv (fun x => x.field f = some (.string s))
  apply Run.andThen_doc_inv (fun x => x.field f = some (.string s))
  · rw [hcby]
    exact (setBy_effect B.world ctx B.doc f k s hpB htyB hctx hs).1
  · intro w1 d1 h1
    exact (CustomUpdateTime_wrote c w1 ctx d1).field_keep h1 rfl
      (Or.inr (by simp [Value.kind]))
  · intro w1 d1 h1
    exact (CustomUpdateBy_wrote c w1 ctx d1).field_keep h1 rfl
      (Or.inl hub)

theorem toUint64_wrapInt64 (x : Int) : toUint64 (wrapInt64 x) = toUint64 x := by
  unfold toUint64 wrapInt64
  congr 1
  omega

theorem wrapInt64_unix_milli (t : Time) (h : t.nsec < 1000000) :
    wrapInt64 (t.Unix * 1000) = t.UnixMilli := by
  unfold Time.UnixMilli Time.Unix
  have : t.nsec / 1000000 = 0 := Nat.div_eq_of_lt h
  simp [this]

/-! ## Lemmas: exact effect of one `beforeInsert` on identifier and time fields -/

theorem lookup_of_fieldType_field {d : Doc} {f : String} {k : Kind} {v : Value}
    (ht : d.fieldType f = some (true, k)) (hv : d.field f = some v) :
    ∃ ca, d.lookup f = some ca ∧ ca.CanSet = true ∧ ca.val = v := by
  obtain ⟨ca, hl, he, _⟩ := lookup_of_fieldType ht
  refine ⟨ca, hl, he, ?_⟩
  simpa [Doc.field, hl] using hv

theorem Record.write_world (r : Record) (w : World) (g : String)
    (res : Except Panic Value) : (r.write w g res).world = w := by
  cases res <;> rfl

theorem setId_clock (w : World) (ctx : Context) (d : Doc) (g : String) :
    (setId w ctx d g).world.ticks = w.ticks ∧ (setId w ctx d g).world.now = w.now := by
  cases d with
  | ptr r =>
    simp only [setId]
    repeat' split
    all_goals first | exact ⟨rfl, rfl⟩ | (rw [Record.write_world]; exact ⟨rfl, rfl⟩)
  | _ => exact ⟨rfl, rfl⟩

theorem setId_string (w : World) (ctx : Context) (d : Doc) (f s0 : String)
    (hp : d.isPtr = true) (ht : d.fieldType f = some (true, .string))
    (hv : d.field f = some (.string s0)) :
    (setId w ctx d f).doc.field f
      = some (.string (if s0 = "" then w.uuid w.uuids else s0)) := by
  cases d with
  | ptr r =>
    obtain ⟨ca, hl, hset, hval⟩ := lookup_of_fieldType_field ht hv
    simp only [Doc.lookup] at hl
    by_cases hz : s0 = ""
    · simp only [setId, hl, hset, hval, hz, if_true, Value.Interface, Value.String,
        Value.SetString, Record.write, World.NewString]
      exact field_set_self r f ca _ hl (by simp [Value.kind])
    · simp only [setId, hl, hset, hval, hz, if_true, if_false, Value.Interface,
        Value.String]
      exact hv
  | _ => simp [Doc.isPtr] at hp

theorem setTime_int64 (w : World) (ctx : Context) (d : Doc) (f : String) (n0 : Int)
    (hp : d.isPtr = true) (ht : d.fieldType f = some (true, .int64))
    (hv : d.field f = some (.int64 n0)) :
    (setTime w ctx d f false).exit = .ok
      ∧ (setTime w ctx d f false).world.ticks = w.ticks + 1
      ∧ (setTime w ctx d f false).world.now = w.now
      ∧ (setTime w ctx d f false).doc.field f
        = some (.int64 (if n0 = 0 then wrapInt64 ((w.now w.ticks).Unix * 1000) else n0)) := by
  cases d with
  | ptr r =>
    obtain ⟨ca, hl, hset, hval⟩ := lookup_of_fieldType_field ht hv
    simp only [Doc.lookup] at hl
    by_cases hz : n0 = 0
    · simp only [setTime, hl, hset, hval, hz, if_true, Value.Interface, Value.SetInt,
        Record.write, World.timeNow, true_and]
      exact field_set_self r f ca _ hl (by simp [Value.kind])
    · simp only [setTime, hl, hset, hval, hz, if_true, if_false, World.timeNow,
        Value.Interface]
      exact ⟨rfl, rfl, rfl, by simpa using hv⟩
  | _ => simp [Doc.isPtr] at hp

theorem setUpdatedTime_int64_world (w : World) (ctx : Context) (d : Doc) (f : String)
    (hp : d.isPtr = true) (ht : d.fieldType f = some (true, .int64)) :
    (setUpdatedTime w ctx d f).world.ticks = w.ticks + 1
      ∧ (setUpdatedTime w ctx d f).world.now = w.now := by
  cases d with
  | ptr r =>
    obtain ⟨ca, hl, he, hk⟩ := lookup_of_fieldType ht
    simp only [Doc.lookup] at hl
    cases hv : ca.val with
    | int64 n =>
      simp [setUpdatedTime, hl, Field.CanSet, he, hv, World.timeNow, Value.Interface,
        Value.SetInt, Record.write]
    | _ => simp [hv, Value.kind] at hk
  | _ => simp [Doc.isPtr] at hp

theorem Run.andThen_return (x : Run Doc) :
    (x.andThen fun w d => ⟨w, d, .ok⟩) = x := by
  unfold Run.andThen
  split
  · rename_i h
    cases x
    simp_all
  · rfl

theorem beforeInsert_step (w : World) (ctx : Context) (d : Doc) (c : CustomFields)
    (i ct u s0 : String) (n0 : Int) (hs : InsertSetup c i ct u d)
    (hi : d.field i = some (.string s0)) (hct : d.field ct = some (.int64 n0)) :
    (beforeInsert w ctx d).exit = .ok
      ∧ (beforeInsert w ctx d).world.ticks = w.ticks + 2
      ∧ (beforeInsert w ctx d).world.now = w.now
      ∧ (beforeInsert w ctx d).doc.field i
        = some (.string (if s0 = "" then w.uuid w.uuids else s0))
      ∧ (beforeInsert w ctx d).doc.field ct
        = some (.int64 (if n0 = 0 then wrapInt64 ((w.now w.ticks).Unix * 1000) else n0))
      ∧ (beforeInsert w ctx d).doc.field u
        = some (.int64 (wrapInt64 ((w.now (w.ticks + 1)).Unix * 1000)))
      ∧ InsertSetup c i ct u (beforeInsert w ctx d).doc := by
  have hsI := fun h fs => DefaultFieldHook.shape_DefaultId h fs
  have hsC := fun h fs => DefaultFieldHook.shape_DefaultCreateAt h fs
  have hsU := fun h fs => DefaultFieldHook.shape_DefaultUpdateAt h fs
  have hi0 := hi
  have hct0 := hct
  simp only [Doc.field, ← defaults_lookup hs.keeps_id] at hi0
  simp only [Doc.field, ← defaults_lookup hs.keeps_createAt] at hct0
  generalize hd0 : ((d.callDefault DefaultFieldHook.DefaultId).callDefault
      DefaultFieldHook.DefaultCreateAt).callDefault
      DefaultFieldHook.DefaultUpdateAt = d0 at hi0 hct0
  have hty : ∀ g, d0.fieldType g = d.fieldType g := by
    intro g
    rw [← hd0, callDefault_fieldType _ _ hsU, callDefault_fieldType _ _ hsC,
      callDefault_fieldType _ _ hsI]
  have hp0 : d0.isPtr = true := by
    rw [← hd0, callDefault_isPtr, callDefault_isPtr, callDefault_isPtr, hs.isPtr]
  have hc0 : d0.customFields = some (.custom c) := by
    rw [← hd0, callDefault_customFields, callDefault_customFields,
      callDefault_customFields, hs.custom]
  have hh0 : d0.defaultHook = d.defaultHook := by
    rw [← hd0, callDefault_defaultHook, callDefault_defaultHook, callDefault_defaultHook]
  have e1 : ∀ w1 d1, c.CustomId w1 ctx d1 = setId w1 ctx d1 i := fun w1 d1 => by
    simp [CustomFields.CustomId, hs.id_eq, hs.id_ne]
  have e2 : ∀ w1 d1, c.CustomCreateTime w1 ctx d1 = setTime w1 ctx d1 ct false :=
    fun w1 d1 => by simp [CustomFields.CustomCreateTime, hs.createAt_eq, hs.createAt_ne]
  have e3 : ∀ w1 d1, c.CustomCreateBy w1 ctx d1 = ⟨w1, d1, .ok⟩ := fun w1 d1 => by
    simp [CustomFields.CustomCreateBy, hs.createBy_eq]
  have e4 : ∀ w1 d1, c.CustomUpdateTime w1 ctx d1 = setUpdatedTime w1 ctx d1 u :=
    fun w1 d1 => by simp [CustomFields.CustomUpdateTime, hs.updateAt_eq, hs.updateAt_ne]
  have e5 : ∀ w1 d1, c.CustomUpdateBy w1 ctx d1 = ⟨w1, d1, .ok⟩ := fun w1 d1 => by
    simp [CustomFields.CustomUpdateBy, hs.createBy_eq]
  simp only [beforeInsert, hd0, hc0, e1, e2, e3, e4, e5, Run.andThen_return]
  -- the identifier
  have hA := setId_wrote w ctx d0 i
  have hAe := setId_exit w ctx d0 i hp0
  have hAc := setId_clock w ctx d0 i
  have hAi := setId_string w ctx d0 i s0 hp0 (by rw [hty, hs.id_type]) hi0
  generalize setId w ctx d0 i = A at hA hAe hAc hAi
  have hpA : A.doc.isPtr = true := by rw [hA.isPtr_eq, hp0]
  have htyA : ∀ g, A.doc.fieldType g = d.fieldType g := fun g => by
    rw [hA.fieldType_eq, hty]
  have hAct : A.doc.field ct = some (.int64 n0) :=
    hA.field_keep hct0 rfl (Or.inl hs.id_createAt)
  rw [Run.andThen_of_ok A _ hAe]
  -- the create time
  have hB := setTime_wrote A.world ctx A.doc ct false
  have hBv := setTime_int64 A.world ctx A.doc ct n0 hpA
    (by rw [htyA, hs.createAt_type]) hAct
  generalize setTime A.world ctx A.doc ct false = B at hB hBv
  obtain ⟨hBe, hBt, hBn, hBct⟩ := hBv
  have hpB : B.doc.isPtr = true := by rw [hB.isPtr_eq, hpA]
  have htyB : ∀ g, B.doc.fieldType g = d.fieldType g := fun g => by
    rw [hB.fieldType_eq, htyA]
  have hBi := hB.field_keep hAi rfl (Or.inl (Ne.symm hs.id_createAt))
  rw [Run.andThen_of_ok B _ hBe]
  -- the update time
  have hD := setUpdatedTime_wrote B.world ctx B.doc u
  have hDv := setUpdatedTime_int64 B.world ctx B.doc u hpB
    (by rw [htyB, hs.updateAt_type])
  have hDw := setUpdatedTime_int64_world B.world ctx B.doc u hpB
    (by rw [htyB, hs.updateAt_type])
  generalize setUpdatedTime B.world ctx B.doc u = D at hD hDv hDw
  have hDi := hD.field_keep hBi rfl (Or.inl (Ne.symm hs.id_updateAt))
  have hDct := hD.field_keep hBct rfl
    (Or.inl (Ne.symm hs.createAt_updateAt))
  have hhD : D.doc.defaultHook = d.defaultHook := by
    rw [hD.defaultHook_eq, hB.defaultHook_eq, hA.defaultHook_eq, hh0]
  have htyD : ∀ g, D.doc.fieldType g = d.fieldType g := fun g => by
    rw [hD.fieldType_eq, htyB]
  refine ⟨hDv.2, ?_, ?_, hDi, ?_, ?_, ?_⟩
  · rw [hDw.1, hBt, hAc.1]
  · rw [hDw.2, hBn, hAc.2]
  · rw [hDct, hAc.1, hAc.2]
  · rw [hDv.1, hBt, hBn, hAc.1, hAc.2]
  · exact
      { isPtr := by rw [hD.isPtr_eq, hpB]
        custom := by
          rw [hD.customFields_eq, hB.customFields_eq, hA.customFields_eq, hc0]
        id_eq := hs.id_eq
        createAt_eq := hs.createAt_eq
        updateAt_eq := hs.updateAt_eq
        createBy_eq := hs.createBy_eq
        id_ne := hs.id_ne
        createAt_ne := hs.createAt_ne
        updateAt_ne := hs.updateAt_ne
        id_createAt := hs.id_createAt
        id_updateAt := hs.id_updateAt
        createAt_updateAt := hs.createAt_updateAt
        id_type := by rw [htyD, hs.id_type]
        createAt_type := by rw [htyD, hs.createAt_type]
        updateAt_type := by rw [htyD, hs.updateAt_type]
        keeps_id := by
          unfold Doc.DefaultKeeps
          rw [hhD]
          exact hs.keeps_id
        keeps_createAt := by
          unfold Doc.DefaultKeeps
          rw [hhD]
          exact hs.keeps_createAt }

theorem Do_doc_beforeInsert (w : World) (ctx : Context) (d : Doc) (hp : d.isPtr = true) :
    Do w ctx (.doc d) .BeforeInsert
      = ⟨(beforeInsert w ctx d).world, .doc (beforeInsert w ctx d).doc,
          (beforeInsert w ctx d).exit⟩ := by
  cases d with
  | ptr r => rfl
  | _ => simp [Doc.isPtr] at hp

theorem CustomUpdateBy_without_createBy (c : CustomFields) (w : World) (ctx : Context)
    (d : Doc) (h : c.createBy = "") : c.CustomUpdateBy w ctx d = ⟨w, d, .ok⟩ := by
  simp [CustomFields.CustomUpdateBy, h]

theorem setUpdatedTime_time_panics (w : World) (ctx : Context) (r : Record) (f : String)
    (t : Time) (hf : FieldByName r.fields f = some ⟨f, true, .time t⟩) :
    (setUpdatedTime w ctx (.ptr r) f).exit = .panic .notAssignable
      ∧ (setUpdatedTime w ctx (.ptr r) f).doc = .ptr r := by
  simp [setUpdatedTime, hf, Field.CanSet, Value.Interface, Value.Set, Record.write]

theorem setBy_absent_key_panics (w : World) (ctx : Context) (r : Record) (f k s : String)
    (hf : FieldByName r.fields f = some ⟨f, true, .string s⟩)
    (hk : ctx.Value k = none) :
    (setBy w ctx (.ptr r) f k).exit = .panic .typeAssertion
      ∧ (setBy w ctx (.ptr r) f k).doc = .ptr r := by
  simp [setBy, hf, Field.CanSet, hk, Value.Interface]

theorem setBy_empty_value (w : World) (ctx : Context) (r : Record) (f k : String)
    (hk : ctx.Value k = some (.str "")) :
    setBy w ctx (.ptr r) f k = ⟨w, .ptr r, .ok⟩ := by
  simp only [setBy, hk]
  repeat' split
  all_goals first | rfl | simp_all

theorem setTime_zero_time_panics (w : World) (ctx : Context) (r : Record) (f : String)
    (t : Time) (overWrite : Bool)
    (hf : FieldByName r.fields f = some ⟨f, true, .time t⟩) (hz : t.IsZero = true) :
    (setTime w ctx (.ptr r) f overWrite).exit = .panic .notAssignable
      ∧ (setTime w ctx (.ptr r) f overWrite).doc = .ptr r := by
  simp [setTime, hf, Field.CanSet, hz, Value.Interface, Value.Set, Record.write]

theorem setTime_nonzero_time (w : World) (ctx : Context) (r : Record) (f : String)
    (t : Time) (overWrite : Bool)
    (hf : FieldByName r.fields f = some ⟨f, true, .time t⟩) (hz : t.IsZero = false) :
    (setTime w ctx (.ptr r) f overWrite).exit = .ok
      ∧ (setTime w ctx (.ptr r) f overWrite).doc.field f
        = some (.time (if overWrite then w.now w.ticks else t)) := by
  cases overWrite
  · simp [setTime, hf, Field.CanSet, hz, Doc.field, Doc.lookup, Value.Interface]
  · simp only [setTime, hf, Field.CanSet, hz, if_true, Value.Interface, Value.Set,
      Record.write, World.timeNow, true_and, Bool.false_eq_true, if_false]
    exact field_set_self r f _ _ hf (by simp [Value.kind])

theorem setTime_interface_int64_panics (w : World) (ctx : Context) (r : Record)
    (f : String) (e : Bool) (n : Int) (overWrite : Bool)
    (hf : FieldByName r.fields f = some ⟨f, true, .iface e (.int64 n)⟩)
    (h : n = 0 ∨ overWrite = true) :
    (setTime w ctx (.ptr r) f overWrite).exit = .panic .kindMismatch
      ∧ (setTime w ctx (.ptr r) f overWrite).doc = .ptr r := by
  by_cases hz : n = 0
  · simp [setTime, hf, Field.CanSet, hz, Value.Interface, Value.SetInt, Record.write]
  · have ho : overWrite = true := h.resolve_left hz
    simp [setTime, hf, Field.CanSet, hz, ho, Value.Interface, Value.SetInt, Record.write]

theorem setUpdatedTime_interface_int64_panics (w : World) (ctx : Context) (r : Record)
    (f : String) (e : Bool) (n : Int)
    (hf : FieldByName r.fields f = some ⟨f, true, .iface e (.int64 n)⟩) :
    (setUpdatedTime w ctx (.ptr r) f).exit = .panic .kindMismatch
      ∧ (setUpdatedTime w ctx (.ptr r) f).doc = .ptr r := by
  simp [setUpdatedTime, hf, Field.CanSet, Value.Interface, Value.SetInt, Record.write]

theorem setBy_interface_string_panics (w : World) (ctx : Context) (r : Record)
    (f k s0 s : String) (e : Bool)
    (hf : FieldByName r.fields f = some ⟨f, true, .iface e (.string s0)⟩)
    (hk : ctx.Value k = some (.str s)) (hs : s ≠ "") :
    (setBy w ctx (.ptr r) f k).exit = .panic .kindMismatch
      ∧ (setBy w ctx (.ptr r) f k).doc = .ptr r := by
  have hlen : s.length > 0 := length_pos_of_ne_empty hs
  simp [setBy, hf, Field.CanSet, hk, hlen, Value.Interface, Value.SetString, Record.write]

/-! ## Lemmas: what the handlers leave alone -/

theorem Doc.Wrote.field_ne {Q : Value → Prop} {g : String} {d1 d2 : Doc}
    (h : Doc.Wrote Q g d1 d2) {f : String} (hne : g ≠ f)
    (hpl : ∀ x, d1.lookup f = some x → x.val.clearOf [g] = true) :
    d2.field f = d1.field f := by
  simp only [Doc.field, h.lookup_ne hne hpl]

/-- What every setter keeps: the kind of document, its hooks, and the fields named
otherwise. -/
theorem Doc.Wrote.same {Q : Value → Prop} {g : String} {d1 d2 : Doc}
    (h : Doc.Wrote Q g d1 d2) :
    d2.isPtr = d1.isPtr ∧ d2.customFields = d1.customFields
      ∧ d2.defaultHook = d1.defaultHook :=
  ⟨h.isPtr_eq, h.customFields_eq, h.defaultHook_eq⟩

theorem beforeUpdate_frame (w : World) (ctx : Context) (d : Doc) (g : String)
    (hk : d.DefaultKeeps g)
    (hg : ∀ c, d.customFields = some (.custom c) → c.updateAt ≠ g ∧ c.updateBy ≠ g)
    (hpl : ∀ c x, d.customFields = some (.custom c) → d.lookup g = some x →
      x.val.clearOf [c.updateAt, c.updateBy] = true) :
    (beforeUpdate w ctx d).doc.lookup g = d.lookup g := by
  have h0 : (d.callDefault DefaultFieldHook.DefaultUpdateAt).lookup g = d.lookup g :=
    callDefault_lookup _ _ g (fun k hk1 fs => (hk k hk1 fs).2.2)
  simp only [beforeUpdate]
  rw [callDefault_customFields]
  cases hc : d.customFields with
  | none => exact h0
  | some b =>
    cases b with
    | foreign => exact h0
    | custom c =>
      obtain ⟨h1, h2⟩ := hg c hc
      have hcl : ∀ n ∈ [c.updateAt, c.updateBy], ∀ x, d.lookup g = some x →
          x.val.clearOf [n] = true := fun n hn x hx =>
        clearOf_mono (hpl c x hc hx) (by simpa using hn)
      apply Run.andThen_doc_inv (fun x => x.lookup g = d.lookup g)
      · rw [(CustomUpdateTime_wrote c w ctx _).lookup_ne h1
          (by rw [h0]; exact hcl _ (by simp)), h0]
      · intro w1 d1 hd1
        rw [(CustomUpdateBy_wrote c w1 ctx d1).lookup_ne h2
          (by rw [hd1]; exact hcl _ (by simp)), hd1]

theorem beforeInsert_frame (w : World) (ctx : Context) (d : Doc) (g : String)
    (hk : d.DefaultKeeps g)
    (hg : ∀ c, d.customFields = some (.custom c) →
      c.id ≠ g ∧ c.createAt ≠ g ∧ c.createBy ≠ g ∧ c.updateAt ≠ g ∧ c.updateBy ≠ g)
    (hpl : ∀ c x, d.customFields = some (.custom c) → d.lookup g = some x →
      x.val.clearOf [c.id, c.createAt, c.createBy, c.updateAt, c.updateBy] = true) :
    (beforeInsert w ctx d).doc.lookup g = d.lookup g := by
  have h0 := defaults_lookup hk
  simp only [beforeInsert]
  rw [callDefault_customFields, callDefault_customFields, callDefault_customFields]
  cases hc : d.customFields with
  | none => exact h0
  | some b =>
    cases b with
    | foreign => exact h0
    | custom c =>
      obtain ⟨h1, h2, h3, h4, h5⟩ := hg c hc
      have hcl : ∀ n ∈ [c.id, c.createAt, c.createBy, c.updateAt, c.updateBy],
          ∀ x, d.lookup g = some x → x.val.clearOf [n] = true := fun n hn x hx =>
        clearOf_mono (hpl c x hc hx) (by simpa using hn)
      apply Run.andThen_doc_inv (fun x => x.lookup g = d.lookup g)
      apply Run.andThen_doc_inv (fun x => x.lookup g = d.lookup g)
      apply Run.andThen_doc_inv (fun x => x.lookup g = d.lookup g)
      apply Run.andThen_doc_inv (fun x => x.lookup g = d.lookup g)
      · rw [(CustomId_wrote c w ctx _).lookup_ne h1
          (by rw [h0]; exact hcl _ (by simp)), h0]
      · intro w1 d1 hd1
        rw [(CustomCreateTime_wrote c w1 ctx d1).lookup_ne h2
          (by rw [hd1]; exact hcl _ (by simp)), hd1]
      · intro w1 d1 hd1
        rw [(CustomCreateBy_wrote c w1 ctx d1).lookup_ne h3
          (by rw [hd1]; exact hcl _ (by simp)), hd1]
      · intro w1 d1 hd1
        rw [(CustomUpdateTime_wrote c w1 ctx d1).lookup_ne h4
          (by rw [hd1]; exact hcl _ (by simp)), hd1]
      · intro w1 d1 hd1
        rw [(CustomUpdateBy_wrote c w1 ctx d1).lookup_ne h5
          (by rw [hd1]; exact hcl _ (by simp)), hd1]

theorem beforeUpdate_same (w : World) (ctx : Context) (d : Doc) :
    (beforeUpdate w ctx d).doc.isPtr = d.isPtr
      ∧ (beforeUpdate w ctx d).doc.customFields = d.customFields
      ∧ (beforeUpdate w ctx d).doc.defaultHook = d.defaultHook := by
  have h0 : (d.callDefault DefaultFieldHook.DefaultUpdateAt).isPtr = d.isPtr
      ∧ (d.callDefault DefaultFieldHook.DefaultUpdateAt).customFields = d.customFields
      ∧ (d.callDefault DefaultFieldHook.DefaultUpdateAt).defaultHook = d.defaultHook :=
    ⟨callDefault_isPtr _ _, callDefault_customFields _ _, callDefault_defaultHook _ _⟩
  simp only [beforeUpdate]
  rw [callDefault_customFields]
  cases hc : d.customFields with
  | none => rw [hc] at h0; exact h0
  | some b =>
    cases b with
    | foreign => rw [hc] at h0; exact h0
    | custom c =>
      rw [hc] at h0
      apply Run.andThen_doc_inv (fun x => x.isPtr = d.isPtr
        ∧ x.customFields = some (.custom c) ∧ x.defaultHook = d.defaultHook)
      · have h := (CustomUpdateTime_wrote c w ctx
          (d.callDefault DefaultFieldHook.DefaultUpdateAt)).same
        exact ⟨h.1.trans h0.1, h.2.1.trans h0.2.1, h.2.2.trans h0.2.2⟩
      · intro w1 d1 hd1
        have h := (CustomUpdateBy_wrote c w1 ctx d1).same
        exact ⟨h.1.trans hd1.1, h.2.1.trans hd1.2.1, h.2.2.trans hd1.2.2⟩

theorem beforeInsert_same (w : World) (ctx : Context) (d : Doc) :
    (beforeInsert w ctx d).doc.isPtr = d.isPtr
      ∧ (beforeInsert w ctx d).doc.customFields = d.customFields
      ∧ (beforeInsert w ctx d).doc.defaultHook = d.defaultHook := by
  generalize hd0 : ((d.callDefault DefaultFieldHook.DefaultId).callDefault
      DefaultFieldHook.DefaultCreateAt).callDefault
      DefaultFieldHook.DefaultUpdateAt = d0
  have h0 : d0.isPtr = d.isPtr ∧ d0.customFields = d.customFields
      ∧ d0.defaultHook = d.defaultHook := by
    subst hd0
    refine ⟨?_, ?_, ?_⟩
    · rw [callDefault_isPtr, callDefault_isPtr, callDefault_isPtr]
    · rw [callDefault_customFields, callDefault_customFields, callDefault_customFields]
    · rw [callDefault_defaultHook, callDefault_defaultHook, callDefault_defaultHook]
  simp only [beforeInsert, hd0]
  rw [h0.2.1]
  cases hc : d.customFields with
  | none => rw [hc] at h0; exact h0
  | some b =>
    cases b with
    | foreign => rw [hc] at h0; exact h0
    | custom c =>
      rw [hc] at h0
      apply Run.andThen_doc_inv (fun x => x.isPtr = d.isPtr
        ∧ x.customFields = some (.custom c) ∧ x.defaultHook = d.defaultHook)
      apply Run.andThen_doc_inv (fun x => x.isPtr = d.isPtr
        ∧ x.customFields = some (.custom c) ∧ x.defaultHook = d.defaultHook)
      apply Run.andThen_doc_inv (fun x => x.isPtr = d.isPtr
        ∧ x.customFields = some (.custom c) ∧ x.defaultHook = d.defaultHook)
      apply Run.andThen_doc_inv (fun x => x.isPtr = d.isPtr
        ∧ x.customFields = some (.custom c) ∧ x.defaultHook = d.defaultHook)
      · have h := (CustomId_wrote c w ctx d0).same
        exact ⟨h.1.trans h0.1, h.2.1.trans h0.2.1, h.2.2.trans h0.2.2⟩
      · intro w1 d1 hd1
        have h := (CustomCreateTime_wrote c w1 ctx d1).same
        exact ⟨h.1.trans hd1.1, h.2.1.trans hd1.2.1, h.2.2.trans hd1.2.2⟩
      · intro w1 d1 hd1
        have h := (CustomCreateBy_wrote c w1 ctx d1).same
        exact ⟨h.1.trans hd1.1, h.2.1.trans hd1.2.1, h.2.2.trans hd1.2.2⟩
      · intro w1 d1 hd1
        have h := (CustomUpdateTime_wrote c w1 ctx d1).same
        exact ⟨h.1.trans hd1.1, h.2.1.trans hd1.2.1, h.2.2.trans hd1.2.2⟩
      · intro w1 d1 hd1
        have h := (CustomUpdateBy_wrote c w1 ctx d1).same
        exact ⟨h.1.trans hd1.1, h.2.1.trans hd1.2.1, h.2.2.trans hd1.2.2⟩

theorem do_BeforeReplace (w : World) (ctx : Context) (d : Doc) :
    do_ w ctx d .BeforeReplace = do_ w ctx d .BeforeUpdate := rfl

theorem do_BeforeUpsert (w : World) (ctx : Context) (d : Doc) :
    do_ w ctx d .BeforeUpsert = do_ w ctx d .BeforeInsert := rfl

theorem sliceHandle_congr (op1 op2 : OpType)
    (h : ∀ w ctx d, do_ w ctx d op1 = do_ w ctx d op2) (w : World) (ctx : Context)
    (ds : List Doc) : sliceHandle w ctx ds op1 = sliceHandle w ctx ds op2 := by
  induction ds generalizing w with
  | nil => rfl
  | cons v rest ih => simp only [sliceHandle, h, ih]

theorem Do_congr (op1 op2 : OpType)
    (h : ∀ w ctx d, do_ w ctx d op1 = do_ w ctx d op2) (w : World) (ctx : Context)
    (doc : Input) : Do w ctx doc op1 = Do w ctx doc op2 := by
  cases doc with
  | doc d => cases d <;> simp only [Do, h]
  | slice ds => simp only [Do, sliceHandle_congr op1 op2 h]
  | ptrSlice ds => simp only [Do, sliceHandle_congr op1 op2 h]

theorem do_same (w : World) (ctx : Context) (d : Doc) (op : OpType) :
    (do_ w ctx d op).doc.isPtr = d.isPtr
      ∧ (do_ w ctx d op).doc.customFields = d.customFields
      ∧ (do_ w ctx d op).doc.defaultHook = d.defaultHook := by
  cases op with
  | BeforeInsert => exact beforeInsert_same w ctx d
  | BeforeUpdate => exact beforeUpdate_same w ctx d
  | BeforeReplace => exact beforeUpdate_same w ctx d
  | BeforeUpsert => exact beforeInsert_same w ctx d
  | other n => exact ⟨rfl, rfl, rfl⟩

theorem do_frame (w : World) (ctx : Context) (d : Doc) (op : OpType) (g : String)
    (hk : d.DefaultKeeps g)
    (hg : ∀ c, d.customFields = some (.custom c) →
      c.id ≠ g ∧ c.createAt ≠ g ∧ c.createBy ≠ g ∧ c.updateAt ≠ g ∧ c.updateBy ≠ g)
    (hpl : ∀ c x, d.customFields = some (.custom c) → d.lookup g = some x →
      x.val.clearOf [c.id, c.createAt, c.createBy, c.updateAt, c.updateBy] = true) :
    (do_ w ctx d op).doc.lookup g = d.lookup g := by
  cases op with
  | BeforeInsert => exact beforeInsert_frame w ctx d g hk hg hpl
  | BeforeUpdate =>
    exact beforeUpdate_frame w ctx d g hk
      (fun c hc => ⟨(hg c hc).2.2.2.1, (hg c hc).2.2.2.2⟩)
      (fun c x hc hx => clearOf_mono (hpl c x hc hx) (by simp))
  | BeforeReplace =>
    exact beforeUpdate_frame w ctx d g hk
      (fun c hc => ⟨(hg c hc).2.2.2.1, (hg c hc).2.2.2.2⟩)
      (fun c x hc hx => clearOf_mono (hpl c x hc hx) (by simp))
  | BeforeUpsert => exact beforeInsert_frame w ctx d g hk hg hpl
  | other n => rfl

/-! ## Lemmas: collections -/

theorem sliceHandle_append (w : World) (ctx : Context) (pre rest : List Doc) (op : OpType)
    (hpre : allHandled w ctx pre op = true) :
    sliceHandle w ctx (pre ++ rest) op
      = ⟨(sliceHandle (handleAll w ctx pre op).1 ctx rest op).world,
          (handleAll w ctx pre op).2
            ++ (sliceHandle (handleAll w ctx pre op).1 ctx rest op).doc,
          (sliceHandle (handleAll w ctx pre op).1 ctx rest op).exit⟩ := by
  induction pre generalizing w with
  | nil => rfl
  | cons v vs ih =>
    simp only [allHandled, Bool.and_eq_true, decide_eq_true_eq] at hpre
    rw [List.cons_append]
    simp only [sliceHandle, hpre.1, handleAll]
    rw [ih _ hpre.2]
    rfl

theorem sliceHandle_all (w : World) (ctx : Context) (ds : List Doc) (op : OpType)
    (h : allHandled w ctx ds op = true) :
    sliceHandle w ctx ds op = ⟨(handleAll w ctx ds op).1, (handleAll w ctx ds op).2, .ok⟩ := by
  have := sliceHandle_append w ctx ds [] op h
  simpa [sliceHandle] using this

theorem sliceHandle_fail (w : World) (ctx : Context) (pre post : List Doc) (d : Doc)
    (op : OpType) (p : Panic) (hpre : allHandled w ctx pre op = true)
    (hd : (do_ (handleAll w ctx pre op).1 ctx d op).exit = .panic p) :
    sliceHandle w ctx (pre ++ d :: post) op
      = ⟨(do_ (handleAll w ctx pre op).1 ctx d op).world,
          (handleAll w ctx pre op).2
            ++ (do_ (handleAll w ctx pre op).1 ctx d op).doc :: post,
          .panic p⟩ := by
  rw [sliceHandle_append w ctx pre (d :: post) op hpre]
  simp only [sliceHandle, hd]

/-! ## Lemmas: skipped fields, non-references and unknown phases -/

theorem skips_cases {r : Record} {f : String} {S : List Kind} (h : r.skips f S = true) :
    FieldByName r.fields f = none
      ∨ ∃ ca, FieldByName r.fields f = some ca
        ∧ (ca.CanSet = false ∨ ca.val.Interface.kind ∉ S) := by
  unfold Record.skips at h
  cases hf : FieldByName r.fields f with
  | none => exact Or.inl rfl
  | some ca =>
    right
    simp only [hf, Bool.or_eq_true, Bool.not_eq_true', decide_eq_true_eq] at h
    exact ⟨ca, rfl, h⟩

theorem setTime_skips (w : World) (ctx : Context) (r : Record) (f : String) (ow : Bool)
    (h : r.skips f timeKinds = true) :
    (setTime w ctx (.ptr r) f ow).exit = .ok ∧ (setTime w ctx (.ptr r) f ow).doc = .ptr r := by
  rcases skips_cases h with hf | ⟨ca, hf, hc | hk⟩
  · simp [setTime, hf]
  · simp [setTime, hf, hc]
  · by_cases hs : ca.CanSet = true
    · cases hv : ca.val.Interface <;> simp [hv, Dyn.kind, timeKinds] at hk <;>
        simp [setTime, hf, hs, hv]
    · simp [setTime, hf, hs]

theorem setUpdatedTime_skips (w : World) (ctx : Context) (r : Record) (f : String)
    (h : r.skips f timeKinds = true) :
    (setUpdatedTime w ctx (.ptr r) f).exit = .ok
      ∧ (setUpdatedTime w ctx (.ptr r) f).doc = .ptr r := by
  rcases skips_cases h with hf | ⟨ca, hf, hc | hk⟩
  · simp [setUpdatedTime, hf]
  · simp [setUpdatedTime, hf, hc]
  · by_cases hs : ca.CanSet = true
    · cases hv : ca.val.Interface <;> simp [hv, Dyn.kind, timeKinds] at hk <;>
        simp [setUpdatedTime, hf, hs, hv]
    · simp [setUpdatedTime, hf, hs]

theorem setBy_skips (w : World) (ctx : Context) (r : Record) (f k : String)
    (h : r.skips f byKinds = true) :
    (setBy w ctx (.ptr r) f k).exit = .ok ∧ (setBy w ctx (.ptr r) f k).doc = .ptr r := by
  rcases skips_cases h with hf | ⟨ca, hf, hc | hk⟩
  · simp [setBy, hf]
  · simp [setBy, hf, hc]
  · by_cases hs : ca.CanSet = true
    · cases hv : ca.val.Interface <;> simp [hv, Dyn.kind, byKinds] at hk <;>
        simp [setBy, hf, hs, hv]
    · simp [setBy, hf, hs]

theorem setId_skips (w : World) (ctx : Context) (r : Record) (f : String)
    (h : r.skips f idKinds = true) :
    (setId w ctx (.ptr r) f).exit = .ok ∧ (setId w ctx (.ptr r) f).doc = .ptr r := by
  rcases skips_cases h with hf | ⟨ca, hf, hc | hk⟩
  · simp [setId, hf]
  · simp [setId, hf, hc]
  · by_cases hs : ca.CanSet = true
    · cases hv : ca.val.Interface <;> simp [hv, Dyn.kind, idKinds] at hk <;>
        simp [setId, hf, hs, hv]
    · simp [setId, hf, hs]

theorem sliceHandle_other (w : World) (ctx : Context) (ds : List Doc) (name : String) :
    sliceHandle w ctx ds (.other name) = ⟨w, ds, .ok⟩ := by
  induction ds with
  | nil => rfl
  | cons v rest ih => simp only [sliceHandle, do_, fieldHandler, ih]

theorem mulUint64_toUint64 (x : Int) :
    mulUint64 (toUint64 x) 1000 = toUint64 (x * 1000) := by
  unfold mulUint64 toUint64
  have h1 : (0 : Int) ≤ x % 18446744073709551616 := Int.emod_nonneg _ (by norm_num)
  have h2 : (0 : Int) ≤ (x * 1000) % 18446744073709551616 :=
    Int.emod_nonneg _ (by norm_num)
  apply Int.ofNat_inj.mp
  norm_num
  rw [max_eq_left h1, max_eq_left h2]
  omega

theorem Custom_value (c : CustomFields) (w : World) (ctx : Context) (r : Record) :
    c.CustomId w ctx (.value r) = ⟨w, .value r, .ok⟩
      ∧ c.CustomCreateTime w ctx (.value r) = ⟨w, .value r, .ok⟩
      ∧ c.CustomCreateBy w ctx (.value r) = ⟨w, .value r, .ok⟩
      ∧ c.CustomUpdateTime w ctx (.value r) = ⟨w, .value r, .ok⟩
      ∧ c.CustomUpdateBy w ctx (.value r) = ⟨w, .value r, .ok⟩ := by
  refine ⟨?_, ?_, ?_, ?_, ?_⟩
  · unfold CustomFields.CustomId; split <;> rfl
  · unfold CustomFields.CustomCreateTime; split <;> rfl
  · unfold CustomFields.CustomCreateBy; split <;> rfl
  · unfold CustomFields.CustomUpdateTime; split <;> rfl
  · unfold CustomFields.CustomUpdateBy; split <;> rfl

theorem do_value (w : World) (ctx : Context) (r : Record) (op : OpType)
    (h : r.customHook ≠ some .foreign) : do_ w ctx (.value r) op = ⟨w, .value r, .ok⟩ := by
  have hcases : r.customHook = none ∨ ∃ c, r.customHook = some (.custom c) := by
    cases hc : r.customHook with
    | none => exact Or.inl rfl
    | some b =>
      cases b with
      | custom c => exact Or.inr ⟨c, rfl⟩
      | foreign => exact absurd hc h
  obtain ⟨e1, e2, e3, e4, e5⟩ : (∀ c : CustomFields, c.CustomId w ctx (.value r) = _)
      ∧ (∀ c : CustomFields, c.CustomCreateTime w ctx (.value r) = _)
      ∧ (∀ c : CustomFields, c.CustomCreateBy w ctx (.value r) = _)
      ∧ (∀ c : CustomFields, c.CustomUpdateTime w ctx (.value r) = _)
      ∧ (∀ c : CustomFields, c.CustomUpdateBy w ctx (.value r) = _) :=
    ⟨fun c => (Custom_value c w ctx r).1, fun c => (Custom_value c w ctx r).2.1,
      fun c => (Custom_value c w ctx r).2.2.1, fun c => (Custom_value c w ctx r).2.2.2.1,
      fun c => (Custom_value c w ctx r).2.2.2.2⟩
  cases op with
  | other n => rfl
  | _ =>
    rcases hcases with hc | ⟨c, hc⟩ <;>
      simp [do_, fieldHandler, beforeInsert, beforeUpdate, beforeUpsert, Doc.callDefault,
        Doc.customFields, hc, e1, e2, e3, e4, e5, Run.andThen]

theorem sliceHandle_values (w : World) (ctx : Context) (ds : List Doc) (op : OpType)
    (h : ∀ d ∈ ds, ∃ r, d = .value r ∧ r.customHook ≠ some .foreign) :
    sliceHandle w ctx ds op = ⟨w, ds, .ok⟩ := by
  induction ds with
  | nil => rfl
  | cons v rest ih =>
    obtain ⟨r, hv, hr⟩ := h v (List.mem_cons_self v rest)
    subst hv
    have ih1 := ih fun d hd => h d (List.mem_cons_of_mem _ hd)
    simp only [sliceHandle, do_value w ctx r op hr, ih1]

/-! ## The claims -/

/-- C1 (failing input). With the configuration `NewCustom().SetUpdateBy("UpdateBy",
"editor_ctx_key")` and a context holding `"alice"` at that key, `Do` with
`BeforeUpdate` returns and leaves `UpdateBy` empty: `CustomUpdateBy` tests `createBy`,
which is unset, and returns before calling `setBy`. -/
theorem c1_update_by_left_empty :
    (Do sampleWorld aliceContext (.doc (.ptr editedRecord)) .BeforeUpdate).doc.field
        "UpdateBy" = some (.string "")
      ∧ (Do sampleWorld aliceContext (.doc (.ptr editedRecord)) .BeforeUpdate).exit
        = .ok := by
  decide

/-- C2. A record reference whose `CustomFields()` names `f` as the update-time field,
`f` being a settable `int64` or `uint64` field with any previous value `old`: `Do`
with `BeforeUpdate` or `BeforeReplace` leaves in `f` the value computed from the
reading of `time.Now()` taken during the call (Unix seconds times 1000, in the
field's integer type), whatever `old` was. -/
theorem c2_update_time_overwritten (w : World) (ctx : Context) (r : Record)
    (c : CustomFields) (op : OpType) (f : String) (old : Value)
    (hop : op = .BeforeUpdate ∨ op = .BeforeReplace)
    (hc : r.customHook = some (.custom c)) (hu : c.updateAt = f) (hne : f ≠ "")
    (hf : FieldByName r.fields f = some ⟨f, true, old⟩)
    (hk : old.kind = .int64 ∨ old.kind = .uint64) :
    (Do w ctx (.doc (.ptr r)) op).doc.field f
      = some (match old with
        | .uint64 _ => .uint64 (mulUint64 (toUint64 (w.now w.ticks).Unix) 1000)
        | _ => .int64 (wrapInt64 ((w.now w.ticks).Unix * 1000))) := by
  have hdo : (Do w ctx (.doc (.ptr r)) op).doc.field f
      = (beforeUpdate w ctx (.ptr r)).doc.field f := by
    rcases hop with h | h <;> subst h <;> rfl
  have ht : (Doc.ptr r).fieldType f = some (true, old.kind) := by
    simp [Doc.fieldType, Doc.lookup, hf]
  have key := beforeUpdate_updateAt w ctx (.ptr r) c f rfl hc hu hne
  rw [hdo]
  cases old with
  | int64 n => exact key.1 ht
  | uint64 n => exact key.2 ht
  | _ => simp [Value.kind] at hk

/-- C2 (witness). `stampedRecord` holds 42 in `UpdateAt`; after `Do` with
`BeforeReplace` at clock reading 1700000000.5 s it holds 1700000000000. -/
theorem c2_update_time_overwritten_witness :
    (FieldByName stampedRecord.fields "UpdateAt" = some ⟨"UpdateAt", true, .int64 42⟩)
      ∧ (Do sampleWorld [] (.doc (.ptr stampedRecord)) .BeforeReplace).doc.field
        "UpdateAt" = some (.int64 1700000000000) :=
  ⟨by decide,
    c2_update_time_overwritten sampleWorld [] stampedRecord
      (NewCustom.SetUpdateAt "UpdateAt") .BeforeReplace "UpdateAt" (.int64 42)
      (Or.inr rfl) rfl rfl (by decide) (by decide) (Or.inl rfl)⟩

/-- C3 (failing input). `setUpdatedTime` on a settable `time.Time` field does not
complete: `reflect.Value.Set` is given an `int64` for a `time.Time` field and
panics; the field keeps its old value. -/
theorem c3_set_updated_time_panics_on_time :
    (setUpdatedTime sampleWorld [] (.ptr timedRecord) "UpdateAt").exit
        = .panic .notAssignable
      ∧ (setUpdatedTime sampleWorld [] (.ptr timedRecord) "UpdateAt").doc.field
        "UpdateAt" = some (.time ⟨1600000000, 0⟩) := by
  decide

/-- C4. A record reference whose `CustomFields()` names `f` as the create-time field,
`f` holding a non-zero `time.Time`, `int64` or `uint64` value `old`, and names no
other role on `f` (what the proof uses of this is that the update-time role is not
on `f`): `Do` with `BeforeInsert` or `BeforeUpsert` leaves `f` holding `old`. The
`DefaultFieldHook` methods, if the record type has them, are the type's own code and
are assumed not to write `f`. -/
theorem c4_create_time_kept (w : World) (ctx : Context) (r : Record) (c : CustomFields)
    (op : OpType) (f : String) (old : Value)
    (hop : op = .BeforeInsert ∨ op = .BeforeUpsert)
    (hc : r.customHook = some (.custom c)) (_hca : c.createAt = f)
    (hf : (Doc.ptr r).field f = some old)
    (hnz : (∃ t, old = .time t ∧ t.IsZero = false) ∨ (∃ n, old = .int64 n ∧ n ≠ 0)
      ∨ (∃ n, old = .uint64 n ∧ n ≠ 0))
    (hroles : c.id ≠ f ∧ c.createBy ≠ f ∧ c.updateAt ≠ f ∧ c.updateBy ≠ f)
    (hkeep : (Doc.ptr r).DefaultKeeps f) :
    (Do w ctx (.doc (.ptr r)) op).doc.field f = some old := by
  have hdo : (Do w ctx (.doc (.ptr r)) op).doc.field f
      = (beforeInsert w ctx (.ptr r)).doc.field f := by
    rcases hop with h | h <;> subst h <;> rfl
  rw [hdo]
  exact beforeInsert_keeps_create w ctx (.ptr r) c f old hf hnz hc hroles.2.2.1 hkeep

/-- C4 (witness). `storedRecord` holds 1234 in `CreateAt`; `Do` with `BeforeInsert`
leaves it there. -/
theorem c4_create_time_kept_witness :
    (Doc.ptr storedRecord).field "CreateAt" = some (.int64 1234)
      ∧ (Do sampleWorld [] (.doc (.ptr storedRecord)) .BeforeInsert).doc.field "CreateAt"
        = some (.int64 1234) :=
  ⟨by decide,
    c4_create_time_kept sampleWorld [] storedRecord
      (((NewCustom.SetId "Id").SetCreateAt "CreateAt").SetUpdateAt "UpdateAt")
      .BeforeInsert "CreateAt" (.int64 1234) (Or.inl rfl) rfl rfl (by decide)
      (Or.inr (Or.inl ⟨1234, rfl, by decide⟩)) (by decide)
      (fun _ hh => nomatch hh)⟩

/-- C5 (failing input). `setBy` on a settable string field with a context that has
no value at the key does not complete: the type assertion `by.(string)` on the nil
interface panics. The field keeps its old value. -/
theorem c5_set_by_panics_on_absent_key :
    Context.Value [] "creator" = none
      ∧ (setBy sampleWorld [] (.ptr ownedRecord) "CreateBy" "creator").exit
        = .panic .typeAssertion
      ∧ (setBy sampleWorld [] (.ptr ownedRecord) "CreateBy" "creator").doc.field
        "CreateBy" = some (.string "bob") := by
  decide

/-- C6 (counterexample). `sharedByRecord` names `CreateBy` with `SetCreateBy` (key
`"creator"`, holding `"alice"`) and also with `SetUpdateBy` (key `"editor"`, holding
`"bob"`): after `Do` with `BeforeInsert` the field holds `"bob"`, not `"alice"`,
because the update-by setter runs after the create-by setter. -/
theorem c6_counterexample_update_by_wins :
    sharedByRecord.customHook
        = some (.custom ((NewCustom.SetCreateBy "CreateBy" "creator").SetUpdateBy
          "CreateBy" "editor"))
      ∧ (Doc.ptr sharedByRecord).fieldType "CreateBy" = some (true, .string)
      ∧ Context.Value twoActorsContext "creator" = some (.str "alice")
      ∧ (Do sampleWorld twoActorsContext (.doc (.ptr sharedByRecord)) .BeforeInsert).exit
        = .ok
      ∧ (Do sampleWorld twoActorsContext (.doc (.ptr sharedByRecord))
          .BeforeInsert).doc.field "CreateBy" = some (.string "bob")
      ∧ (Do sampleWorld twoActorsContext (.doc (.ptr sharedByRecord))
          .BeforeInsert).doc.field "CreateBy" ≠ some (.string "alice") := by
  decide

/-- C6 (second counterexample). `ifaceStampRecord` names as create-time field a
settable field declared `interface{}` that holds the `int64` 0: `setTime` takes the
`int64` branch and `SetInt` panics on the field of interface kind, before
`CustomCreateBy` runs. `CreateBy` stays empty although the context holds `"alice"` at
the key. -/
theorem c6_counterexample_interface_create_time :
    (Doc.ptr ifaceStampRecord).fieldType "CreateAt" = some (true, .iface true)
      ∧ (Doc.ptr ifaceStampRecord).fieldType "CreateBy" = some (true, .string)
      ∧ Context.Value twoActorsContext "creator" = some (.str "alice")
      ∧ (Do sampleWorld twoActorsContext (.doc (.ptr ifaceStampRecord)) .BeforeInsert).exit
        = .panic .kindMismatch
      ∧ (Do sampleWorld twoActorsContext (.doc (.ptr ifaceStampRecord))
          .BeforeInsert).doc.field "CreateBy" = some (.string "") := by
  decide

/-- C6 (amended). A record reference whose `CustomFields()` names the settable string
field `f` as create-by field with key `k`, does not name `f` as update-by field, and
names as create-time field no settable field of type `time.Time` or of an interface
type; a context holding the non-empty string `s` at `k`: `Do` with `BeforeInsert`
leaves `f` equal to `s`. -/
theorem c6_create_by_written (w : World) (ctx : Context) (r : Record) (c : CustomFields)
    (f k s : String)
    (hc : r.customHook = some (.custom c))
    (hcb : c.createBy = f) (hck : c.createByKey = k) (hne : f ≠ "")
    (ht : (Doc.ptr r).fieldType f = some (true, .string))
    (hctx : ctx.Value k = some (.str s)) (hs : s ≠ "")
    (hub : c.updateBy ≠ f)
    (hct : (Doc.ptr r).fieldType c.createAt ≠ some (true, .time))
    (hci : ∀ e, (Doc.ptr r).fieldType c.createAt ≠ some (true, .iface e)) :
    (Do w ctx (.doc (.ptr r)) .BeforeInsert).doc.field f = some (.string s) :=
  beforeInsert_createBy w ctx (.ptr r) c f k s rfl hc hcb hck hne ht hctx hs hub
    fun _ hk => ⟨fun h => hct (h ▸ hk), fun e h => hci e (h ▸ hk)⟩

/-- C6 (witness). `authoredRecord` with `"alice"` at the key `"creator"`. -/
theorem c6_create_by_written_witness :
    (Doc.ptr authoredRecord).fieldType "CreateBy" = some (true, .string)
      ∧ Context.Value twoActorsContext "creator" = some (.str "alice")
      ∧ (Do sampleWorld twoActorsContext (.doc (.ptr authoredRecord))
          .BeforeInsert).doc.field "CreateBy" = some (.string "alice") :=
  ⟨by decide, by decide,
    c6_create_by_written sampleWorld twoActorsContext authoredRecord
      ((NewCustom.SetCreateAt "CreateAt").SetCreateBy "CreateBy" "creator")
      "CreateBy" "creator" "alice" rfl rfl rfl (by decide) (by decide) (by decide)
      (by decide) (by decide) (by decide) (fun e => by cases e <;> decide)⟩

/-- C7 (counterexample). The field `id` of `hiddenIdRecord` is an `ObjectID` holding
the zero identifier, but it is unexported: `setId` returns and leaves it zero, which
is not the identifier `primitive.NewObjectID()` would have given. -/
theorem c7_counterexample_unexported_id :
    (Doc.ptr hiddenIdRecord).field "id" = some (.objectID ⟨0⟩)
      ∧ ObjectID.IsZero ⟨0⟩ = true
      ∧ (setId sampleWorld [] (.ptr hiddenIdRecord) "id").exit = .ok
      ∧ (setId sampleWorld [] (.ptr hiddenIdRecord) "id").doc.field "id"
        = some (.objectID ⟨0⟩)
      ∧ (setId sampleWorld [] (.ptr hiddenIdRecord) "id").doc.field "id"
        ≠ some (.objectID sampleWorld.NewObjectID.1) := by
  decide

/-- C7 (amended). `setId` on a record reference whose named field `ca` exists and is
settable returns normally and: a field of type `ObjectID` ends up equal to the freshly
generated identifier if it was the zero identifier and is unchanged otherwise (so,
the generated identifier being new, it equals it exactly when it was zero); a field
of type string ends up equal to the freshly generated string if it was empty and is
unchanged otherwise (likewise); a field of an interface type that holds an `ObjectID`
ends up holding the generated identifier if it held the zero identifier and is
unchanged otherwise; in every other case, a field of an interface type that holds a
string included, the record is unchanged. -/
theorem c7_set_id (w : World) (ctx : Context) (r : Record) (f : String) (ca : Field)
    (hf : FieldByName r.fields f = some ca) (hset : ca.CanSet = true) :
    (setId w ctx (.ptr r) f).exit = .ok
      ∧ (∀ o, ca.val = .objectID o →
          (setId w ctx (.ptr r) f).doc.field f
              = some (.objectID (if o.IsZero then w.NewObjectID.1 else o))
            ∧ (w.NewObjectID.1 ≠ o →
              ((setId w ctx (.ptr r) f).doc.field f = some (.objectID w.NewObjectID.1)
                ↔ o.IsZero = true)))
      ∧ (∀ s, ca.val = .string s →
          (setId w ctx (.ptr r) f).doc.field f
              = some (.string (if s = "" then w.NewString.1 else s))
            ∧ (w.NewString.1 ≠ s →
              ((setId w ctx (.ptr r) f).doc.field f = some (.string w.NewString.1)
                ↔ s = "")))
      ∧ (∀ e o, ca.val = .iface e (.objectID o) →
          (setId w ctx (.ptr r) f).doc.field f
            = some (.iface e (.objectID (if o.IsZero then w.NewObjectID.1 else o))))
      ∧ ((∀ o, ca.val.Interface ≠ .objectID o) → ca.val.kind ≠ .string →
          (setId w ctx (.ptr r) f).doc = .ptr r) := by
  have hcur : ∀ v, ca.val = v → (Doc.ptr r).field f = some v := by
    intro v hv
    simp [Doc.field, Doc.lookup, hf, hv]
  refine ⟨setId_exit w ctx _ f rfl, ?_, ?_, ?_, ?_⟩
  · intro o ho
    have h1 : (setId w ctx (.ptr r) f).doc.field f
        = some (.objectID (if o.IsZero then w.NewObjectID.1 else o)) := by
      by_cases hz : o.IsZero = true
      · simp only [setId, hf, hset, ho, hz, if_true, Value.Interface, Value.Set,
          Record.write]
        exact field_set_self r f ca _ hf (by simp [Value.kind])
      · simp only [setId, hf, hset, ho, hz, if_true, if_false, Value.Interface]
        exact hcur _ ho
    refine ⟨h1, fun hne => ?_⟩
    rw [h1]
    by_cases hz : o.IsZero = true
    · simp [hz]
    · simp [hz, Ne.symm hne]
  · intro s hs
    have h1 : (setId w ctx (.ptr r) f).doc.field f
        = some (.string (if s = "" then w.NewString.1 else s)) := by
      by_cases hz : s = ""
      · simp only [setId, hf, hset, hs, hz, if_true, Value.Interface, Value.String,
          Value.SetString, Record.write]
        exact field_set_self r f ca _ hf (by simp [Value.kind])
      · simp only [setId, hf, hset, hs, hz, if_true, if_false, Value.Interface,
          Value.String]
        exact hcur _ hs
    refine ⟨h1, fun hne => ?_⟩
    rw [h1]
    by_cases hz : s = ""
    · simp [hz]
    · simp [hz, Ne.symm hne]
  · intro e o ho
    by_cases hz : o.IsZero = true
    · simp only [setId, hf, hset, ho, hz, if_true, Value.Interface, Value.Set, Dyn.kind,
        decide_True, Bool.or_true, Record.write]
      exact field_set_self r f ca _ hf (by simp [Value.kind])
    · simp only [setId, hf, hset, ho, hz, if_true, if_false, Value.Interface]
      exact hcur _ ho
  · intro h1 h2
    cases hv : ca.val with
    | objectID o => simp [hv, Value.Interface] at h1
    | string s => simp [hv, Value.kind] at h2
    | iface e held =>
      cases held with
      | objectID o => simp [hv, Value.Interface] at h1
      | _ => simp [setId, hf, hset, hv, Value.Interface, Value.String]
    | _ => simp [setId, hf, hset, hv, Value.Interface]

/-- C7 (witness). The exported `Id` of `newIdRecord` is the zero identifier and
`setId` replaces it by the generated one. -/
theorem c7_set_id_witness :
    FieldByName newIdRecord.fields "Id" = some ⟨"Id", true, .objectID ⟨0⟩⟩
      ∧ (setId sampleWorld [] (.ptr newIdRecord) "Id").doc.field "Id"
        = some (.objectID ⟨1⟩) :=
  ⟨by decide,
    ((c7_set_id sampleWorld [] newIdRecord "Id" ⟨"Id", true, .objectID ⟨0⟩⟩
      (by decide) rfl).2.1 ⟨0⟩ rfl).1⟩

/-- C8 (counterexample). With a clock that reads 0.5 s after the Unix epoch when the
first `BeforeInsert` stamps the create time, the value written is 0, which the zero
test of `setTime` takes for "not set": the second `BeforeInsert` writes the create
time again, and it differs from the value after the first call. -/
theorem c8_counterexample_epoch_clock :
    (insertTwice epochWorld [] (.doc (.ptr blankRecord))).1.exit = .ok
      ∧ (insertTwice epochWorld [] (.doc (.ptr blankRecord))).2.exit = .ok
      ∧ (insertTwice epochWorld [] (.doc (.ptr blankRecord))).1.doc.field "CreateAt"
        = some (.int64 0)
      ∧ (insertTwice epochWorld [] (.doc (.ptr blankRecord))).2.doc.field "CreateAt"
        = some (.int64 2000)
      ∧ (insertTwice epochWorld [] (.doc (.ptr blankRecord))).2.doc.field "CreateAt"
        ≠ (insertTwice epochWorld [] (.doc (.ptr blankRecord))).1.doc.field "CreateAt" := by
  decide

/-- C8 (amended). A record reference whose `CustomFields()` names three distinct
settable fields, the string `i` as identifier and the `int64` fields `ct` and `u` as
create time and update time, all initially empty or zero, and no create-by field;
the generated string is non-empty and the create time written by the first call is
not 0 (the clock is not within the second that starts the Unix epoch). Then both
calls of `Do` with `BeforeInsert` return; after the first call `i` holds the
generated string, `ct` the first reading and `u` the second reading of the clock
(Unix seconds times 1000); after the second call `i` and `ct` are as after the first
call and `u` holds the value of the fourth reading, the one the second call takes for
the update time. The `DefaultFieldHook` methods, if the record type has them, are
assumed not to write `i` and `ct`. -/
theorem c8_insert_twice (w : World) (ctx : Context) (r : Record) (c : CustomFields)
    (i ct u : String)
    (hc : r.customHook = some (.custom c))
    (hid : c.id = i) (hca : c.createAt = ct) (hua : c.updateAt = u)
    (hcb : c.createBy = "")
    (hne : i ≠ "" ∧ ct ≠ "" ∧ u ≠ "") (hdist : i ≠ ct ∧ i ≠ u ∧ ct ≠ u)
    (hi : FieldByName r.fields i = some ⟨i, true, .string ""⟩)
    (hct : FieldByName r.fields ct = some ⟨ct, true, .int64 0⟩)
    (hu : FieldByName r.fields u = some ⟨u, true, .int64 0⟩)
    (hkeep : (Doc.ptr r).DefaultKeeps i ∧ (Doc.ptr r).DefaultKeeps ct)
    (huuid : w.uuid w.uuids ≠ "")
    (hclock : wrapInt64 ((w.now w.ticks).Unix * 1000) ≠ 0) :
    (insertTwice w ctx (.doc (.ptr r))).1.exit = .ok
      ∧ (insertTwice w ctx (.doc (.ptr r))).2.exit = .ok
      ∧ (insertTwice w ctx (.doc (.ptr r))).1.doc.field i = some (.string (w.uuid w.uuids))
      ∧ (insertTwice w ctx (.doc (.ptr r))).1.doc.field ct
        = some (.int64 (wrapInt64 ((w.now w.ticks).Unix * 1000)))
      ∧ (insertTwice w ctx (.doc (.ptr r))).1.doc.field u
        = some (.int64 (wrapInt64 ((w.now (w.ticks + 1)).Unix * 1000)))
      ∧ (insertTwice w ctx (.doc (.ptr r))).2.doc.field i
        = (insertTwice w ctx (.doc (.ptr r))).1.doc.field i
      ∧ (insertTwice w ctx (.doc (.ptr r))).2.doc.field ct
        = (insertTwice w ctx (.doc (.ptr r))).1.doc.field ct
      ∧ (insertTwice w ctx (.doc (.ptr r))).2.doc.field u
        = some (.int64 (wrapInt64 ((w.now (w.ticks + 3)).Unix * 1000))) := by
  have hs : InsertSetup c i ct u (.ptr r) :=
    { isPtr := rfl
      custom := hc
      id_eq := hid
      createAt_eq := hca
      updateAt_eq := hua
      createBy_eq := hcb
      id_ne := hne.1
      createAt_ne := hne.2.1
      updateAt_ne := hne.2.2
      id_createAt := hdist.1
      id_updateAt := hdist.2.1
      createAt_updateAt := hdist.2.2
      id_type := by simp [Doc.fieldType, Doc.lookup, hi, Value.kind]
      createAt_type := by simp [Doc.fieldType, Doc.lookup, hct, Value.kind]
      updateAt_type := by simp [Doc.fieldType, Doc.lookup, hu, Value.kind]
      keeps_id := hkeep.1
      keeps_createAt := hkeep.2 }
  have hi0 : (Doc.ptr r).field i = some (.string "") := by simp [Doc.field, Doc.lookup, hi]
  have hct0 : (Doc.ptr r).field ct = some (.int64 0) := by
    simp [Doc.field, Doc.lookup, hct]
  obtain ⟨a1, a2, a3, a4, a5, a6, a7⟩ :=
    beforeInsert_step w ctx (.ptr r) c i ct u "" 0 hs hi0 hct0
  simp only [if_true] at a4 a5
  generalize hF : beforeInsert w ctx (.ptr r) = F at a1 a2 a3 a4 a5 a6 a7
  obtain ⟨b1, b2, b3, b4, b5, b6, _⟩ :=
    beforeInsert_step F.world ctx F.doc c i ct u _ _ a7 a4 a5
  simp only [huuid, hclock, if_false, a2, a3] at b4 b5 b6
  have h1 : (insertTwice w ctx (.doc (.ptr r))).1
      = ⟨F.world, .doc F.doc, F.exit⟩ := by
    simp only [insertTwice, Do_doc_beforeInsert w ctx (.ptr r) rfl, hF]
  have h2 : (insertTwice w ctx (.doc (.ptr r))).2
      = ⟨(beforeInsert F.world ctx F.doc).world, .doc (beforeInsert F.world ctx F.doc).doc,
          (beforeInsert F.world ctx F.doc).exit⟩ := by
    simp only [insertTwice, Do_doc_beforeInsert w ctx (.ptr r) rfl, hF,
      Do_doc_beforeInsert F.world ctx F.doc a7.isPtr]
  rw [h1, h2]
  simp only [Input.field]
  exact ⟨a1, b1, a4, a5, a6, b4.trans a4.symm, b5.trans a5.symm, by rw [b6]⟩

/-- C8 (witness). `blankRecord` with the clock of `sampleWorld` (readings
1700000000.5 s, then one second more at each call): after the second call the
identifier is still `"u"`, the create time still 1700000000000, and the update time
is 1700000003000. -/
theorem c8_insert_twice_witness :
    FieldByName blankRecord.fields "Id" = some ⟨"Id", true, .string ""⟩
      ∧ wrapInt64 ((sampleWorld.now sampleWorld.ticks).Unix * 1000) ≠ 0
      ∧ (insertTwice sampleWorld [] (.doc (.ptr blankRecord))).2.doc.field "Id"
        = some (.string "u")
      ∧ (insertTwice sampleWorld [] (.doc (.ptr blankRecord))).2.doc.field "CreateAt"
        = some (.int64 1700000000000)
      ∧ (insertTwice sampleWorld [] (.doc (.ptr blankRecord))).2.doc.field "UpdateAt"
        = some (.int64 1700000003000) := by
  have h := c8_insert_twice sampleWorld [] blankRecord
    (((NewCustom.SetId "Id").SetCreateAt "CreateAt").SetUpdateAt "UpdateAt")
    "Id" "CreateAt" "UpdateAt" rfl rfl rfl rfl rfl (by decide) (by decide)
    (by decide) (by decide) (by decide)
    ⟨fun _ hh => (nomatch hh), fun _ hh => (nomatch hh)⟩ (by decide) (by decide)
  exact ⟨by decide, by decide, h.2.2.2.2.2.1.trans h.2.2.1,
    h.2.2.2.2.2.2.1.trans h.2.2.2.1, h.2.2.2.2.2.2.2⟩

/-- C9 (counterexample). At the clock reading 1700000000.5 s (`UnixMilli`
1700000000500) `setTime` writes 1700000000000 into a settable `int64` field that
held 0, and 1700000000000 into a `uint64` field that held 0. -/
theorem c9_counterexample_unix_milli :
    (sampleWorld.now sampleWorld.ticks).UnixMilli = 1700000000500
      ∧ (Doc.ptr blankRecord).lookup "CreateAt" = some ⟨"CreateAt", true, .int64 0⟩
      ∧ (setTime sampleWorld [] (.ptr blankRecord) "CreateAt" false).doc.field "CreateAt"
        = some (.int64 1700000000000)
      ∧ (setTime sampleWorld [] (.ptr blankRecord) "CreateAt" false).doc.field "CreateAt"
        ≠ some (.int64 (sampleWorld.now sampleWorld.ticks).UnixMilli)
      ∧ (setTime sampleWorld [] (.ptr ⟨[⟨"CreateAt", true, .uint64 0⟩], none, none⟩)
          "CreateAt" false).doc.field "CreateAt" = some (.uint64 1700000000000) := by
  decide

/-- C9 (amended). For every clock reading, when `setTime` writes to a settable
`int64` field that was zero, the value written is the reading's Unix seconds times
1000 (wrapped into `int64`), and for a `uint64` field that was zero it is that
product modulo 2^64; this is the reading's `UnixMilli` when the reading's fraction
of a second is below one millisecond. -/
theorem c9_set_time_value (w : World) (ctx : Context) (r : Record) (f : String)
    (old : Value) (overWrite : Bool)
    (hf : FieldByName r.fields f = some ⟨f, true, old⟩)
    (hz : old = .int64 0 ∨ old = .uint64 0) :
    (setTime w ctx (.ptr r) f overWrite).exit = .ok
      ∧ (setTime w ctx (.ptr r) f overWrite).doc.field f
        = some (match old with
          | .uint64 _ => .uint64 (toUint64 ((w.now w.ticks).Unix * 1000))
          | _ => .int64 (wrapInt64 ((w.now w.ticks).Unix * 1000)))
      ∧ ((w.now w.ticks).nsec < 1000000 →
          wrapInt64 ((w.now w.ticks).Unix * 1000) = (w.now w.ticks).UnixMilli) := by
  refine ⟨?_, ?_, wrapInt64_unix_milli _⟩
  · rcases hz with h | h <;> subst h <;>
      simp [setTime, hf, Field.CanSet, Value.Interface, Value.SetInt, Value.SetUint,
        Record.write]
  · rcases hz with h | h <;> subst h
    · simp only [setTime, hf, Field.CanSet, if_true, Value.Interface, Value.SetInt,
        Record.write, World.timeNow]
      exact field_set_self r f _ _ hf (by simp [Value.kind])
    · simp only [setTime, hf, Field.CanSet, if_true, Value.Interface, Value.SetUint,
        Record.write, World.timeNow, toUint64_wrapInt64]
      exact field_set_self r f _ _ hf (by simp [Value.kind])

/-- C9 (witness). The `CreateAt` of `blankRecord` is 0 and `setTime` writes
1700000000000 at the clock reading 1700000000.5 s. -/
theorem c9_set_time_value_witness :
    FieldByName blankRecord.fields "CreateAt" = some ⟨"CreateAt", true, .int64 0⟩
      ∧ (setTime sampleWorld [] (.ptr blankRecord) "CreateAt" false).doc.field "CreateAt"
        = some (.int64 1700000000000) :=
  ⟨by decide,
    (c9_set_time_value sampleWorld [] blankRecord "CreateAt" (.int64 0) false
      (by decide) (Or.inl rfl)).2.1⟩

/-- C10 (failing input). `setTime` on a settable `time.Time` field holding the zero
time does not complete, with `overWrite` false or true: the branch gives
`reflect.Value.Set` an `int64` and panics. The field still holds the zero time. -/
theorem c10_set_time_panics_on_zero_time :
    ∀ overWrite : Bool,
      (setTime sampleWorld [] (.ptr freshTimedRecord) "CreateAt" overWrite).exit
          = .panic .notAssignable
        ∧ (setTime sampleWorld [] (.ptr freshTimedRecord) "CreateAt" overWrite).doc.field
          "CreateAt" = some (.time nilTime) := by
  decide

/-- C11 (counterexample). `restampedRecord` names its field `Stamp` both as create-time
and as update-time field: `Do` with `BeforeUpdate` overwrites the 1234 it held with
the value of the clock reading. -/
theorem c11_counterexample_shared_field :
    restampedRecord.customHook
        = some (.custom ((NewCustom.SetCreateAt "Stamp").SetUpdateAt "Stamp"))
      ∧ (Doc.ptr restampedRecord).field "Stamp" = some (.int64 1234)
      ∧ (Do sampleWorld [] (.doc (.ptr restampedRecord)) .BeforeUpdate).exit = .ok
      ∧ (Do sampleWorld [] (.doc (.ptr restampedRecord)) .BeforeUpdate).doc.field "Stamp"
        = some (.int64 1700000000000)
      ∧ (Do sampleWorld [] (.doc (.ptr restampedRecord)) .BeforeUpdate).doc.field "Stamp"
        ≠ (Doc.ptr restampedRecord).field "Stamp" := by
  decide

/-- C11 (second counterexample). `baseStampedRecord` names the embedded struct `Base` as
create-time field and the field `UpdateAt`, which `Base` declares, as update-time
field: two names, yet `Do` with `BeforeUpdate` changes what `Base` holds. -/
theorem c11_counterexample_embedded_struct :
    baseStampedRecord.customHook
        = some (.custom ((NewCustom.SetCreateAt "Base").SetUpdateAt "UpdateAt"))
      ∧ (Doc.ptr baseStampedRecord).field "Base"
        = some (.embedded [⟨["Base"], "UpdateAt", true, .int64 42⟩])
      ∧ (Do sampleWorld [] (.doc (.ptr baseStampedRecord)) .BeforeUpdate).exit = .ok
      ∧ (Do sampleWorld [] (.doc (.ptr baseStampedRecord)) .BeforeUpdate).doc.field "Base"
        = some (.embedded [⟨["Base"], "UpdateAt", true, .int64 1700000000000⟩])
      ∧ (Do sampleWorld [] (.doc (.ptr baseStampedRecord)) .BeforeUpdate).doc.field "Base"
        ≠ (Doc.ptr baseStampedRecord).field "Base" := by
  decide

/-- C11 (amended). A record reference whose `CustomFields()` names `f` as create-time
field and names neither its update-time field nor its update-by field on `f`, nor
on a field below `f` if `f` is an embedded struct, with any context: `Do` with
`BeforeUpdate` or `BeforeReplace` leaves `f` as it was before the call (also when `f`
is not a field of the record). The `DefaultFieldHook` methods, if the record type has
them, are the type's own code and are assumed not to write `f`. -/
theorem c11_create_time_kept_on_update (w : World) (ctx : Context) (r : Record)
    (c : CustomFields) (op : OpType) (f : String)
    (hop : op = .BeforeUpdate ∨ op = .BeforeReplace)
    (hc : r.customHook = some (.custom c)) (_hca : c.createAt = f)
    (hroles : c.updateAt ≠ f ∧ c.updateBy ≠ f)
    (hbelow : ∀ v, (Doc.ptr r).field f = some v →
      v.clearOf [c.updateAt, c.updateBy] = true)
    (hkeep : (Doc.ptr r).DefaultKeeps f) :
    (Do w ctx (.doc (.ptr r)) op).doc.field f = (Doc.ptr r).field f := by
  have hdo : (Do w ctx (.doc (.ptr r)) op).doc.field f
      = (beforeUpdate w ctx (.ptr r)).doc.field f := by
    rcases hop with h | h <;> subst h <;> rfl
  rw [hdo]
  simp only [Doc.field]
  rw [beforeUpdate_frame w ctx (.ptr r) f hkeep]
  · intro c1 hc1
    have : c1 = c := by
      simp only [Doc.customFields, hc, Option.some.injEq,
        CustomFieldsBuilder.custom.injEq] at hc1
      exact hc1.symm
    subst this
    exact hroles
  · intro c1 x hc1 hx
    have : c1 = c := by
      simp only [Doc.customFields, hc, Option.some.injEq,
        CustomFieldsBuilder.custom.injEq] at hc1
      exact hc1.symm
    subst this
    exact hbelow x.val (by simp [Doc.field, hx])

/-- C11 (witness). `storedRecord` names `CreateAt` and `UpdateAt`, two fields: `Do`
with `BeforeReplace` leaves the 1234 of `CreateAt`. -/
theorem c11_create_time_kept_on_update_witness :
    (Doc.ptr storedRecord).field "CreateAt" = some (.int64 1234)
      ∧ (Do sampleWorld [] (.doc (.ptr storedRecord)) .BeforeReplace).doc.field "CreateAt"
        = (Doc.ptr storedRecord).field "CreateAt" :=
  ⟨by decide,
    c11_create_time_kept_on_update sampleWorld [] storedRecord
      (((NewCustom.SetId "Id").SetCreateAt "CreateAt").SetUpdateAt "UpdateAt")
      .BeforeReplace "CreateAt" (Or.inr rfl) rfl rfl (by decide)
      (fun v hv => by
        have h : (Doc.ptr storedRecord).field "CreateAt" = some (.int64 1234) := by decide
        rw [h] at hv
        cases hv
        rfl)
      (fun _ hh => nomatch hh)⟩

/-- C12. For every world (clock and generators), context and input (one record, a
slice, or a pointer to a slice), `Do` with `BeforeReplace` gives the same world,
records and exit as `Do` with `BeforeUpdate`, and `Do` with `BeforeUpsert` the same as
`Do` with `BeforeInsert`. -/
theorem c12_replace_as_update_upsert_as_insert (w : World) (ctx : Context) (doc : Input) :
    Do w ctx doc .BeforeReplace = Do w ctx doc .BeforeUpdate
      ∧ Do w ctx doc .BeforeUpsert = Do w ctx doc .BeforeInsert :=
  ⟨Do_congr _ _ do_BeforeReplace w ctx doc, Do_congr _ _ do_BeforeUpsert w ctx doc⟩

/-- C13 (counterexample). The type of `embeddingRecord` embeds the struct `Base`, and
the configuration names only `UpdateAt`, a field that `Base` declares. After `Do`
with `BeforeUpdate` the field `Base`, whose name is none of the names in the
configuration, holds another value than before. -/
theorem c13_counterexample_embedded_struct :
    embeddingRecord.customHook = some (.custom (NewCustom.SetUpdateAt "UpdateAt"))
      ∧ "Base" ∉ [(NewCustom.SetUpdateAt "UpdateAt").id,
          (NewCustom.SetUpdateAt "UpdateAt").createAt,
          (NewCustom.SetUpdateAt "UpdateAt").createBy,
          (NewCustom.SetUpdateAt "UpdateAt").updateAt,
          (NewCustom.SetUpdateAt "UpdateAt").updateBy]
      ∧ (Doc.ptr embeddingRecord).field "Base"
        = some (.embedded [⟨["Base"], "UpdateAt", true, .int64 42⟩])
      ∧ (Do sampleWorld [] (.doc (.ptr embeddingRecord)) .BeforeUpdate).exit = .ok
      ∧ (Do sampleWorld [] (.doc (.ptr embeddingRecord)) .BeforeUpdate).doc.field "Base"
        = some (.embedded [⟨["Base"], "UpdateAt", true, .int64 1700000000000⟩])
      ∧ (Do sampleWorld [] (.doc (.ptr embeddingRecord)) .BeforeUpdate).doc.field "Base"
        ≠ (Doc.ptr embeddingRecord).field "Base" := by
  decide

/-- C13 (amended). A record reference whose type has no `DefaultFieldHook` methods and
whose `CustomFields()` returns the configuration `c`, with any phase and any context:
after `Do` the input is still a reference to a record with the same configuration
`c`, and every field, declared by the struct or promoted from an embedded struct,
whose name is none of the five names stored in `c` and which, if it is an embedded
struct, has no field below it with one of these names, is as it was before. -/
theorem c13_other_fields_kept (w : World) (ctx : Context) (r : Record) (c : CustomFields)
    (op : OpType) (hd : r.defaultHook = none) (hc : r.customHook = some (.custom c)) :
    ∃ r1, (Do w ctx (.doc (.ptr r)) op).doc = .doc (.ptr r1)
      ∧ r1.customHook = some (.custom c) ∧ r1.defaultHook = none
      ∧ ∀ g, g ∉ [c.id, c.createAt, c.createBy, c.updateAt, c.updateBy] →
          (∀ x, FieldByName r.fields g = some x →
            x.val.clearOf [c.id, c.createAt, c.createBy, c.updateAt, c.updateBy] = true) →
          FieldByName r1.fields g = FieldByName r.fields g := by
  have hdo : (Do w ctx (.doc (.ptr r)) op).doc = .doc (do_ w ctx (.ptr r) op).doc := rfl
  have hs := do_same w ctx (.ptr r) op
  have hf := do_frame w ctx (.ptr r) op
  rw [hdo]
  generalize (do_ w ctx (.ptr r) op).doc = d1 at hs hf
  cases d1 with
  | ptr r1 =>
    refine ⟨r1, rfl, hs.2.1.trans hc, hs.2.2.trans hd, fun g hg hpl => ?_⟩
    apply hf g
    · intro h hh
      simp [Doc.defaultHook, hd] at hh
    · intro c1 hc1
      have : c1 = c := by
        simp only [Doc.customFields, hc, Option.some.injEq,
          CustomFieldsBuilder.custom.injEq] at hc1
        exact hc1.symm
      subst this
      simp only [List.mem_cons, List.mem_singleton, List.not_mem_nil, or_false,
        not_or] at hg
      exact ⟨fun h => hg.1 h.symm, fun h => hg.2.1 h.symm, fun h => hg.2.2.1 h.symm,
        fun h => hg.2.2.2.1 h.symm, fun h => hg.2.2.2.2 h.symm⟩
    · intro c1 x hc1 hx
      have : c1 = c := by
        simp only [Doc.customFields, hc, Option.some.injEq,
          CustomFieldsBuilder.custom.injEq] at hc1
        exact hc1.symm
      subst this
      exact hpl x hx
  | _ => simp [Doc.isPtr] at hs

/-- C13 (witness). In `stampedRecord` the configuration names `UpdateAt` only; after
`Do` with `BeforeUpdate` the field `Name` is as before, while `UpdateAt` is not. -/
theorem c13_other_fields_kept_witness :
    ∃ r1, (Do sampleWorld [] (.doc (.ptr stampedRecord)) .BeforeUpdate).doc
        = .doc (.ptr r1)
      ∧ r1.customHook = some (.custom (NewCustom.SetUpdateAt "UpdateAt"))
      ∧ FieldByName r1.fields "Name" = some ⟨"Name", true, .string "n"⟩
      ∧ FieldByName r1.fields "UpdateAt" ≠ FieldByName stampedRecord.fields "UpdateAt" := by
  obtain ⟨r1, h1, h2, _, h4⟩ :=
    c13_other_fields_kept sampleWorld [] stampedRecord (NewCustom.SetUpdateAt "UpdateAt")
      .BeforeUpdate rfl rfl
  have hn : FieldByName stampedRecord.fields "Name" = some ⟨"Name", true, .string "n"⟩ := by
    decide
  have hpl : ∀ x, FieldByName stampedRecord.fields "Name" = some x →
      x.val.clearOf ["", "", "", "UpdateAt", ""] = true := by
    intro x hx
    rw [hn] at hx
    cases hx
    rfl
  refine ⟨r1, h1, h2, (h4 "Name" (by decide) hpl).trans hn, ?_⟩
  have h5 : r1 = stampedRecord.set "UpdateAt" (.int64 1700000000000) := by
    have : (Do sampleWorld [] (.doc (.ptr stampedRecord)) .BeforeUpdate).doc
        = .doc (.ptr (stampedRecord.set "UpdateAt" (.int64 1700000000000))) := by
      rfl
    rw [this] at h1
    injection h1 with h1
    injection h1 with h1
    exact h1.symm
  subst h5
  decide

/-- C14 (counterexample). No handler returns an error, each one ends in `return nil`:
in no collection does a record report a failure. Yet `Do` with `BeforeUpdate` on the
slice of `timedRecord` and `stampedRecord` does not report success: handling the
first record panics, `Do` does not return, and the second record is not processed
(its `UpdateAt` is still 42, where handling it writes the clock reading). -/
theorem c14_counterexample_panic_not_reported :
    (do_ sampleWorld [] (.ptr timedRecord) .BeforeUpdate).exit = .panic .notAssignable
      ∧ (Do sampleWorld [] (.slice [.ptr timedRecord, .ptr stampedRecord])
          .BeforeUpdate).exit ≠ .ok
      ∧ (Do sampleWorld [] (.slice [.ptr timedRecord, .ptr stampedRecord])
          .BeforeUpdate).doc.docs.map (fun d => d.field "UpdateAt")
        = [some (.time ⟨1600000000, 0⟩), some (.int64 42)]
      ∧ (do_ sampleWorld [] (.ptr stampedRecord) .BeforeUpdate).doc.field "UpdateAt"
        = some (.int64 1700000000000) := by
  decide

/-- C14 (amended). A collection (slice or pointer to a slice) whose records `pre` are
all handled without a panic: `Do` on `pre` alone returns `nil` and leaves every
record as the handler sequence of the phase left it, in order. If a further record
`d` follows whose handling panics, `Do` on `pre`, `d` and any records `post` ends in
that same panic, which it passes on to its caller, with `pre` processed, `d` as its
handler left it and `post` untouched. -/
theorem c14_fail_fast (w : World) (ctx : Context) (op : OpType) (pre : List Doc)
    (hpre : allHandled w ctx pre op = true) :
    Do w ctx (.slice pre) op
        = ⟨(handleAll w ctx pre op).1, .slice (handleAll w ctx pre op).2, .ok⟩
      ∧ Do w ctx (.ptrSlice pre) op
        = ⟨(handleAll w ctx pre op).1, .ptrSlice (handleAll w ctx pre op).2, .ok⟩
      ∧ ∀ (d : Doc) (post : List Doc) (p : Panic),
          (do_ (handleAll w ctx pre op).1 ctx d op).exit = .panic p →
          Do w ctx (.slice (pre ++ d :: post)) op
              = ⟨(do_ (handleAll w ctx pre op).1 ctx d op).world,
                  .slice ((handleAll w ctx pre op).2
                    ++ (do_ (handleAll w ctx pre op).1 ctx d op).doc :: post),
                  .panic p⟩
            ∧ Do w ctx (.ptrSlice (pre ++ d :: post)) op
              = ⟨(do_ (handleAll w ctx pre op).1 ctx d op).world,
                  .ptrSlice ((handleAll w ctx pre op).2
                    ++ (do_ (handleAll w ctx pre op).1 ctx d op).doc :: post),
                  .panic p⟩ := by
  refine ⟨?_, ?_, fun d post p hd => ⟨?_, ?_⟩⟩
  · simp only [Do, sliceHandle_all w ctx pre op hpre]
  · simp only [Do, sliceHandle_all w ctx pre op hpre]
  · simp only [Do, sliceHandle_fail w ctx pre post d op p hpre hd]
  · simp only [Do, sliceHandle_fail w ctx pre post d op p hpre hd]

/-- C14 (witness). A slice of three records with phase `BeforeUpdate`: the first is
stamped, the second has a `time.Time` update-time field and its handler panics, the
third keeps its 42. -/
theorem c14_fail_fast_witness :
    allHandled sampleWorld [] [.ptr stampedRecord] .BeforeUpdate = true
      ∧ (Do sampleWorld []
          (.slice [.ptr stampedRecord, .ptr timedRecord, .ptr stampedRecord])
          .BeforeUpdate).exit = .panic .notAssignable
      ∧ (Do sampleWorld []
          (.slice [.ptr stampedRecord, .ptr timedRecord, .ptr stampedRecord])
          .BeforeUpdate).doc.docs.map (fun d => d.field "UpdateAt")
        = [some (.int64 1700000000000), some (.time ⟨1600000000, 0⟩), some (.int64 42)] := by
  have h := ((c14_fail_fast sampleWorld [] .BeforeUpdate [.ptr stampedRecord]
    (by decide)).2.2 (.ptr timedRecord) [.ptr stampedRecord] .notAssignable
    (by decide)).1
  refine ⟨by decide, ?_, ?_⟩
  · exact congrArg Run.exit h
  · exact congrArg (fun x => x.doc.docs.map fun d => d.field "UpdateAt") h

/-- C15 (counterexample). The field `Id` of `ifaceIdRecord` is declared `interface{}`, a
type outside the set of `setId` (`ObjectID`, string), and holds the zero `ObjectID`:
`setId` switches on the type of the value held, returns normally, and has written
the generated identifier. -/
theorem c15_counterexample_interface_field :
    (Doc.ptr ifaceIdRecord).fieldType "Id" = some (true, .iface true)
      ∧ Kind.iface true ∉ idKinds
      ∧ (Doc.ptr ifaceIdRecord).field "Id" = some (.iface true (.objectID ⟨0⟩))
      ∧ (setId sampleWorld [] (.ptr ifaceIdRecord) "Id").exit = .ok
      ∧ (setId sampleWorld [] (.ptr ifaceIdRecord) "Id").doc.field "Id"
        = some (.iface true (.objectID ⟨1⟩))
      ∧ (setId sampleWorld [] (.ptr ifaceIdRecord) "Id").doc.field "Id"
        ≠ (Doc.ptr ifaceIdRecord).field "Id" := by
  decide

/-- C15 (amended). For each of the four setters, a record reference and any context: if
the named field does not exist in the record, is not settable, or holds a value whose
type (the declared type of the field or, for a field of an interface type, the type
of the value in it) is one the setter has no branch for, the setter returns normally
and the record is unchanged. -/
theorem c15_setters_skip (w : World) (ctx : Context) (r : Record) (f k : String)
    (overWrite : Bool) :
    (r.skips f timeKinds = true →
        (setTime w ctx (.ptr r) f overWrite).exit = .ok
          ∧ (setTime w ctx (.ptr r) f overWrite).doc = .ptr r)
      ∧ (r.skips f timeKinds = true →
        (setUpdatedTime w ctx (.ptr r) f).exit = .ok
          ∧ (setUpdatedTime w ctx (.ptr r) f).doc = .ptr r)
      ∧ (r.skips f byKinds = true →
        (setBy w ctx (.ptr r) f k).exit = .ok ∧ (setBy w ctx (.ptr r) f k).doc = .ptr r)
      ∧ (r.skips f idKinds = true →
        (setId w ctx (.ptr r) f).exit = .ok ∧ (setId w ctx (.ptr r) f).doc = .ptr r) :=
  ⟨setTime_skips w ctx r f overWrite, setUpdatedTime_skips w ctx r f,
    setBy_skips w ctx r f k, setId_skips w ctx r f⟩

/-- C15 (witness). In `plainRecord` the field `Name` is a string, which `setTime` has
no branch for; `updateAt` is unexported; `CreateBy` does not exist. -/
theorem c15_setters_skip_witness :
    (FieldByName plainRecord.fields "Name" = some ⟨"Name", true, .string "n"⟩
        ∧ (setTime sampleWorld [] (.ptr plainRecord) "Name" true).exit = .ok
        ∧ (setTime sampleWorld [] (.ptr plainRecord) "Name" true).doc = .ptr plainRecord)
      ∧ (FieldByName plainRecord.fields "updateAt" = some ⟨"updateAt", false, .int64 7⟩
        ∧ (setUpdatedTime sampleWorld [] (.ptr plainRecord) "updateAt").exit = .ok
        ∧ (setUpdatedTime sampleWorld [] (.ptr plainRecord) "updateAt").doc
          = .ptr plainRecord)
      ∧ (FieldByName plainRecord.fields "CreateBy" = none
        ∧ (setBy sampleWorld [] (.ptr plainRecord) "CreateBy" "creator").exit = .ok
        ∧ (setBy sampleWorld [] (.ptr plainRecord) "CreateBy" "creator").doc
          = .ptr plainRecord) :=
  ⟨⟨by decide,
      (c15_setters_skip sampleWorld [] plainRecord "Name" "" true).1 (by decide)⟩,
    ⟨by decide,
      (c15_setters_skip sampleWorld [] plainRecord "updateAt" "" true).2.1 (by decide)⟩,
    ⟨by decide,
      (c15_setters_skip sampleWorld [] plainRecord "CreateBy" "creator" true).2.2.1
        (by decide)⟩⟩

/-- C16. An input of `Do` that is one document and not a reference (the nil
interface, a record by value, a value of another kind), with any phase: `Do` returns
`nil` and changes nothing. And each of the four setters, given a record by value,
returns normally and leaves it unchanged. -/
theorem c16_non_reference (w : World) (ctx : Context) (d : Doc) (op : OpType)
    (hd : d.isPtr = false) :
    Do w ctx (.doc d) op = ⟨w, .doc d, .ok⟩
      ∧ ∀ (r : Record) (f k : String) (overWrite : Bool),
          setTime w ctx (.value r) f overWrite = ⟨w, .value r, .ok⟩
            ∧ setUpdatedTime w ctx (.value r) f = ⟨w, .value r, .ok⟩
            ∧ setBy w ctx (.value r) f k = ⟨w, .value r, .ok⟩
            ∧ setId w ctx (.value r) f = ⟨w, .value r, .ok⟩ := by
  refine ⟨?_, fun r f k overWrite => ⟨rfl, rfl, rfl, rfl⟩⟩
  cases d with
  | ptr r => simp [Doc.isPtr] at hd
  | _ => rfl

/-- C16 (witness). `Do` with `BeforeInsert` on `ownedRecord` passed by value returns
and `CreateBy` is still `"bob"`, with `"alice"` in the context. -/
theorem c16_non_reference_witness :
    (Doc.value ownedRecord).isPtr = false
      ∧ (Do sampleWorld twoActorsContext (.doc (.value ownedRecord)) .BeforeInsert).exit
        = .ok
      ∧ (Do sampleWorld twoActorsContext (.doc (.value ownedRecord))
          .BeforeInsert).doc.field "CreateBy" = some (.string "bob") :=
  ⟨rfl,
    congrArg Run.exit
      (c16_non_reference sampleWorld twoActorsContext (.value ownedRecord) .BeforeInsert
        rfl).1,
    congrArg (fun x => x.doc.field "CreateBy")
      (c16_non_reference sampleWorld twoActorsContext (.value ownedRecord) .BeforeInsert
        rfl).1⟩

/-- C17. A phase that is none of `BeforeInsert`, `BeforeUpdate`, `BeforeReplace`,
`BeforeUpsert`, with any context and any input (one record, a slice, a pointer to a
slice): `Do` returns `nil` and leaves the input, and the world, as they were. -/
theorem c17_unknown_phase (w : World) (ctx : Context) (doc : Input) (op : OpType)
    (h1 : op ≠ .BeforeInsert) (h2 : op ≠ .BeforeUpdate) (h3 : op ≠ .BeforeReplace)
    (h4 : op ≠ .BeforeUpsert) : Do w ctx doc op = ⟨w, doc, .ok⟩ := by
  cases op with
  | other name =>
    cases doc with
    | doc d => cases d <;> rfl
    | slice ds => simp only [Do, sliceHandle_other]
    | ptrSlice ds => simp only [Do, sliceHandle_other]
  | BeforeInsert => exact absurd rfl h1
  | BeforeUpdate => exact absurd rfl h2
  | BeforeReplace => exact absurd rfl h3
  | BeforeUpsert => exact absurd rfl h4

/-- C17 (witness). With the phase `afterInsert`, `Do` on a slice holding a reference
to `blankRecord` returns and the record's `UpdateAt` is still 0. -/
theorem c17_unknown_phase_witness :
    (Do sampleWorld [] (.slice [.ptr blankRecord]) (.other "afterInsert")).exit = .ok
      ∧ (Do sampleWorld [] (.slice [.ptr blankRecord])
          (.other "afterInsert")).doc.docs.map (fun d => d.field "UpdateAt")
        = [some (.int64 0)] :=
  ⟨congrArg Run.exit
      (c17_unknown_phase sampleWorld [] (.slice [.ptr blankRecord]) (.other "afterInsert")
        (by decide) (by decide) (by decide) (by decide)),
    congrArg (fun x => x.doc.docs.map fun d => d.field "UpdateAt")
      (c17_unknown_phase sampleWorld [] (.slice [.ptr blankRecord]) (.other "afterInsert")
        (by decide) (by decide) (by decide) (by decide))⟩

/-- C18. For every clock reading and every record reference whose named field is a
settable `int64` or `uint64`, `setTime` with `overWrite` true gives the same world,
record and exit as `setUpdatedTime`. For `uint64` the value `setTime` computes
(seconds times 1000 in `int64`, then converted) and the value `setUpdatedTime`
computes (seconds converted, then times 1000 in `uint64`) are both the seconds times
1000 modulo 2^64. -/
theorem c18_set_time_overwrite_as_set_updated_time (w : World) (ctx : Context)
    (r : Record) (f : String) (ca : Field)
    (hf : FieldByName r.fields f = some ca) (hset : ca.CanSet = true)
    (hk : ca.val.kind = .int64 ∨ ca.val.kind = .uint64) :
    setTime w ctx (.ptr r) f true = setUpdatedTime w ctx (.ptr r) f
      ∧ toUint64 (wrapInt64 ((w.now w.ticks).Unix * 1000))
        = (((w.now w.ticks).Unix * 1000) % 2 ^ 64).toNat
      ∧ mulUint64 (toUint64 (w.now w.ticks).Unix) 1000
        = (((w.now w.ticks).Unix * 1000) % 2 ^ 64).toNat := by
  refine ⟨?_, toUint64_wrapInt64 _, mulUint64_toUint64 _⟩
  cases hv : ca.val with
  | int64 n =>
    by_cases hz : n = 0 <;>
      simp [setTime, setUpdatedTime, hf, hset, hv, hz, Value.Interface]
  | uint64 n =>
    by_cases hz : n = 0 <;>
      simp [setTime, setUpdatedTime, hf, hset, hv, hz, toUint64_wrapInt64,
        mulUint64_toUint64, Value.Interface]
  | _ => simp [hv, Value.kind] at hk

/-- C18 (witness). On `countedRecord`, whose `uint64` field `UpdateAt` holds 5, both
setters write 1700000000000. -/
theorem c18_set_time_overwrite_as_set_updated_time_witness :
    FieldByName countedRecord.fields "UpdateAt" = some ⟨"UpdateAt", true, .uint64 5⟩
      ∧ (setUpdatedTime sampleWorld [] (.ptr countedRecord) "UpdateAt").doc.field
        "UpdateAt" = some (.uint64 1700000000000)
      ∧ (setTime sampleWorld [] (.ptr countedRecord) "UpdateAt" true).doc.field "UpdateAt"
        = some (.uint64 1700000000000) := by
  have h := (c18_set_time_overwrite_as_set_updated_time sampleWorld [] countedRecord
    "UpdateAt" ⟨"UpdateAt", true, .uint64 5⟩ (by decide) rfl (Or.inr rfl)).1
  refine ⟨by decide, by decide, ?_⟩
  rw [h]
  decide

/-- C19. A slice of records by value whose type has no `DefaultFieldHook` methods and
whose `CustomFields()` returns a configuration, with any phase and context: `Do`
returns `nil` and every element, and the world, is as before. -/
theorem c19_slice_of_values (w : World) (ctx : Context) (ds : List Doc) (op : OpType)
    (h : ∀ d ∈ ds, ∃ r c, d = .value r ∧ r.defaultHook = none
      ∧ r.customHook = some (.custom c)) :
    Do w ctx (.slice ds) op = ⟨w, .slice ds, .ok⟩ := by
  have h1 : ∀ d ∈ ds, ∃ r, d = .value r ∧ r.customHook ≠ some .foreign := by
    intro d hd
    obtain ⟨r, c, h2, _, h4⟩ := h d hd
    exact ⟨r, h2, by simp [h4]⟩
  simp only [Do, sliceHandle_values w ctx ds op h1]

/-- C19 (witness). `Do` with `BeforeUpdate` on a slice holding `stampedRecord` by
value returns and `UpdateAt` is still 42. -/
theorem c19_slice_of_values_witness :
    (Do sampleWorld [] (.slice [.value stampedRecord]) .BeforeUpdate).exit = .ok
      ∧ (Do sampleWorld [] (.slice [.value stampedRecord])
          .BeforeUpdate).doc.docs.map (fun d => d.field "UpdateAt")
        = [some (.int64 42)] := by
  have h := c19_slice_of_values sampleWorld [] [.value stampedRecord] .BeforeUpdate
    (by
      intro d hd
      simp only [List.mem_singleton] at hd
      exact ⟨stampedRecord, NewCustom.SetUpdateAt "UpdateAt", hd, rfl, rfl⟩)
  exact ⟨congrArg Run.exit h,
    congrArg (fun x => x.doc.docs.map fun d => d.field "UpdateAt") h⟩

end Qmgo
